import Mathlib

/-!
# MultiSearchFirstPositionImpl

A shallow embedding of `src/Functions/MultiSearchFirstPositionImpl.h`: the two
batch drivers `vectorConstant` and `vectorVector` of the function family
`multiSearchFirstPosition`.

Conventions of the embedding.

* A byte is a `Nat`, a byte buffer (`ColumnString::Chars`) is a `List Nat`, a
  pointer into the haystack buffer is the index of the byte it points to.
  Pointer arithmetic is done modulo `2 ^ 64`.
* `UInt64` / `size_t` values are `Nat`; where the source does arithmetic on
  them the model reduces modulo `2 ^ 64`.
* The template parameter `Impl` (the search engine and the character counter)
  is not part of the sources; it is a parameter of every definition.
* A `while (searcher.hasMoreToSearch())` loop is run with a fuel bound on the
  number of evaluations of its condition; running out of fuel is a separate
  outcome, distinct from returning and from throwing.
* The only library failure modelled is the `std::length_error` of
  `std::vector::reserve`; running out of memory is not modelled.
* Every call of `searchOneFirstPosition` is recorded, in order, in a ghost log
  together with the value it returned.
-/

namespace MultiSearchFirstPosition


/-- The word size of `size_t`, `UInt64` and of pointers. -/
def wordSize : Nat := 2 ^ 64

/-- Pointer plus unsigned offset (`p + n`). -/
def ptrAdd (p n : Nat) : Nat := (p + n) % wordSize

/-- Pointer minus unsigned offset (`p - n`). -/
def ptrSub (p n : Nat) : Nat := (p + (wordSize - n % wordSize)) % wordSize

/-- Subtraction of two `size_t` values (`a - b`). -/
def sizeSub (a b : Nat) : Nat := (a + (wordSize - b % wordSize)) % wordSize

/-- `std::vector<std::string_view>::max_size()`. The standard library is not part of the
sources; this is the value of libc++, which ClickHouse is built with, for a 16-byte
`std::string_view` and a 64-bit `size_t`: the smaller of `SIZE_MAX / 16` and
`PTRDIFF_MAX`, that is `(2 ^ 64 - 1) / 16`. A `reserve` of more elements throws
`std::length_error`; failure to allocate a request within this bound is not modelled. -/
def vectorMaxSize : Nat := (wordSize - 1) / 16

/-- Error codes of `DB::ErrorCodes` that this header refers to. -/
inductive ErrorCode where
  | TOO_MANY_ARGUMENTS_FOR_FUNCTION
  deriving DecidableEq, Repr

/-- A thrown `DB::Exception`: the code, the format string and the formatted arguments. -/
structure Exception where
  code : ErrorCode
  format : String
  args : List String
  deriving DecidableEq, Repr

/-- How a call ended: it returned, it threw a `DB::Exception`, it threw the
`std::length_error` of `std::vector::reserve`, or the loop bound of the model ran out. -/
inductive Status where
  | returned
  | thrown (e : Exception)
  | lengthError
  | outOfFuel
  deriving DecidableEq, Repr

/-- One recorded call `searcher.searchOneFirstPosition(haystack, haystack_end, res_callback)`:
the pass (`iteration`) and row it was made for, the two pointers, and the returned value. -/
structure SearchCall where
  iteration : Nat
  row : Nat
  haystack : Nat
  haystack_end : Nat
  result : Nat
  deriving DecidableEq, Repr

/-- The observable state at the end of a driver call: how it ended, the result
buffer `res`, and the log of the search calls made. -/
structure Final where
  status : Status
  res : List Nat
  calls : List SearchCall
  deriving DecidableEq, Repr

/-- The template parameter `Impl`, with searcher objects of type `σ`.
`countChars mem b e` is `Impl::countChars(b, e)` for pointers into the buffer `mem`;
`hasMoreToSearch` and `searchOneFirstPosition` are methods of the searcher object and
return its new state next to their value. -/
structure Impl (σ : Type) where
  countChars : List Nat → Nat → Nat → Nat
  createMultiSearcherInBigHaystack : List (List Nat) → σ
  hasMoreToSearch : σ → Bool × σ
  searchOneFirstPosition : σ → List Nat → Nat → Nat → (Nat → Nat → Nat) → Nat × σ

/-- The lambda `res_callback` (lines 49-52 and 104-107):
`1 + Impl::countChars(start, end)` as a `UInt64`. -/
def res_callback {σ : Type} (I : Impl σ) (mem : List Nat) (start stop : Nat) : Nat :=
  (1 + I.countChars mem start stop) % wordSize

/-- `PaddedPODArray::resize(n)`: keeps the first `n` old elements; elements beyond the
old size are not initialised, their content is whatever `uninit` holds at that index. -/
def resize (res : List Nat) (n : Nat) (uninit : Nat → Nat) : List Nat :=
  (List.range n).map (fun i => if i < res.length then res.getD i 0 else uninit i)

/-- The per-row combination of lines 66-73 and 126-137: the new value of `res[j]`
from the pass counter, the old value `cur` of `res[j]` and the value `result`
returned by this pass. Both branches of the source start with the same call of
`searchOneFirstPosition`; the drivers below make that call and then apply this rule.
In pass `0` the source does not read `res[j]`, and the rule does not depend on `cur`. -/
def aggregateStep (iteration cur result : Nat) : Nat :=
  if iteration = 0 ∨ cur = 0 then result
  else if result ≠ 0 then min result cur
  else cur

/-- The `for (size_t j = 0; j < haystack_size; ++j)` loop of `vectorConstant`
(lines 62-75), from row `j` on; the first list holds `haystack_offsets[j..]`. -/
def constantRows {σ : Type} (I : Impl σ) (haystack_data : List Nat) (iteration : Nat) :
    List Nat → Nat → Nat → σ → List Nat → List SearchCall → σ × List Nat × List SearchCall
  | [], _, _, searcher, res, calls => (searcher, res, calls)
  | off :: offs, j, prev_haystack_offset, searcher, res, calls =>
    let haystack := prev_haystack_offset
    let haystack_end := ptrSub (ptrSub (ptrAdd haystack off) prev_haystack_offset) 1
    let r := I.searchOneFirstPosition searcher haystack_data haystack haystack_end
      (res_callback I haystack_data)
    constantRows I haystack_data iteration offs (j + 1) off r.2
      (res.set j (aggregateStep iteration (res.getD j 0) r.1))
      (calls ++ [⟨iteration, j, haystack, haystack_end, r.1⟩])

/-- The `while (searcher.hasMoreToSearch())` loop of `vectorConstant` with the final
`std::fill` (lines 59-79). -/
def constantPasses {σ : Type} (I : Impl σ) (haystack_data haystack_offsets : List Nat) :
    Nat → σ → Nat → List Nat → List SearchCall → Final
  | 0, _, _, res, calls => ⟨Status.outOfFuel, res, calls⟩
  | fuel + 1, searcher, iteration, res, calls =>
    let more := I.hasMoreToSearch searcher
    if more.1 then
      let p := constantRows I haystack_data iteration haystack_offsets 0 0 more.2 res calls
      constantPasses I haystack_data haystack_offsets fuel p.1 ((iteration + 1) % wordSize)
        p.2.1 p.2.2
    else
      ⟨Status.returned,
        if iteration = 0 then List.replicate res.length 0 else res, calls⟩

/-- The exception of lines 40-42. -/
def tooManyArguments (name : String) (passed : Nat) : Exception :=
  { code := ErrorCode.TOO_MANY_ARGUMENTS_FOR_FUNCTION
    format := "Number of arguments for function \x7b\x7d doesn't match: passed \x7b\x7d, should be at most \x7b\x7d"
    args := [name, toString passed, toString 255] }

/-- `MultiSearchFirstPositionImpl::vectorConstant` (lines 27-80). `name` is `Name::name`,
`res` the result buffer as passed in. The `reserve` of line 45 asks for at most 255
elements, which is within `vectorMaxSize`, and cannot throw. -/
def vectorConstant {σ : Type} (I : Impl σ) (name : String) (uninit : Nat → Nat) (fuel : Nat)
    (haystack_data haystack_offsets : List Nat) (needles_arr : List (List Nat))
    (res : List Nat) : Final :=
  if needles_arr.length > 255 then
    ⟨Status.thrown (tooManyArguments name needles_arr.length), res, []⟩
  else
    let needles := needles_arr
    let searcher := I.createMultiSearcherInBigHaystack needles
    let haystack_size := haystack_offsets.length
    constantPasses I haystack_data haystack_offsets fuel searcher 0
      (resize res haystack_size uninit) []

/-- `ColumnString::getDataAt(j)` on the needle column; the source defines no value for an
index outside the column, the model yields the empty string there. -/
def getDataAt (needles_data : List (List Nat)) (j : Nat) : List Nat :=
  needles_data.getD j []

/-- The `for (size_t j = prev_needles_offset; j < needles_offsets[i]; ++j)` loop
(lines 113-116): appends the needles with indices in `[start, stop)` to `needles`. -/
def collectNeedles (needles_data : List (List Nat)) (start stop : Nat)
    (needles : List (List Nat)) : List (List Nat) :=
  needles ++ (List.range (stop - start)).map (fun k => getDataAt needles_data (start + k))

/-- The `while (searcher.hasMoreToSearch())` loop of `vectorVector` for row `i`, with the
final `if (iteration == 0) res[i] = 0` (lines 123-143). -/
def vectorPasses {σ : Type} (I : Impl σ) (haystack_data : List Nat)
    (i haystack haystack_end : Nat) :
    Nat → σ → Nat → List Nat → List SearchCall → Final
  | 0, _, _, res, calls => ⟨Status.outOfFuel, res, calls⟩
  | fuel + 1, searcher, iteration, res, calls =>
    let more := I.hasMoreToSearch searcher
    if more.1 then
      let r := I.searchOneFirstPosition more.2 haystack_data haystack haystack_end
        (res_callback I haystack_data)
      vectorPasses I haystack_data i haystack haystack_end fuel r.2
        ((iteration + 1) % wordSize)
        (res.set i (aggregateStep iteration (res.getD i 0) r.1))
        (calls ++ [⟨iteration, i, haystack, haystack_end, r.1⟩])
    else
      ⟨Status.returned, if iteration = 0 then res.set i 0 else res, calls⟩

/-- The `for (size_t i = 0; i < haystack_size; ++i)` loop of `vectorVector`
(lines 109-148), from row `i` on; the first list holds `haystack_offsets[i..]`,
`needles` is the vector `needles` as it is at the top of the loop body.
`needles.reserve(needles_offsets[i] - prev_needles_offset)` (line 111) takes the `size_t`
difference, which wraps when the offsets decrease, and throws `std::length_error` when
the request exceeds `max_size()`; the exception leaves the function. -/
def vectorRows {σ : Type} (I : Impl σ) (fuel : Nat) (haystack_data : List Nat)
    (needles_data : List (List Nat)) (needles_offsets : List Nat) :
    List Nat → Nat → Nat → Nat → List (List Nat) → List Nat → List SearchCall → Final
  | [], _, _, _, _, res, calls => ⟨Status.returned, res, calls⟩
  | off :: offs, i, prev_haystack_offset, prev_needles_offset, needles, res, calls =>
    let needles_end := needles_offsets.getD i 0
    if vectorMaxSize < sizeSub needles_end prev_needles_offset then
      ⟨Status.lengthError, res, calls⟩
    else
      let needles := collectNeedles needles_data prev_needles_offset needles_end needles
      let searcher := I.createMultiSearcherInBigHaystack needles
      let haystack := prev_haystack_offset
      let haystack_end := ptrSub (ptrSub (ptrAdd haystack off) prev_haystack_offset) 1
      let F := vectorPasses I haystack_data i haystack haystack_end fuel searcher 0 res calls
      match F.status with
      | Status.returned =>
        vectorRows I fuel haystack_data needles_data needles_offsets offs (i + 1) off
          needles_end [] F.res F.calls
      | _ => F

/-- `MultiSearchFirstPositionImpl::vectorVector` (lines 82-149). -/
def vectorVector {σ : Type} (I : Impl σ) (uninit : Nat → Nat) (fuel : Nat)
    (haystack_data haystack_offsets : List Nat)
    (needles_data : List (List Nat)) (needles_offsets : List Nat)
    (res : List Nat) : Final :=
  let haystack_size := haystack_offsets.length
  vectorRows I fuel haystack_data needles_data needles_offsets haystack_offsets 0 0 0 []
    (resize res haystack_size uninit) []

/-! ## Vocabulary of the specification -/

/-- The bytes of the half-open range `[b, e)` of the buffer `mem`. -/
def slice (mem : List Nat) (b e : Nat) : List Nat := (mem.drop b).take (e - b)

/-- The least byte offset in `h` at which one of `needles` starts, if there is one. -/
def firstMatch (needles : List (List Nat)) (h : List Nat) : Option Nat :=
  (List.range (h.length + 1)).find? (fun k => needles.any (fun n => n.isPrefixOf (h.drop k)))

/-- The pointer to the first byte of row `j`: `haystack_offsets[j - 1]`, and `0` for row `0`. -/
def rowBegin (haystack_offsets : List Nat) (j : Nat) : Nat :=
  if j = 0 then 0 else haystack_offsets.getD (j - 1) 0

/-- The pointer to the terminator byte of row `j`: `haystack_offsets[j] - 1`. -/
def rowEnd (haystack_offsets : List Nat) (j : Nat) : Nat :=
  haystack_offsets.getD j 0 - 1

/-- The content of row `j` of a haystack batch, without its terminator byte. -/
def rowBytes (haystack_data haystack_offsets : List Nat) (j : Nat) : List Nat :=
  slice haystack_data (rowBegin haystack_offsets j) (rowEnd haystack_offsets j)

/-- The needles of row `i` of the per-row needle column: the entries with indices in
`[needles_offsets[i - 1], needles_offsets[i])`, starting at `0` for row `0`. -/
def rowNeedles (needles_data : List (List Nat)) (needles_offsets : List Nat) (i : Nat) :
    List (List Nat) :=
  (List.range (needles_offsets.getD i 0 - rowBegin needles_offsets i)).map
    (fun k => getDataAt needles_data (rowBegin needles_offsets i + k))

/-- The needle offsets of the first `n` rows are those of an array column: they are
cumulative counts, so they do not decrease, and no row has more needles than a vector can
hold. -/
def NeedleOffsetsOK (needles_offsets : List Nat) (n : Nat) : Prop :=
  ∀ i, i < n → rowBegin needles_offsets i ≤ needles_offsets.getD i 0 ∧
    needles_offsets.getD i 0 - rowBegin needles_offsets i ≤ vectorMaxSize

instance (needles_offsets : List Nat) (n : Nat) :
    Decidable (NeedleOffsetsOK needles_offsets n) := by
  unfold NeedleOffsetsOK
  exact inferInstance

/-- The values returned by the search calls made for row `j`, in call order. -/
def rowResults (calls : List SearchCall) (j : Nat) : List Nat :=
  (calls.filter (fun c => c.row = j)).map (fun c => c.result)

/-- The minimum of the nonzero entries of `rs`, and `0` when there is none. -/
def minNonzero (rs : List Nat) : Nat :=
  match rs.filter (fun r => r ≠ 0) with
  | [] => 0
  | x :: xs => xs.foldl min x

/-- The searcher runs finitely many passes: some measure of the searcher object drops at
every `hasMoreToSearch()` that answers `true` and is not raised by a search. -/
def HasFinitePasses {σ : Type} (I : Impl σ) : Prop :=
  ∃ bound : σ → Nat,
    (∀ s, (I.hasMoreToSearch s).1 = true → bound (I.hasMoreToSearch s).2 < bound s) ∧
    (∀ s mem b e cb, bound (I.searchOneFirstPosition s mem b e cb).2 ≤ bound s)

/-- The contract of section 4.2 of the specification on the searcher, over two ghost
views of the searcher object: `pending s`, the needle groups of the passes not yet
started, and `current s`, the needles covered by the pass in progress.

* the passes together cover exactly the needles the searcher was built from;
* `hasMoreToSearch()` answers `false` when no pass is pending, and otherwise answers
  `true` and starts the next pending pass;
* a search changes neither view;
* a search returns `0` when no needle of the pass in progress occurs in the haystack
  slice, and a value of the callback otherwise. -/
def PassContract {σ : Type} (I : Impl σ) (pending : σ → List (List (List Nat)))
    (current : σ → List (List Nat)) : Prop :=
  (∀ ns n, n ∈ ns ↔ ∃ g ∈ pending (I.createMultiSearcherInBigHaystack ns), n ∈ g) ∧
  (∀ s, pending s = [] → (I.hasMoreToSearch s).1 = false) ∧
  (∀ s g rest, pending s = g :: rest →
    (I.hasMoreToSearch s).1 = true ∧ pending (I.hasMoreToSearch s).2 = rest ∧
      current (I.hasMoreToSearch s).2 = g) ∧
  (∀ s mem b e cb, pending (I.searchOneFirstPosition s mem b e cb).2 = pending s ∧
    current (I.searchOneFirstPosition s mem b e cb).2 = current s) ∧
  (∀ s mem b e cb, (∀ n ∈ current s, ¬ n <:+: slice mem b e) →
    (I.searchOneFirstPosition s mem b e cb).1 = 0) ∧
  (∀ s mem b e cb, (∃ n ∈ current s, n <:+: slice mem b e) →
    ∃ x y, (I.searchOneFirstPosition s mem b e cb).1 = cb x y)

/-- The searcher satisfies the contract of section 4.2. -/
def SatisfiesContract {σ : Type} (I : Impl σ) : Prop :=
  ∃ pending current, PassContract I pending current

/-- The searcher satisfies the contract of section 4.2 and, on a match, reports the
callback at the earliest match of the pass in progress: `cb haystack match_start`. -/
def ReportsEarliestMatch {σ : Type} (I : Impl σ) : Prop :=
  ∃ pending current, PassContract I pending current ∧
    ∀ s mem b e cb k, firstMatch (current s) (slice mem b e) = some k →
      (I.searchOneFirstPosition s mem b e cb).1 = cb b (b + k)

/-- On the buffer `mem` the character counter never wraps the `UInt64` result of
`res_callback`. -/
def CountFits {σ : Type} (I : Impl σ) (mem : List Nat) : Prop :=
  ∀ b e, 1 + I.countChars mem b e < wordSize

/-- On the buffer `mem` the character counter is monotone: a longer range has at least as
many characters. -/
def CountMonotone {σ : Type} (I : Impl σ) (mem : List Nat) : Prop :=
  ∀ b e e', e ≤ e' → I.countChars mem b e ≤ I.countChars mem b e'

/-! ## A reference searcher -/

/-- The state of the reference searcher: the needle groups of the passes not yet started
and the needles of the pass in progress. -/
structure RefSearcher where
  pending : List (List (List Nat))
  current : List (List Nat)
  deriving DecidableEq, Repr

/-- Modelled from the spec: the search engine `Impl` is not part of the sources. This is a
searcher meeting the contract of section 4.2, with one needle per pass and one byte per
character (`countChars` is the number of bytes in the range): `hasMoreToSearch()` starts
the next pass, and a search returns the callback at the earliest match of the needles of
the pass in progress, or `0` when there is none. -/
def refImpl : Impl RefSearcher where
  countChars := fun mem b e => (slice mem b e).length
  createMultiSearcherInBigHaystack := fun ns => ⟨ns.map (fun n => [n]), []⟩
  hasMoreToSearch := fun s =>
    match s.pending with
    | [] => (false, s)
    | g :: rest => (true, ⟨rest, g⟩)
  searchOneFirstPosition := fun s mem b e cb =>
    (match firstMatch s.current (slice mem b e) with
      | none => 0
      | some k => cb b (b + k), s)

/-! ## Vocabulary of the proofs -/

/-- The end pointer as the drivers compute it for row `j` (lines 65 and 121). -/
def rowEndPtr (haystack_offsets : List Nat) (j : Nat) : Nat :=
  ptrSub (ptrSub (ptrAdd (rowBegin haystack_offsets j) (haystack_offsets.getD j 0))
    (rowBegin haystack_offsets j)) 1

/-- A logged call was made for a row of the batch, with that row's pointers. -/
def CallShape (haystack_offsets : List Nat) (c : SearchCall) : Prop :=
  c.row < haystack_offsets.length ∧ c.haystack = rowBegin haystack_offsets c.row ∧
    c.haystack_end = rowEndPtr haystack_offsets c.row

/-- The pass counters of the search calls made for row `j`, in call order. -/
def rowIterations (calls : List SearchCall) (j : Nat) : List Nat :=
  (calls.filter (fun c => c.row = j)).map (fun c => c.iteration)

/-- The state of the pass-outer driver inside pass `p`, before row `j`: rows before `j`
have been searched `p + 1` times, the others `p` times, and every row searched at least
once holds the minimum of its nonzero pass results. -/
structure RowInv (Q : SearchCall → Prop) (N p j : Nat) (res : List Nat)
    (calls : List SearchCall) : Prop where
  len : res.length = N
  its : ∀ j', j' < N → rowIterations calls j' = List.range (if j' < j then p + 1 else p)
  vals : ∀ j', j' < N → (j' < j ∨ 0 < p) → res.getD j' 0 = minNonzero (rowResults calls j')
  callsOk : ∀ c ∈ calls, Q c

/-- Row `j` is finished: its searcher, after `k` passes, has answered that no pass is
left; the row was searched once in each of the passes `0 .. k - 1`; and `res[j]` is the
minimum of the nonzero values those searches returned (`0` when there is none). -/
def RowDone {σ : Type} (I : Impl σ) (H : Nat → σ → Prop) (res : List Nat)
    (calls : List SearchCall) (j : Nat) : Prop :=
  ∃ k sf, H k sf ∧ (I.hasMoreToSearch sf).1 = false ∧
    rowIterations calls j = List.range k ∧ res.getD j 0 = minNonzero (rowResults calls j)

/-- What a search that abides by the contract establishes between the needles `g` of the
pass in progress and the logged call: `0` when no needle of `g` occurs in the slice, a
value of `res_callback` otherwise. -/
def PassRel {σ : Type} (I : Impl σ) (data : List Nat) (g : List (List Nat))
    (c : SearchCall) : Prop :=
  ((∀ n ∈ g, ¬ n <:+: slice data c.haystack c.haystack_end) → c.result = 0) ∧
  ((∃ n ∈ g, n <:+: slice data c.haystack c.haystack_end) →
    ∃ x y, c.result = res_callback I data x y)

/-- The logged call reports `res_callback` at the earliest match of the needles `g`. -/
def PassRelEarliest {σ : Type} (I : Impl σ) (data : List Nat) (g : List (List Nat))
    (c : SearchCall) : Prop :=
  ∀ k, firstMatch g (slice data c.haystack c.haystack_end) = some k →
    c.result = res_callback I data c.haystack (c.haystack + k)

/-- Every offset of the batch is a `UInt64` value and at least `1`: each row ends with its
terminator byte. -/
def ValidOffsets (haystack_offsets : List Nat) : Prop :=
  ∀ off ∈ haystack_offsets, 1 ≤ off ∧ off < wordSize

instance (haystack_offsets : List Nat) : Decidable (ValidOffsets haystack_offsets) := by
  unfold ValidOffsets
  exact inferInstance

/-- Between passes, `p` passes of the plan `groupsOf i` done. -/
def GhostH {σ : Type} (pending : σ → List (List (List Nat)))
    (groupsOf : Nat → List (List (List Nat))) (i p : Nat) (s : σ) : Prop :=
  pending s = (groupsOf i).drop p

/-- Inside pass `p` of the plan `groupsOf i`. -/
def GhostG {σ : Type} (pending : σ → List (List (List Nat)))
    (current : σ → List (List Nat)) (groupsOf : Nat → List (List (List Nat)))
    (i p : Nat) (s : σ) : Prop :=
  p < (groupsOf i).length ∧ pending s = (groupsOf i).drop (p + 1) ∧
    current s = (groupsOf i).getD p []

/-- The logged call belongs to a pass of the plan of its row and is related by `R` to the
needles of that pass. -/
def GhostQ (groupsOf : Nat → List (List (List Nat)))
    (R : List (List Nat) → SearchCall → Prop) (c : SearchCall) : Prop :=
  c.iteration < (groupsOf c.row).length ∧ R ((groupsOf c.row).getD c.iteration []) c

/-- The minimum of the nonzero entries, spelled out: `v` is `0` when every entry is `0`,
and otherwise `v` is a nonzero entry below every nonzero entry. -/
def IsMinNonzero (v : Nat) (rs : List Nat) : Prop :=
  ((∀ r ∈ rs, r = 0) → v = 0) ∧
  ((∃ r ∈ rs, r ≠ 0) → v ≠ 0 ∧ v ∈ rs ∧ ∀ r ∈ rs, r ≠ 0 → v ≤ r)

/-! ## The aggregation of a row, well-formed slices, single rows -/

/-- The aggregation of one row as the drivers run it (lines 58-79 and 123-143), on the
values `rs` still to come from the passes: `iteration` is the pass counter, `cur` the
content of `res[j]`; after the last pass the result is forced to `0` when the counter
is `0`. -/
def aggregateFrom : Nat → Nat → List Nat → Nat
  | iteration, cur, [] => if iteration = 0 then 0 else cur
  | iteration, cur, r :: rs =>
    aggregateFrom ((iteration + 1) % wordSize) (aggregateStep iteration cur r) rs

/-- The aggregated result of a row whose passes returned `rs`; `init` is what `res[j]`
held before the first pass. -/
def aggregate (init : Nat) (rs : List Nat) : Nat := aggregateFrom 0 init rs

/-- The rule `treat 0 as absent, otherwise take the minimum`. -/
def combine (a b : Nat) : Nat :=
  if a = 0 then b else if b = 0 then a else min a b

/-- The slice `[haystack, haystack_end)` computed for row `j` is well-formed: the length
`offset[j] - offset[j - 1] - 1` (with `offset[-1] = 0`) does not underflow, `haystack` is
a valid index of the buffer, and the slice lies inside the buffer. -/
def WellFormedSlice (haystack_data haystack_offsets : List Nat)
    (j haystack haystack_end : Nat) : Prop :=
  rowBegin haystack_offsets j + 1 ≤ haystack_offsets.getD j 0 ∧
  haystack < haystack_data.length ∧
  haystack ≤ haystack_end ∧ haystack_end ≤ haystack_data.length

instance (haystack_data haystack_offsets : List Nat) (j haystack haystack_end : Nat) :
    Decidable (WellFormedSlice haystack_data haystack_offsets j haystack haystack_end) := by
  unfold WellFormedSlice
  exact inferInstance

/-- The pass loop of `vectorVector` (lines 123-143) run alone, on a one-entry result
buffer, for the haystack `[b, e)` of the buffer `data` with the searcher built from
`needles`. -/
def rowRun {σ : Type} (I : Impl σ) (fuel : Nat) (data : List Nat) (b e : Nat)
    (needles : List (List Nat)) : Final :=
  vectorPasses I data 0 b e fuel (I.createMultiSearcherInBigHaystack needles) 0 [0] []

/-- The answer and the new state of a search depend on the buffer and the two pointers
only through the bytes of the slice handed over. -/
def AnswersFromSlice {σ : Type} (I : Impl σ) : Prop :=
  ∀ s mem b e mem' b' e', slice mem b e = slice mem' b' e' →
    I.searchOneFirstPosition s mem b e (res_callback I mem)
      = I.searchOneFirstPosition s mem' b' e' (res_callback I mem')

/-! ## Pointer arithmetic, the combination rule and the minimum of the nonzero entries -/

theorem ptr_end_eq (prev off : Nat) (h1 : 1 ≤ off) (h2 : off < wordSize) :
    ptrSub (ptrSub (ptrAdd prev off) prev) 1 = off - 1 := by
  unfold ptrSub ptrAdd wordSize at *
  omega

theorem aggregateStep_zero (cur result : Nat) : aggregateStep 0 cur result = result := by
  simp [aggregateStep]

theorem foldl_min_le (xs : List Nat) (x : Nat) : xs.foldl min x ≤ x := by
  induction xs generalizing x with
  | nil => simp
  | cons y ys ih => exact le_trans (ih (min x y)) (Nat.min_le_left x y)

theorem foldl_min_le_of_mem (xs : List Nat) (x y : Nat) (hy : y ∈ xs) : xs.foldl min x ≤ y := by
  induction xs generalizing x with
  | nil => simp at hy
  | cons z zs ih =>
    rcases List.mem_cons.mp hy with h | h
    · subst h
      exact le_trans (foldl_min_le zs (min x y)) (Nat.min_le_right x y)
    · exact ih (min x z) h

theorem foldl_min_mem (xs : List Nat) (x : Nat) : xs.foldl min x = x ∨ xs.foldl min x ∈ xs := by
  induction xs generalizing x with
  | nil => simp
  | cons y ys ih =>
    rw [List.foldl_cons]
    rcases ih (min x y) with h | h
    · rcases Nat.le_total x y with hxy | hxy
      · left; rw [h]; exact Nat.min_eq_left hxy
      · right; rw [h, Nat.min_eq_right hxy]; exact List.mem_cons_self _ _
    · right; exact List.mem_cons_of_mem _ h

theorem minNonzero_of_filter_nil (rs : List Nat) (hf : rs.filter (fun r => r ≠ 0) = []) :
    minNonzero rs = 0 := by
  unfold minNonzero; rw [hf]

theorem minNonzero_of_filter_cons (rs : List Nat) (x : Nat) (xs : List Nat)
    (hf : rs.filter (fun r => r ≠ 0) = x :: xs) : minNonzero rs = xs.foldl min x := by
  unfold minNonzero; rw [hf]

theorem minNonzero_nil : minNonzero [] = 0 := rfl

theorem minNonzero_eq_zero_iff (rs : List Nat) : minNonzero rs = 0 ↔ ∀ r ∈ rs, r = 0 := by
  unfold minNonzero
  cases hf : rs.filter (fun r => r ≠ 0) with
  | nil =>
    simp only [true_iff]
    intro r hr
    by_contra hne
    have : r ∈ rs.filter (fun r => r ≠ 0) := by simp [List.mem_filter, hr, hne]
    rw [hf] at this
    simp at this
  | cons x xs =>
    have hmem : ∀ y ∈ x :: xs, y ∈ rs ∧ y ≠ 0 := by
      intro y hy
      rw [← hf] at hy
      simpa [List.mem_filter] using hy
    constructor
    · intro h0
      exfalso
      rcases foldl_min_mem xs x with h | h
      · exact (hmem x (by simp)).2 (by simpa [h] using h0)
      · exact (hmem _ (List.mem_cons_of_mem _ h)).2 h0
    · intro hall
      exact absurd (hall x (hmem x (by simp)).1) (hmem x (by simp)).2

theorem minNonzero_mem (rs : List Nat) (h : minNonzero rs ≠ 0) : minNonzero rs ∈ rs := by
  cases hf : rs.filter (fun r => r ≠ 0) with
  | nil => exact absurd (minNonzero_of_filter_nil rs hf) h
  | cons x xs =>
    have hmem : ∀ y ∈ x :: xs, y ∈ rs := by
      intro y hy
      rw [← hf] at hy
      exact (List.mem_filter.mp hy).1
    rw [minNonzero_of_filter_cons rs x xs hf]
    rcases foldl_min_mem xs x with h1 | h1
    · rw [h1]; exact hmem x (by simp)
    · exact hmem _ (List.mem_cons_of_mem _ h1)

theorem minNonzero_le (rs : List Nat) (r : Nat) (hr : r ∈ rs) (h0 : r ≠ 0) :
    minNonzero rs ≤ r := by
  unfold minNonzero
  have hin : r ∈ rs.filter (fun r => r ≠ 0) := by simp [List.mem_filter, hr, h0]
  cases hf : rs.filter (fun r => r ≠ 0) with
  | nil => rw [hf] at hin; simp at hin
  | cons x xs =>
    rw [hf] at hin
    simp only
    rcases List.mem_cons.mp hin with h | h
    · subst h; exact foldl_min_le xs r
    · exact foldl_min_le_of_mem xs x r h

theorem minNonzero_append_singleton (rs : List Nat) (r : Nat) :
    minNonzero (rs ++ [r]) =
      if minNonzero rs = 0 then r else if r ≠ 0 then min r (minNonzero rs) else minNonzero rs := by
  unfold minNonzero
  rw [List.filter_append]
  cases hf : rs.filter (fun r => r ≠ 0) with
  | nil =>
    by_cases h0 : r = 0
    · simp [h0]
    · simp [List.filter, h0]
  | cons x xs =>
    have hx : x ≠ 0 := by
      have : x ∈ rs.filter (fun r => r ≠ 0) := by rw [hf]; simp
      simpa using (List.mem_filter.mp this).2
    have hne : xs.foldl min x ≠ 0 := by
      have hall : ∀ y ∈ xs, y ≠ 0 := by
        intro y hy
        have : y ∈ rs.filter (fun r => r ≠ 0) := by rw [hf]; simp [hy]
        simpa using (List.mem_filter.mp this).2
      rcases foldl_min_mem xs x with h | h
      · rw [h]; exact hx
      · exact hall _ h
    by_cases h0 : r = 0
    · simp [h0, hne]
    · simp [List.filter, h0, hne, List.foldl_append, Nat.min_comm]

theorem aggregateStep_minNonzero (iteration : Nat) (rs : List Nat) (r : Nat)
    (hit : iteration ≠ 0) :
    aggregateStep iteration (minNonzero rs) r = minNonzero (rs ++ [r]) := by
  rw [minNonzero_append_singleton]
  unfold aggregateStep
  simp [hit]

theorem rowResults_nil (j : Nat) : rowResults [] j = [] := rfl

theorem rowResults_append (calls more : List SearchCall) (j : Nat) :
    rowResults (calls ++ more) j = rowResults calls j ++ rowResults more j := by
  simp [rowResults, List.filter_append]

theorem rowResults_singleton (c : SearchCall) (j : Nat) :
    rowResults [c] j = if c.row = j then [c.result] else [] := by
  by_cases h : c.row = j <;> simp [rowResults, List.filter, h]

/-! ## The result buffer keeps its length -/

theorem resize_length (res : List Nat) (n : Nat) (uninit : Nat → Nat) :
    (resize res n uninit).length = n := by
  simp [resize]

theorem constantRows_length {σ : Type} (I : Impl σ) (data : List Nat) (it : Nat) :
    ∀ (offs : List Nat) (j prev : Nat) (s : σ) (res : List Nat) (calls : List SearchCall),
      (constantRows I data it offs j prev s res calls).2.1.length = res.length := by
  intro offs
  induction offs with
  | nil => intro j prev s res calls; rfl
  | cons off offs ih =>
    intro j prev s res calls
    simp only [constantRows]
    rw [ih]
    simp

theorem constantPasses_length {σ : Type} (I : Impl σ) (data offsets : List Nat) :
    ∀ (fuel : Nat) (s : σ) (it : Nat) (res : List Nat) (calls : List SearchCall),
      (constantPasses I data offsets fuel s it res calls).res.length = res.length := by
  intro fuel
  induction fuel with
  | zero => intro s it res calls; rfl
  | succ fuel ih =>
    intro s it res calls
    simp only [constantPasses]
    split
    · rw [ih, constantRows_length]
    · split <;> simp

theorem vectorPasses_length {σ : Type} (I : Impl σ) (data : List Nat) (i b e : Nat) :
    ∀ (fuel : Nat) (s : σ) (it : Nat) (res : List Nat) (calls : List SearchCall),
      (vectorPasses I data i b e fuel s it res calls).res.length = res.length := by
  intro fuel
  induction fuel with
  | zero => intro s it res calls; rfl
  | succ fuel ih =>
    intro s it res calls
    simp only [vectorPasses]
    split
    · rw [ih]; simp
    · split <;> simp

theorem vectorRows_cons_thrown {σ : Type} (I : Impl σ) (fuel : Nat) (data : List Nat)
    (nd : List (List Nat)) (no : List Nat) (off : Nat) (offs : List Nat) (i ph pn : Nat)
    (needles : List (List Nat)) (res : List Nat) (calls : List SearchCall)
    (hreq : vectorMaxSize < sizeSub (no.getD i 0) pn) :
    vectorRows I fuel data nd no (off :: offs) i ph pn needles res calls =
      ⟨Status.lengthError, res, calls⟩ := by
  simp only [vectorRows]
  rw [if_pos hreq]

theorem vectorRows_cons_returned {σ : Type} (I : Impl σ) (fuel : Nat) (data : List Nat)
    (nd : List (List Nat)) (no : List Nat) (off : Nat) (offs : List Nat) (i ph pn : Nat)
    (needles : List (List Nat)) (res : List Nat) (calls : List SearchCall)
    (hreq : sizeSub (no.getD i 0) pn ≤ vectorMaxSize)
    (h : (vectorPasses I data i ph (ptrSub (ptrSub (ptrAdd ph off) ph) 1) fuel
      (I.createMultiSearcherInBigHaystack (collectNeedles nd pn (no.getD i 0) needles))
      0 res calls).status = Status.returned) :
    vectorRows I fuel data nd no (off :: offs) i ph pn needles res calls =
      vectorRows I fuel data nd no offs (i + 1) off (no.getD i 0) []
        (vectorPasses I data i ph (ptrSub (ptrSub (ptrAdd ph off) ph) 1) fuel
          (I.createMultiSearcherInBigHaystack (collectNeedles nd pn (no.getD i 0) needles))
          0 res calls).res
        (vectorPasses I data i ph (ptrSub (ptrSub (ptrAdd ph off) ph) 1) fuel
          (I.createMultiSearcherInBigHaystack (collectNeedles nd pn (no.getD i 0) needles))
          0 res calls).calls := by
  simp only [vectorRows]
  rw [if_neg (Nat.not_lt.mpr hreq), h]

theorem vectorRows_cons_stopped {σ : Type} (I : Impl σ) (fuel : Nat) (data : List Nat)
    (nd : List (List Nat)) (no : List Nat) (off : Nat) (offs : List Nat) (i ph pn : Nat)
    (needles : List (List Nat)) (res : List Nat) (calls : List SearchCall)
    (hreq : sizeSub (no.getD i 0) pn ≤ vectorMaxSize)
    (h : (vectorPasses I data i ph (ptrSub (ptrSub (ptrAdd ph off) ph) 1) fuel
      (I.createMultiSearcherInBigHaystack (collectNeedles nd pn (no.getD i 0) needles))
      0 res calls).status ≠ Status.returned) :
    vectorRows I fuel data nd no (off :: offs) i ph pn needles res calls =
      vectorPasses I data i ph (ptrSub (ptrSub (ptrAdd ph off) ph) 1) fuel
        (I.createMultiSearcherInBigHaystack (collectNeedles nd pn (no.getD i 0) needles))
        0 res calls := by
  simp only [vectorRows]
  rw [if_neg (Nat.not_lt.mpr hreq)]

theorem vectorRows_length {σ : Type} (I : Impl σ) (fuel : Nat) (data : List Nat)
    (nd : List (List Nat)) (no : List Nat) :
    ∀ (offs : List Nat) (i ph pn : Nat) (needles : List (List Nat)) (res : List Nat)
      (calls : List SearchCall),
      (vectorRows I fuel data nd no offs i ph pn needles res calls).res.length = res.length := by
  intro offs
  induction offs with
  | nil => intro i ph pn needles res calls; rfl
  | cons off offs ih =>
    intro i ph pn needles res calls
    by_cases hreq : sizeSub (no.getD i 0) pn ≤ vectorMaxSize
    · by_cases hst : (vectorPasses I data i ph (ptrSub (ptrSub (ptrAdd ph off) ph) 1) fuel
        (I.createMultiSearcherInBigHaystack (collectNeedles nd pn (no.getD i 0) needles))
        0 res calls).status = Status.returned
      · rw [vectorRows_cons_returned I fuel data nd no off offs i ph pn needles res calls
          hreq hst, ih, vectorPasses_length]
      · rw [vectorRows_cons_stopped I fuel data nd no off offs i ph pn needles res calls
          hreq hst, vectorPasses_length]
    · rw [vectorRows_cons_thrown I fuel data nd no off offs i ph pn needles res calls
        (by omega)]

/-! ## Termination -/

theorem constantRows_bound {σ : Type} (I : Impl σ) (data : List Nat) (it : Nat)
    (bound : σ → Nat)
    (hs : ∀ s mem b e cb, bound (I.searchOneFirstPosition s mem b e cb).2 ≤ bound s) :
    ∀ (offs : List Nat) (j prev : Nat) (s : σ) (res : List Nat) (calls : List SearchCall),
      bound (constantRows I data it offs j prev s res calls).1 ≤ bound s := by
  intro offs
  induction offs with
  | nil => intro j prev s res calls; exact le_refl _
  | cons off offs ih =>
    intro j prev s res calls
    simp only [constantRows]
    exact le_trans (ih _ _ _ _ _) (hs _ _ _ _ _)

theorem constantPasses_returns {σ : Type} (I : Impl σ) (data offsets : List Nat)
    (bound : σ → Nat)
    (hm : ∀ s, (I.hasMoreToSearch s).1 = true → bound (I.hasMoreToSearch s).2 < bound s)
    (hs : ∀ s mem b e cb, bound (I.searchOneFirstPosition s mem b e cb).2 ≤ bound s) :
    ∀ (fuel : Nat) (s : σ) (it : Nat) (res : List Nat) (calls : List SearchCall),
      bound s < fuel →
      (constantPasses I data offsets fuel s it res calls).status = Status.returned := by
  intro fuel
  induction fuel with
  | zero => intro s it res calls h; omega
  | succ fuel ih =>
    intro s it res calls h
    simp only [constantPasses]
    split
    · rename_i hmore
      apply ih
      have h1 := hm s hmore
      have h2 := constantRows_bound I data it bound hs offsets 0 0 (I.hasMoreToSearch s).2 res calls
      omega
    · rfl

theorem vectorPasses_returns {σ : Type} (I : Impl σ) (data : List Nat) (i b e : Nat)
    (bound : σ → Nat)
    (hm : ∀ s, (I.hasMoreToSearch s).1 = true → bound (I.hasMoreToSearch s).2 < bound s)
    (hs : ∀ s mem b e cb, bound (I.searchOneFirstPosition s mem b e cb).2 ≤ bound s) :
    ∀ (fuel : Nat) (s : σ) (it : Nat) (res : List Nat) (calls : List SearchCall),
      bound s < fuel →
      (vectorPasses I data i b e fuel s it res calls).status = Status.returned := by
  intro fuel
  induction fuel with
  | zero => intro s it res calls h; omega
  | succ fuel ih =>
    intro s it res calls h
    simp only [vectorPasses]
    split
    · rename_i hmore
      apply ih
      have h1 := hm s hmore
      have h2 := hs (I.hasMoreToSearch s).2 data b e (res_callback I data)
      omega
    · rfl

theorem sizeSub_eq (a b : Nat) (h1 : b ≤ a) (h2 : a - b ≤ vectorMaxSize) :
    sizeSub a b = a - b := by
  unfold sizeSub vectorMaxSize wordSize at *
  omega

theorem needleOffsetsOK_request (no : List Nat) (n : Nat) (hno : NeedleOffsetsOK no n)
    (i : Nat) (hi : i < n) : sizeSub (no.getD i 0) (rowBegin no i) ≤ vectorMaxSize := by
  obtain ⟨h1, h2⟩ := hno i hi
  rw [sizeSub_eq _ _ h1 h2]
  exact h2

theorem rowBegin_succ (offsets : List Nat) (i : Nat) :
    rowBegin offsets (i + 1) = offsets.getD i 0 := by
  unfold rowBegin
  rw [if_neg (Nat.succ_ne_zero i)]
  rfl

theorem vectorRows_returns {σ : Type} (I : Impl σ) (data : List Nat)
    (nd : List (List Nat)) (no : List Nat) (bound : σ → Nat)
    (hm : ∀ s, (I.hasMoreToSearch s).1 = true → bound (I.hasMoreToSearch s).2 < bound s)
    (hs : ∀ s mem b e cb, bound (I.searchOneFirstPosition s mem b e cb).2 ≤ bound s) :
    ∀ (offs : List Nat) (i ph : Nat) (needles : List (List Nat)),
      (∀ i', i ≤ i' → i' < i + offs.length →
        sizeSub (no.getD i' 0) (rowBegin no i') ≤ vectorMaxSize) →
      ∃ fuel0, ∀ fuel, fuel0 ≤ fuel → ∀ (res : List Nat) (calls : List SearchCall),
        (vectorRows I fuel data nd no offs i ph (rowBegin no i) needles res calls).status
          = Status.returned := by
  intro offs
  induction offs with
  | nil => intro i ph needles _; exact ⟨0, fun _ _ _ _ => rfl⟩
  | cons off offs ih =>
    intro i ph needles hreq
    obtain ⟨f1, hf1⟩ := ih (i + 1) off [] (fun i' h1 h2 => hreq i' (by omega) (by
      simp only [List.length_cons]; omega))
    refine ⟨max f1 (bound (I.createMultiSearcherInBigHaystack
      (collectNeedles nd (rowBegin no i) (no.getD i 0) needles)) + 1), ?_⟩
    intro fuel hfuel res calls
    have hret := vectorPasses_returns I data i ph
      (ptrSub (ptrSub (ptrAdd ph off) ph) 1) bound hm hs fuel
      (I.createMultiSearcherInBigHaystack
        (collectNeedles nd (rowBegin no i) (no.getD i 0) needles))
      0 res calls (by omega)
    rw [vectorRows_cons_returned I fuel data nd no off offs i ph _ needles res calls
      (hreq i (Nat.le_refl i) (by simp only [List.length_cons]; omega)) hret,
      ← rowBegin_succ no i]
    exact hf1 fuel (by omega) _ _

theorem drop_cons_info (l : List Nat) (j off : Nat) (offs : List Nat)
    (h : l.drop j = off :: offs) :
    j < l.length ∧ l.getD j 0 = off ∧ l.drop (j + 1) = offs ∧ rowBegin l (j + 1) = off := by
  have hj : j < l.length := by
    by_contra hge
    rw [List.drop_eq_nil_of_le (by omega)] at h
    cases h
  rw [List.drop_eq_getElem_cons hj] at h
  injection h with h1 h2
  have hget : l.getD j 0 = off := by
    rw [List.getD_eq_getElem _ _ hj]; exact h1
  refine ⟨hj, hget, h2, ?_⟩
  unfold rowBegin
  rw [if_neg (Nat.succ_ne_zero j)]
  exact hget

theorem constantRows_shape {σ : Type} (I : Impl σ) (data : List Nat) (it : Nat)
    (offsets : List Nat) :
    ∀ (offs : List Nat) (j : Nat) (s : σ) (res : List Nat) (calls : List SearchCall),
      offsets.drop j = offs → (∀ c ∈ calls, CallShape offsets c) →
      ∀ c ∈ (constantRows I data it offs j (rowBegin offsets j) s res calls).2.2,
        CallShape offsets c := by
  intro offs
  induction offs with
  | nil => intro j s res calls _ h; exact h
  | cons off offs ih =>
    intro j s res calls hdrop h
    obtain ⟨hj, hget, hdrop1, hbeg⟩ := drop_cons_info offsets j off offs hdrop
    simp only [constantRows]
    have := ih (j + 1) (I.searchOneFirstPosition s data (rowBegin offsets j)
      (ptrSub (ptrSub (ptrAdd (rowBegin offsets j) off) (rowBegin offsets j)) 1)
      (res_callback I data)).2
      (res.set j (aggregateStep it (res.getD j 0) (I.searchOneFirstPosition s data
        (rowBegin offsets j)
        (ptrSub (ptrSub (ptrAdd (rowBegin offsets j) off) (rowBegin offsets j)) 1)
        (res_callback I data)).1))
      (calls ++ [⟨it, j, rowBegin offsets j,
        ptrSub (ptrSub (ptrAdd (rowBegin offsets j) off) (rowBegin offsets j)) 1,
        (I.searchOneFirstPosition s data (rowBegin offsets j)
        (ptrSub (ptrSub (ptrAdd (rowBegin offsets j) off) (rowBegin offsets j)) 1)
        (res_callback I data)).1⟩]) hdrop1 (by
          intro c hc
          rcases List.mem_append.mp hc with hc | hc
          · exact h c hc
          · rw [List.mem_singleton] at hc
            subst hc
            exact ⟨hj, rfl, by unfold rowEndPtr; rw [hget]⟩)
    rw [hbeg] at this
    exact this

theorem constantPasses_shape {σ : Type} (I : Impl σ) (data offsets : List Nat) :
    ∀ (fuel : Nat) (s : σ) (it : Nat) (res : List Nat) (calls : List SearchCall),
      (∀ c ∈ calls, CallShape offsets c) →
      ∀ c ∈ (constantPasses I data offsets fuel s it res calls).calls, CallShape offsets c := by
  intro fuel
  induction fuel with
  | zero => intro s it res calls h; exact h
  | succ fuel ih =>
    intro s it res calls h
    simp only [constantPasses]
    split
    · apply ih
      have := constantRows_shape I data it offsets offsets 0 (I.hasMoreToSearch s).2 res calls
        rfl h
      simpa [rowBegin] using this
    · exact h

theorem vectorPasses_shape {σ : Type} (I : Impl σ) (data : List Nat) (i b e : Nat)
    (P : SearchCall → Prop) (hP : ∀ it r, P ⟨it, i, b, e, r⟩) :
    ∀ (fuel : Nat) (s : σ) (it : Nat) (res : List Nat) (calls : List SearchCall),
      (∀ c ∈ calls, P c) →
      ∀ c ∈ (vectorPasses I data i b e fuel s it res calls).calls, P c := by
  intro fuel
  induction fuel with
  | zero => intro s it res calls h; exact h
  | succ fuel ih =>
    intro s it res calls h
    simp only [vectorPasses]
    split
    · apply ih
      intro c hc
      rcases List.mem_append.mp hc with hc | hc
      · exact h c hc
      · rw [List.mem_singleton] at hc
        subst hc
        exact hP _ _
    · exact h

theorem vectorRows_shape {σ : Type} (I : Impl σ) (fuel : Nat) (data : List Nat)
    (nd : List (List Nat)) (no : List Nat) (offsets : List Nat) :
    ∀ (offs : List Nat) (i pn : Nat) (needles : List (List Nat)) (res : List Nat)
      (calls : List SearchCall),
      offsets.drop i = offs → (∀ c ∈ calls, CallShape offsets c) →
      ∀ c ∈ (vectorRows I fuel data nd no offs i (rowBegin offsets i) pn needles res
        calls).calls, CallShape offsets c := by
  intro offs
  induction offs with
  | nil => intro i pn needles res calls _ h; exact h
  | cons off offs ih =>
    intro i pn needles res calls hdrop h
    obtain ⟨hi, hget, hdrop1, hbeg⟩ := drop_cons_info offsets i off offs hdrop
    have hstep := vectorPasses_shape I data i (rowBegin offsets i)
      (ptrSub (ptrSub (ptrAdd (rowBegin offsets i) off) (rowBegin offsets i)) 1)
      (CallShape offsets) (fun _ _ => ⟨hi, rfl, by unfold rowEndPtr; rw [hget]⟩) fuel
      (I.createMultiSearcherInBigHaystack (collectNeedles nd pn (no.getD i 0) needles))
      0 res calls h
    simp only [vectorRows]
    generalize vectorPasses I data i (rowBegin offsets i)
      (ptrSub (ptrSub (ptrAdd (rowBegin offsets i) off) (rowBegin offsets i)) 1) fuel
      (I.createMultiSearcherInBigHaystack (collectNeedles nd pn (no.getD i 0) needles))
      0 res calls = F at hstep ⊢
    split
    · exact h
    · split
      · have := ih (i + 1) (no.getD i 0) [] F.res F.calls hdrop1 hstep
        rw [hbeg] at this
        exact this
      · exact hstep

theorem rowEndPtr_eq (offsets : List Nat)
    (hok : ∀ off ∈ offsets, 1 ≤ off ∧ off < wordSize) (j : Nat) (hj : j < offsets.length) :
    rowEndPtr offsets j = rowEnd offsets j := by
  have hmem : offsets.getD j 0 ∈ offsets := by
    rw [List.getD_eq_getElem _ _ hj]; exact List.getElem_mem _
  obtain ⟨h1, h2⟩ := hok _ hmem
  exact ptr_end_eq _ _ h1 h2

/-! ## The aggregation invariant -/

theorem rowIterations_append (calls more : List SearchCall) (j : Nat) :
    rowIterations (calls ++ more) j = rowIterations calls j ++ rowIterations more j := by
  simp [rowIterations, List.filter_append]

theorem rowIterations_singleton (c : SearchCall) (j : Nat) :
    rowIterations [c] j = if c.row = j then [c.iteration] else [] := by
  by_cases h : c.row = j <;> simp [rowIterations, List.filter, h]

theorem rowResults_length (calls : List SearchCall) (j : Nat) :
    (rowResults calls j).length = (rowIterations calls j).length := by
  simp [rowResults, rowIterations]

theorem rowResults_eq_nil (calls : List SearchCall) (j : Nat)
    (h : rowIterations calls j = []) : rowResults calls j = [] := by
  apply List.eq_nil_of_length_eq_zero
  rw [rowResults_length, h]
  rfl

theorem getD_set_self (res : List Nat) (j v : Nat) (hj : j < res.length) :
    (res.set j v).getD j 0 = v := by
  simp [List.getD_eq_getElem?_getD, List.getElem?_set, hj]

theorem getD_set_other (res : List Nat) (j j' v : Nat) (hne : j ≠ j') :
    (res.set j v).getD j' 0 = res.getD j' 0 := by
  simp [List.getD_eq_getElem?_getD, List.getElem?_set, hne]

theorem RowInv.step {Q : SearchCall → Prop} {N p j : Nat} {res : List Nat}
    {calls : List SearchCall} (h : RowInv Q N p j res calls) (hj : j < N) (b e r : Nat)
    (hq : Q ⟨p, j, b, e, r⟩) :
    RowInv Q N p (j + 1) (res.set j (aggregateStep p (res.getD j 0) r))
      (calls ++ [⟨p, j, b, e, r⟩]) := by
  refine ⟨by simp [h.len], ?_, ?_, ?_⟩
  · intro j' hj'
    rw [rowIterations_append, rowIterations_singleton, h.its j' hj']
    by_cases hjj : j' = j
    · subst hjj
      simp [List.range_succ]
    · have h1 : ¬ j = j' := fun hh => hjj hh.symm
      by_cases hlt : j' < j
      · simp [h1, hlt, Nat.lt_succ_of_lt hlt]
      · have : ¬ j' < j + 1 := by omega
        simp [h1, hlt, this]
  · intro j' hj' hcond
    rw [rowResults_append, rowResults_singleton]
    by_cases hjj : j' = j
    · subst hjj
      rw [getD_set_self _ _ _ (by rw [h.len]; exact hj)]
      simp only [if_true]
      by_cases hp : p = 0
      · subst hp
        have hnil : rowResults calls j' = [] := by
          apply rowResults_eq_nil
          rw [h.its j' hj']
          simp
        rw [hnil, aggregateStep_zero]
        have := minNonzero_append_singleton [] r
        simpa [minNonzero_nil] using this.symm
      · rw [h.vals j' hj' (Or.inr (Nat.pos_of_ne_zero hp))]
        exact aggregateStep_minNonzero p _ r hp
    · have h1 : ¬ j = j' := fun hh => hjj hh.symm
      rw [getD_set_other _ _ _ _ h1]
      simp only [h1, if_false, List.append_nil]
      apply h.vals j' hj'
      rcases hcond with hc | hc
      · left; omega
      · right; exact hc
  · intro c hc
    rcases List.mem_append.mp hc with hc | hc
    · exact h.callsOk c hc
    · rw [List.mem_singleton] at hc
      subst hc
      exact hq

theorem constantRows_inv {σ : Type} (I : Impl σ) (data : List Nat) (p : Nat)
    (offsets : List Nat) (G : σ → Prop) (Q : SearchCall → Prop)
    (hG : ∀ s j b e, G s →
      G (I.searchOneFirstPosition s data b e (res_callback I data)).2 ∧
      Q ⟨p, j, b, e, (I.searchOneFirstPosition s data b e (res_callback I data)).1⟩) :
    ∀ (offs : List Nat) (j prev : Nat) (s : σ) (res : List Nat) (calls : List SearchCall),
      offsets.drop j = offs → G s → RowInv Q offsets.length p j res calls →
      G (constantRows I data p offs j prev s res calls).1 ∧
      RowInv Q offsets.length p offsets.length
        (constantRows I data p offs j prev s res calls).2.1
        (constantRows I data p offs j prev s res calls).2.2 := by
  intro offs
  induction offs with
  | nil =>
    intro j prev s res calls hdrop hg hinv
    have hj : offsets.length ≤ j := by
      by_contra hlt
      have := List.drop_eq_getElem_cons (Nat.lt_of_not_le hlt)
      rw [hdrop] at this
      cases this
    refine ⟨hg, hinv.len, ?_, ?_, hinv.callsOk⟩
    · intro j' hj'
      have := hinv.its j' hj'
      have h1 : j' < j := by omega
      simpa [h1, hj'] using this
    · intro j' hj' _
      exact hinv.vals j' hj' (Or.inl (by omega))
  | cons off offs ih =>
    intro j prev s res calls hdrop hg hinv
    obtain ⟨hj, _, hdrop1, _⟩ := drop_cons_info offsets j off offs hdrop
    simp only [constantRows]
    obtain ⟨hg1, hq⟩ := hG s j prev (ptrSub (ptrSub (ptrAdd prev off) prev) 1) hg
    exact ih (j + 1) off _ _ _ hdrop1 hg1 (hinv.step hj _ _ _ hq)

theorem constantPasses_more {σ : Type} (I : Impl σ) (data offsets : List Nat) (fuel : Nat)
    (s : σ) (it : Nat) (res : List Nat) (calls : List SearchCall)
    (h : (I.hasMoreToSearch s).1 = true) :
    constantPasses I data offsets (fuel + 1) s it res calls =
      constantPasses I data offsets fuel
        (constantRows I data it offsets 0 0 (I.hasMoreToSearch s).2 res calls).1
        ((it + 1) % wordSize)
        (constantRows I data it offsets 0 0 (I.hasMoreToSearch s).2 res calls).2.1
        (constantRows I data it offsets 0 0 (I.hasMoreToSearch s).2 res calls).2.2 := by
  simp [constantPasses, h]

theorem constantPasses_done {σ : Type} (I : Impl σ) (data offsets : List Nat) (fuel : Nat)
    (s : σ) (it : Nat) (res : List Nat) (calls : List SearchCall)
    (h : (I.hasMoreToSearch s).1 = false) :
    constantPasses I data offsets (fuel + 1) s it res calls =
      ⟨Status.returned, if it = 0 then List.replicate res.length 0 else res, calls⟩ := by
  simp [constantPasses, h]

theorem vectorPasses_more {σ : Type} (I : Impl σ) (data : List Nat) (i b e fuel : Nat)
    (s : σ) (it : Nat) (res : List Nat) (calls : List SearchCall)
    (h : (I.hasMoreToSearch s).1 = true) :
    vectorPasses I data i b e (fuel + 1) s it res calls =
      vectorPasses I data i b e fuel
        (I.searchOneFirstPosition (I.hasMoreToSearch s).2 data b e (res_callback I data)).2
        ((it + 1) % wordSize)
        (res.set i (aggregateStep it (res.getD i 0)
          (I.searchOneFirstPosition (I.hasMoreToSearch s).2 data b e (res_callback I data)).1))
        (calls ++ [⟨it, i, b, e,
          (I.searchOneFirstPosition (I.hasMoreToSearch s).2 data b e
            (res_callback I data)).1⟩]) := by
  simp [vectorPasses, h]

theorem vectorPasses_done {σ : Type} (I : Impl σ) (data : List Nat) (i b e fuel : Nat)
    (s : σ) (it : Nat) (res : List Nat) (calls : List SearchCall)
    (h : (I.hasMoreToSearch s).1 = false) :
    vectorPasses I data i b e (fuel + 1) s it res calls =
      ⟨Status.returned, if it = 0 then res.set i 0 else res, calls⟩ := by
  simp [vectorPasses, h]

theorem getD_replicate_zero (n j : Nat) : (List.replicate n 0).getD j 0 = 0 := by
  by_cases h : j < n
  · simp [List.getD_eq_getElem?_getD, List.getElem?_replicate, h]
  · simp [List.getD_eq_getElem?_getD, List.getElem?_replicate, h]

theorem constantPasses_inv {σ : Type} (I : Impl σ) (data offsets : List Nat)
    (G H : Nat → σ → Prop) (Q : SearchCall → Prop)
    (hG : ∀ p s j b e, G p s →
      G p (I.searchOneFirstPosition s data b e (res_callback I data)).2 ∧
      Q ⟨p, j, b, e, (I.searchOneFirstPosition s data b e (res_callback I data)).1⟩)
    (hH : ∀ p s, H p s → (I.hasMoreToSearch s).1 = true → G p (I.hasMoreToSearch s).2)
    (hGH : ∀ p s, G p s → H (p + 1) s) :
    ∀ (fuel p : Nat) (s : σ) (res : List Nat) (calls : List SearchCall),
      p + fuel ≤ wordSize → H p s → RowInv Q offsets.length p 0 res calls →
      (constantPasses I data offsets fuel s p res calls).status = Status.returned →
      (∀ j, j < offsets.length →
        RowDone I H (constantPasses I data offsets fuel s p res calls).res
          (constantPasses I data offsets fuel s p res calls).calls j) ∧
      (∀ c ∈ (constantPasses I data offsets fuel s p res calls).calls, Q c) := by
  intro fuel
  induction fuel with
  | zero =>
    intro p s res calls _ _ _ hret
    simp [constantPasses] at hret
  | succ fuel ih =>
    intro p s res calls hfuel hh hinv hret
    cases hmore : (I.hasMoreToSearch s).1 with
    | false =>
      rw [constantPasses_done I data offsets fuel s p res calls hmore]
      refine ⟨?_, hinv.callsOk⟩
      intro j hj
      refine ⟨p, s, hh, hmore, ?_, ?_⟩
      · simpa using hinv.its j hj
      · by_cases hp : p = 0
        · subst hp
          have hnil : rowResults calls j = [] := by
            apply rowResults_eq_nil
            simpa using hinv.its j hj
          simp only [if_true]
          rw [hnil, minNonzero_nil, getD_replicate_zero]
        · simp only [hp, if_false]
          exact hinv.vals j hj (Or.inr (Nat.pos_of_ne_zero hp))
    | true =>
      rw [constantPasses_more I data offsets fuel s p res calls hmore] at hret ⊢
      cases fuel with
      | zero => simp [constantPasses] at hret
      | succ fuel =>
        have hmod : (p + 1) % wordSize = p + 1 := Nat.mod_eq_of_lt (by omega)
        rw [hmod] at hret ⊢
        obtain ⟨hg1, hinv1⟩ := constantRows_inv I data p offsets (G p) Q (hG p) offsets 0 0
          (I.hasMoreToSearch s).2 res calls rfl (hH p s hh hmore) hinv
        refine ih (p + 1) _ _ _ (by omega) (hGH p _ hg1) ?_ hret
        refine ⟨hinv1.len, ?_, ?_, hinv1.callsOk⟩
        · intro j hj
          simpa [hj] using hinv1.its j hj
        · intro j hj _
          exact hinv1.vals j hj (Or.inl hj)

theorem vectorPasses_frame {σ : Type} (I : Impl σ) (data : List Nat) (i b e : Nat) :
    ∀ (fuel : Nat) (s : σ) (it : Nat) (res : List Nat) (calls : List SearchCall) (j : Nat),
      j ≠ i →
      (vectorPasses I data i b e fuel s it res calls).res.getD j 0 = res.getD j 0 ∧
      rowIterations (vectorPasses I data i b e fuel s it res calls).calls j
        = rowIterations calls j ∧
      rowResults (vectorPasses I data i b e fuel s it res calls).calls j
        = rowResults calls j := by
  intro fuel
  induction fuel with
  | zero => intro s it res calls j _; exact ⟨rfl, rfl, rfl⟩
  | succ fuel ih =>
    intro s it res calls j hne
    have hne1 : ¬ i = j := fun h => hne h.symm
    cases hmore : (I.hasMoreToSearch s).1 with
    | false =>
      rw [vectorPasses_done I data i b e fuel s it res calls hmore]
      refine ⟨?_, rfl, rfl⟩
      by_cases hit : it = 0
      · simp only [hit, if_true]
        exact getD_set_other _ _ _ _ hne1
      · simp only [hit, if_false]
    | true =>
      rw [vectorPasses_more I data i b e fuel s it res calls hmore]
      obtain ⟨h1, h2, h3⟩ := ih
        (I.searchOneFirstPosition (I.hasMoreToSearch s).2 data b e (res_callback I data)).2
        ((it + 1) % wordSize)
        (res.set i (aggregateStep it (res.getD i 0)
          (I.searchOneFirstPosition (I.hasMoreToSearch s).2 data b e (res_callback I data)).1))
        (calls ++ [⟨it, i, b, e,
          (I.searchOneFirstPosition (I.hasMoreToSearch s).2 data b e
            (res_callback I data)).1⟩]) j hne
      refine ⟨?_, ?_, ?_⟩
      · rw [h1]; exact getD_set_other _ _ _ _ hne1
      · rw [h2, rowIterations_append, rowIterations_singleton]; simp [hne1]
      · rw [h3, rowResults_append, rowResults_singleton]; simp [hne1]

theorem vectorPasses_inv {σ : Type} (I : Impl σ) (data : List Nat) (i b e : Nat)
    (G H : Nat → σ → Prop) (Q : SearchCall → Prop)
    (hG : ∀ p s, G p s →
      G p (I.searchOneFirstPosition s data b e (res_callback I data)).2 ∧
      Q ⟨p, i, b, e, (I.searchOneFirstPosition s data b e (res_callback I data)).1⟩)
    (hH : ∀ p s, H p s → (I.hasMoreToSearch s).1 = true → G p (I.hasMoreToSearch s).2)
    (hGH : ∀ p s, G p s → H (p + 1) s) :
    ∀ (fuel p : Nat) (s : σ) (res : List Nat) (calls : List SearchCall),
      p + fuel ≤ wordSize → H p s → i < res.length →
      rowIterations calls i = List.range p →
      (0 < p → res.getD i 0 = minNonzero (rowResults calls i)) →
      (∀ c ∈ calls, Q c) →
      (vectorPasses I data i b e fuel s p res calls).status = Status.returned →
      RowDone I H (vectorPasses I data i b e fuel s p res calls).res
        (vectorPasses I data i b e fuel s p res calls).calls i ∧
      (∀ c ∈ (vectorPasses I data i b e fuel s p res calls).calls, Q c) := by
  intro fuel
  induction fuel with
  | zero =>
    intro p s res calls _ _ _ _ _ _ hret
    simp [vectorPasses] at hret
  | succ fuel ih =>
    intro p s res calls hfuel hh hi hits hvals hq hret
    cases hmore : (I.hasMoreToSearch s).1 with
    | false =>
      rw [vectorPasses_done I data i b e fuel s p res calls hmore]
      refine ⟨⟨p, s, hh, hmore, hits, ?_⟩, hq⟩
      by_cases hp : p = 0
      · subst hp
        have hnil : rowResults calls i = [] := rowResults_eq_nil _ _ (by simpa using hits)
        simp only [if_true]
        rw [hnil, minNonzero_nil, getD_set_self _ _ _ hi]
      · simp only [hp, if_false]
        exact hvals (Nat.pos_of_ne_zero hp)
    | true =>
      rw [vectorPasses_more I data i b e fuel s p res calls hmore] at hret ⊢
      cases fuel with
      | zero => simp [vectorPasses] at hret
      | succ fuel =>
        have hmod : (p + 1) % wordSize = p + 1 := Nat.mod_eq_of_lt (by omega)
        rw [hmod] at hret ⊢
        obtain ⟨hg1, hq1⟩ := hG p _ (hH p s hh hmore)
        refine ih (p + 1) _ _ _ (by omega) (hGH p _ hg1) (by simpa using hi) ?_ ?_ ?_ hret
        · rw [rowIterations_append, rowIterations_singleton, hits]
          simp [List.range_succ]
        · intro _
          rw [rowResults_append, rowResults_singleton, getD_set_self _ _ _ hi]
          simp only [if_true]
          by_cases hp : p = 0
          · subst hp
            have hnil : rowResults calls i = [] := rowResults_eq_nil _ _ (by simpa using hits)
            rw [hnil, aggregateStep_zero]
            have := minNonzero_append_singleton [] 
              (I.searchOneFirstPosition (I.hasMoreToSearch s).2 data b e
                (res_callback I data)).1
            simpa [minNonzero_nil] using this.symm
          · rw [hvals (Nat.pos_of_ne_zero hp)]
            exact aggregateStep_minNonzero p _ _ hp
        · intro c hc
          rcases List.mem_append.mp hc with hc | hc
          · exact hq c hc
          · rw [List.mem_singleton] at hc
            subst hc
            exact hq1

theorem collectNeedles_eq (nd : List (List Nat)) (no : List Nat) (i : Nat) :
    collectNeedles nd (rowBegin no i) (no.getD i 0) [] = rowNeedles nd no i := by
  simp [collectNeedles, rowNeedles]

theorem rowNeedles_length (nd : List (List Nat)) (no : List Nat) (i : Nat) :
    (rowNeedles nd no i).length = no.getD i 0 - rowBegin no i := by
  simp only [rowNeedles, List.length_map, List.length_range]

theorem vectorRows_inv {σ : Type} (I : Impl σ) (fuel : Nat) (data : List Nat)
    (nd : List (List Nat)) (no : List Nat) (offsets : List Nat)
    (G H : Nat → Nat → σ → Prop) (Q : SearchCall → Prop)
    (hfuel : fuel ≤ wordSize)
    (hC : ∀ i, i < offsets.length →
      H i 0 (I.createMultiSearcherInBigHaystack (rowNeedles nd no i)))
    (hG : ∀ i p s b e, G i p s →
      G i p (I.searchOneFirstPosition s data b e (res_callback I data)).2 ∧
      Q ⟨p, i, b, e, (I.searchOneFirstPosition s data b e (res_callback I data)).1⟩)
    (hH : ∀ i p s, H i p s → (I.hasMoreToSearch s).1 = true → G i p (I.hasMoreToSearch s).2)
    (hGH : ∀ i p s, G i p s → H i (p + 1) s) :
    ∀ (offs : List Nat) (i ph : Nat) (res : List Nat) (calls : List SearchCall),
      offsets.drop i = offs → res.length = offsets.length →
      (∀ j, j < i → j < offsets.length → RowDone I (H j) res calls j) →
      (∀ c ∈ calls, Q c ∧ c.row < i) →
      (vectorRows I fuel data nd no offs i ph (rowBegin no i) [] res calls).status
        = Status.returned →
      (∀ j, j < offsets.length →
        RowDone I (H j)
          (vectorRows I fuel data nd no offs i ph (rowBegin no i) [] res calls).res
          (vectorRows I fuel data nd no offs i ph (rowBegin no i) [] res calls).calls j) ∧
      (∀ c ∈ (vectorRows I fuel data nd no offs i ph (rowBegin no i) [] res calls).calls,
        Q c) := by
  intro offs
  induction offs with
  | nil =>
    intro i ph res calls hdrop hlen hdone hq _
    have hi : offsets.length ≤ i := by
      by_contra hlt
      have := List.drop_eq_getElem_cons (Nat.lt_of_not_le hlt)
      rw [hdrop] at this
      cases this
    exact ⟨fun j hj => hdone j (by omega) hj, fun c hc => (hq c hc).1⟩
  | cons off offs ih =>
    intro i ph res calls hdrop hlen hdone hq hret
    obtain ⟨hi, _, hdrop1, _⟩ := drop_cons_info offsets i off offs hdrop
    by_cases hreq : sizeSub (no.getD i 0) (rowBegin no i) ≤ vectorMaxSize
    swap
    · rw [vectorRows_cons_thrown I fuel data nd no off offs i ph _ [] res calls
        (by omega)] at hret
      cases hret
    simp only [vectorRows] at hret ⊢
    rw [if_neg (Nat.not_lt.mpr hreq)] at hret ⊢
    rw [collectNeedles_eq] at hret ⊢
    have hits : rowIterations calls i = List.range 0 := by
      simp only [rowIterations, List.range_zero, List.map_eq_nil_iff, List.filter_eq_nil_iff]
      intro c hc
      have := (hq c hc).2
      simp only [decide_eq_true_eq]
      omega
    have hrow := vectorPasses_shape I data i ph (ptrSub (ptrSub (ptrAdd ph off) ph) 1)
      (fun c => c.row < i + 1) (fun _ _ => Nat.lt_succ_self i) fuel
      (I.createMultiSearcherInBigHaystack (rowNeedles nd no i)) 0 res calls
      (fun c hc => Nat.lt_succ_of_lt (hq c hc).2)
    have hfr := vectorPasses_frame I data i ph (ptrSub (ptrSub (ptrAdd ph off) ph) 1) fuel
      (I.createMultiSearcherInBigHaystack (rowNeedles nd no i)) 0 res calls
    have hlen1 := vectorPasses_length I data i ph (ptrSub (ptrSub (ptrAdd ph off) ph) 1) fuel
      (I.createMultiSearcherInBigHaystack (rowNeedles nd no i)) 0 res calls
    have hinv := vectorPasses_inv I data i ph (ptrSub (ptrSub (ptrAdd ph off) ph) 1)
      (G i) (H i) Q (fun p s hg => hG i p s _ _ hg) (hH i) (hGH i) fuel 0
      (I.createMultiSearcherInBigHaystack (rowNeedles nd no i)) res calls
      (by omega) (hC i hi) (by omega) hits (fun h => absurd h (Nat.lt_irrefl 0))
      (fun c hc => (hq c hc).1)
    generalize vectorPasses I data i ph (ptrSub (ptrSub (ptrAdd ph off) ph) 1) fuel
      (I.createMultiSearcherInBigHaystack (rowNeedles nd no i)) 0 res calls = F
      at hret hrow hfr hlen1 hinv ⊢
    cases hst : F.status with
    | returned =>
      rw [hst] at hret
      simp only at hret ⊢
      rw [← rowBegin_succ no i] at hret ⊢
      obtain ⟨hdoneI, hqF⟩ := hinv hst
      refine ih (i + 1) off F.res F.calls hdrop1 (by omega) ?_ ?_ hret
      · intro j hj hjN
        by_cases hji : j = i
        · subst hji; exact hdoneI
        · obtain ⟨k, sf, h1, h2, h3, h4⟩ := hdone j (by omega) hjN
          obtain ⟨f1, f2, f3⟩ := hfr j hji
          exact ⟨k, sf, h1, h2, by rw [f2]; exact h3, by rw [f1, f3]; exact h4⟩
      · intro c hc
        exact ⟨hqF c hc, hrow c hc⟩
    | thrown ex => rw [hst] at hret; simp only at hret; rw [hst] at hret; cases hret
    | lengthError => rw [hst] at hret; simp only at hret; rw [hst] at hret; cases hret
    | outOfFuel => rw [hst] at hret; simp only at hret; rw [hst] at hret; cases hret

/-! ## Occurrences and the earliest match -/

theorem infix_iff_drop (n h : List Nat) :
    n <:+: h ↔ ∃ k, k ≤ h.length ∧ n <+: h.drop k := by
  constructor
  · rintro ⟨s, t, rfl⟩
    refine ⟨s.length, by simp, t, ?_⟩
    simp [List.append_assoc]
  · rintro ⟨k, _, hpre⟩
    exact List.IsInfix.trans hpre.isInfix (List.drop_suffix k h).isInfix

theorem firstMatch_eq_some_iff (ns : List (List Nat)) (h : List Nat) (k : Nat) :
    firstMatch ns h = some k ↔
      k ≤ h.length ∧ (∃ n ∈ ns, n <+: h.drop k) ∧
        ∀ k', k' < k → ∀ n ∈ ns, ¬ n <+: h.drop k' := by
  unfold firstMatch
  rw [List.find?_range_eq_some]
  simp only [List.any_eq_true, List.isPrefixOf_iff_prefix, List.mem_range, Bool.not_eq_true',
    Bool.eq_false_iff, ne_eq, not_exists, not_and]
  constructor
  · rintro ⟨h1, h2, h3⟩
    exact ⟨by omega, h1, h3⟩
  · rintro ⟨h1, h2, h3⟩
    exact ⟨h2, by omega, h3⟩

theorem firstMatch_eq_none_iff (ns : List (List Nat)) (h : List Nat) :
    firstMatch ns h = none ↔ ∀ n ∈ ns, ¬ n <:+: h := by
  unfold firstMatch
  rw [List.find?_range_eq_none]
  simp only [List.any_eq_true, List.isPrefixOf_iff_prefix, Bool.not_eq_true',
    Bool.eq_false_iff, ne_eq, not_exists, not_and]
  constructor
  · intro hall n hn hinf
    obtain ⟨k, hk, hpre⟩ := (infix_iff_drop n h).mp hinf
    exact hall k (by omega) n hn hpre
  · intro hall k hk n hn hpre
    exact hall n hn ((infix_iff_drop n h).mpr ⟨k, by omega, hpre⟩)

theorem firstMatch_isSome_of_occurs (ns : List (List Nat)) (h : List Nat)
    (hocc : ∃ n ∈ ns, n <:+: h) : ∃ k, firstMatch ns h = some k := by
  cases hfm : firstMatch ns h with
  | none =>
    obtain ⟨n, hn, hinf⟩ := hocc
    exact absurd hinf ((firstMatch_eq_none_iff ns h).mp hfm n hn)
  | some k => exact ⟨k, rfl⟩

theorem occurs_of_firstMatch (ns : List (List Nat)) (h : List Nat) (k : Nat)
    (hfm : firstMatch ns h = some k) : ∃ n ∈ ns, n <:+: h := by
  obtain ⟨hk, ⟨n, hn, hpre⟩, _⟩ := (firstMatch_eq_some_iff ns h k).mp hfm
  exact ⟨n, hn, (infix_iff_drop n h).mpr ⟨k, hk, hpre⟩⟩

theorem firstMatch_le_of_subset (g ns : List (List Nat)) (h : List Nat) (kg k : Nat)
    (hsub : ∀ n ∈ g, n ∈ ns) (hg : firstMatch g h = some kg)
    (hns : firstMatch ns h = some k) : k ≤ kg := by
  obtain ⟨_, ⟨n, hn, hpre⟩, _⟩ := (firstMatch_eq_some_iff g h kg).mp hg
  obtain ⟨_, _, hmin⟩ := (firstMatch_eq_some_iff ns h k).mp hns
  by_contra hlt
  exact hmin kg (by omega) n (hsub n hn) hpre

theorem firstMatch_of_attained (g ns : List (List Nat)) (h : List Nat) (k : Nat)
    (n : List Nat) (hsub : ∀ n ∈ g, n ∈ ns) (hns : firstMatch ns h = some k)
    (hn : n ∈ g) (hpre : n <+: h.drop k) : firstMatch g h = some k := by
  obtain ⟨hk, _, hmin⟩ := (firstMatch_eq_some_iff ns h k).mp hns
  rw [firstMatch_eq_some_iff]
  exact ⟨hk, ⟨n, hn, hpre⟩, fun k' hk' m hm => hmin k' hk' m (hsub m hm)⟩

/-! ## What the contract of section 4.2 gives for one row -/

theorem res_callback_eq {σ : Type} (I : Impl σ) (data : List Nat) (hfit : CountFits I data)
    (x y : Nat) : res_callback I data x y = 1 + I.countChars data x y :=
  Nat.mod_eq_of_lt (hfit x y)

theorem mem_rowResults (calls : List SearchCall) (j r : Nat) :
    r ∈ rowResults calls j ↔ ∃ c ∈ calls, c.row = j ∧ c.result = r := by
  simp [rowResults, List.mem_map, List.mem_filter, and_assoc]

theorem mem_rowIterations (calls : List SearchCall) (j p : Nat) :
    p ∈ rowIterations calls j ↔ ∃ c ∈ calls, c.row = j ∧ c.iteration = p := by
  simp [rowIterations, List.mem_map, List.mem_filter, and_assoc]

theorem mem_iff_getD {α : Type} (l : List α) (d a : α) :
    a ∈ l ↔ ∃ p, p < l.length ∧ l.getD p d = a := by
  constructor
  · intro h
    obtain ⟨p, hp, rfl⟩ := List.mem_iff_getElem.mp h
    exact ⟨p, hp, List.getD_eq_getElem _ _ hp⟩
  · rintro ⟨p, hp, rfl⟩
    rw [List.getD_eq_getElem _ _ hp]
    exact List.getElem_mem _

theorem row_zero_iff {σ : Type} (I : Impl σ) (data : List Nat) (ns : List (List Nat))
    (groups : List (List (List Nat))) (calls : List SearchCall) (j b e v : Nat)
    (hcover : ∀ n, n ∈ ns ↔ ∃ g ∈ groups, n ∈ g)
    (hfit : CountFits I data)
    (hv : v = minNonzero (rowResults calls j))
    (ha : ∀ c ∈ calls, c.row = j → c.iteration < groups.length ∧
      PassRel I data (groups.getD c.iteration []) c ∧ c.haystack = b ∧ c.haystack_end = e)
    (hb : ∀ p, p < groups.length → ∃ c ∈ calls, c.row = j ∧ c.iteration = p) :
    v = 0 ↔ ∀ n ∈ ns, ¬ n <:+: slice data b e := by
  rw [hv, minNonzero_eq_zero_iff]
  constructor
  · intro hall n hn hocc
    obtain ⟨g, hg, hng⟩ := (hcover n).mp hn
    obtain ⟨p, hp, hgp⟩ := (mem_iff_getD groups [] g).mp hg
    obtain ⟨c, hc, hrow, hit⟩ := hb p hp
    obtain ⟨_, hrel, hcb, hce⟩ := ha c hc hrow
    unfold PassRel at hrel
    rw [hit, hgp, hcb, hce] at hrel
    obtain ⟨x, y, hxy⟩ := hrel.2 ⟨n, hng, hocc⟩
    have h0 := hall c.result ((mem_rowResults calls j c.result).mpr ⟨c, hc, hrow, rfl⟩)
    rw [hxy, res_callback_eq I data hfit] at h0
    omega
  · intro hnone r hr
    obtain ⟨c, hc, hrow, rfl⟩ := (mem_rowResults calls j r).mp hr
    obtain ⟨hlt, hrel, hcb, hce⟩ := ha c hc hrow
    unfold PassRel at hrel
    rw [hcb, hce] at hrel
    apply hrel.1
    intro n hn
    apply hnone n
    exact (hcover n).mpr ⟨_, (mem_iff_getD groups [] _).mpr ⟨c.iteration, hlt, rfl⟩, hn⟩

theorem row_value {σ : Type} (I : Impl σ) (data : List Nat) (ns : List (List Nat))
    (groups : List (List (List Nat))) (calls : List SearchCall) (j b e v : Nat)
    (hcover : ∀ n, n ∈ ns ↔ ∃ g ∈ groups, n ∈ g)
    (hfit : CountFits I data) (hmono : CountMonotone I data)
    (hv : v = minNonzero (rowResults calls j))
    (ha : ∀ c ∈ calls, c.row = j → c.iteration < groups.length ∧
      (PassRel I data (groups.getD c.iteration []) c ∧
        PassRelEarliest I data (groups.getD c.iteration []) c) ∧
      c.haystack = b ∧ c.haystack_end = e)
    (hb : ∀ p, p < groups.length → ∃ c ∈ calls, c.row = j ∧ c.iteration = p)
    (hne : v ≠ 0) :
    ∃ k, firstMatch ns (slice data b e) = some k ∧ v = 1 + I.countChars data b (b + k) := by
  have hsub : ∀ p, p < groups.length → ∀ n ∈ groups.getD p [], n ∈ ns := by
    intro p hp n hn
    exact (hcover n).mpr ⟨_, (mem_iff_getD groups [] _).mpr ⟨p, hp, rfl⟩, hn⟩
  -- the call whose value is the result
  have hmem := minNonzero_mem (rowResults calls j) (by rw [← hv]; exact hne)
  rw [← hv] at hmem
  obtain ⟨c, hc, hrow, hres⟩ := (mem_rowResults calls j v).mp hmem
  obtain ⟨hlt, ⟨hrel, hearly⟩, hcb, hce⟩ := ha c hc hrow
  unfold PassRel at hrel
  rw [hcb, hce] at hrel
  unfold PassRelEarliest at hearly
  rw [hcb, hce] at hearly
  have hocc : ∃ n ∈ groups.getD c.iteration [], n <:+: slice data b e := by
    by_contra hno
    have := hrel.1 (fun n hn hinf => hno ⟨n, hn, hinf⟩)
    rw [hres] at this
    exact hne this
  obtain ⟨kc, hkc⟩ := firstMatch_isSome_of_occurs _ _ hocc
  have hvc : v = 1 + I.countChars data b (b + kc) := by
    rw [← hres, hearly kc hkc, res_callback_eq I data hfit]
  -- the earliest match over all needles
  obtain ⟨n0, hn0, hinf0⟩ := hocc
  obtain ⟨k, hk⟩ := firstMatch_isSome_of_occurs ns (slice data b e)
    ⟨n0, hsub c.iteration hlt n0 hn0, hinf0⟩
  have hle : k ≤ kc := firstMatch_le_of_subset _ ns _ kc k (hsub c.iteration hlt) hkc hk
  refine ⟨k, hk, ?_⟩
  -- the pass that covers a needle starting at the earliest match
  obtain ⟨_, ⟨n1, hn1, hpre1⟩, _⟩ := (firstMatch_eq_some_iff ns _ k).mp hk
  obtain ⟨g1, hg1, hn1g⟩ := (hcover n1).mp hn1
  obtain ⟨p1, hp1, hgp1⟩ := (mem_iff_getD groups [] g1).mp hg1
  obtain ⟨c1, hc1, hrow1, hit1⟩ := hb p1 hp1
  obtain ⟨_, ⟨_, hearly1⟩, hcb1, hce1⟩ := ha c1 hc1 hrow1
  unfold PassRelEarliest at hearly1
  rw [hcb1, hce1, hit1, hgp1] at hearly1
  have hk1 : firstMatch g1 (slice data b e) = some k :=
    firstMatch_of_attained g1 ns _ k n1 (by rw [← hgp1]; exact hsub p1 hp1) hk hn1g hpre1
  have hr1 : c1.result = 1 + I.countChars data b (b + k) := by
    rw [hearly1 k hk1, res_callback_eq I data hfit]
  have hmin : v ≤ c1.result := by
    rw [hv]
    exact minNonzero_le _ _ ((mem_rowResults calls j _).mpr ⟨c1, hc1, hrow1, rfl⟩)
      (by rw [hr1]; omega)
  have hm := hmono b (b + k) (b + kc) (by omega)
  omega

/-! ## The ghost state of a searcher that abides by the contract -/

theorem drop_eq_cons_getD {α : Type} (l : List α) (d : α) (p : Nat) (a : α) (as : List α)
    (h : l.drop p = a :: as) : p < l.length ∧ l.getD p d = a ∧ l.drop (p + 1) = as := by
  have hp : p < l.length := by
    by_contra hge
    rw [List.drop_eq_nil_of_le (by omega)] at h
    cases h
  rw [List.drop_eq_getElem_cons hp] at h
  injection h with h1 h2
  exact ⟨hp, by rw [List.getD_eq_getElem _ _ hp]; exact h1, h2⟩

theorem ghost_search {σ : Type} (I : Impl σ) (data : List Nat)
    (pending : σ → List (List (List Nat))) (current : σ → List (List Nat))
    (hc : PassContract I pending current) (groupsOf : Nat → List (List (List Nat)))
    (R : List (List Nat) → SearchCall → Prop)
    (hR : ∀ s p j b e, R (current s)
      ⟨p, j, b, e, (I.searchOneFirstPosition s data b e (res_callback I data)).1⟩)
    (i p : Nat) (s : σ) (b e : Nat) (hg : GhostG pending current groupsOf i p s) :
    GhostG pending current groupsOf i p
      (I.searchOneFirstPosition s data b e (res_callback I data)).2 ∧
    GhostQ groupsOf R
      ⟨p, i, b, e, (I.searchOneFirstPosition s data b e (res_callback I data)).1⟩ := by
  obtain ⟨_, _, _, hkeep, _, _⟩ := hc
  obtain ⟨h1, h2, h3⟩ := hg
  obtain ⟨k1, k2⟩ := hkeep s data b e (res_callback I data)
  refine ⟨⟨h1, by rw [k1]; exact h2, by rw [k2]; exact h3⟩, h1, ?_⟩
  have := hR s p i b e
  rw [h3] at this
  exact this

theorem ghost_more {σ : Type} (I : Impl σ)
    (pending : σ → List (List (List Nat))) (current : σ → List (List Nat))
    (hc : PassContract I pending current) (groupsOf : Nat → List (List (List Nat)))
    (i p : Nat) (s : σ) (hh : GhostH pending groupsOf i p s)
    (hmore : (I.hasMoreToSearch s).1 = true) :
    GhostG pending current groupsOf i p (I.hasMoreToSearch s).2 := by
  obtain ⟨_, hnil, hcons, _, _, _⟩ := hc
  unfold GhostH at hh
  cases hd : (groupsOf i).drop p with
  | nil =>
    rw [hd] at hh
    have := hnil s hh
    rw [hmore] at this
    cases this
  | cons g rest =>
    rw [hd] at hh
    obtain ⟨_, h2, h3⟩ := hcons s g rest hh
    obtain ⟨k1, k2, k3⟩ := drop_eq_cons_getD (groupsOf i) [] p g rest hd
    exact ⟨k1, by rw [h2, k3], by rw [h3, k2]⟩

theorem ghost_next {σ : Type}
    (pending : σ → List (List (List Nat))) (current : σ → List (List Nat))
    (groupsOf : Nat → List (List (List Nat)))
    (i p : Nat) (s : σ) (hg : GhostG pending current groupsOf i p s) :
    GhostH pending groupsOf i (p + 1) s := hg.2.1

theorem row_complete {σ : Type} (I : Impl σ)
    (pending : σ → List (List (List Nat))) (current : σ → List (List Nat))
    (hc : PassContract I pending current) (groupsOf : Nat → List (List (List Nat)))
    (res : List Nat) (calls : List SearchCall) (j : Nat)
    (hdone : RowDone I (GhostH pending groupsOf j) res calls j) :
    ∀ p, p < (groupsOf j).length → ∃ c ∈ calls, c.row = j ∧ c.iteration = p := by
  obtain ⟨k, sf, hh, hmore, hits, _⟩ := hdone
  obtain ⟨_, _, hcons, _, _, _⟩ := hc
  have hk : (groupsOf j).length ≤ k := by
    by_contra hlt
    unfold GhostH at hh
    rw [List.drop_eq_getElem_cons (Nat.lt_of_not_le hlt)] at hh
    have := (hcons sf _ _ hh).1
    rw [hmore] at this
    cases this
  intro p hp
  apply (mem_rowIterations calls j p).mp
  rw [hits, List.mem_range]
  omega

theorem resize_rowInv (Q : SearchCall → Prop) (res : List Nat) (n : Nat)
    (uninit : Nat → Nat) : RowInv Q n 0 0 (resize res n uninit) [] := by
  refine ⟨resize_length res n uninit, ?_, ?_, ?_⟩
  · intro j _; rfl
  · intro j _ h; omega
  · intro c hc; cases hc

theorem vectorConstant_rows {σ : Type} (I : Impl σ) (name : String) (uninit : Nat → Nat)
    (fuel : Nat) (data offsets : List Nat) (needles : List (List Nat)) (res : List Nat)
    (pending : σ → List (List (List Nat))) (current : σ → List (List Nat))
    (hc : PassContract I pending current)
    (R : List (List Nat) → SearchCall → Prop)
    (hR : ∀ s p j b e, R (current s)
      ⟨p, j, b, e, (I.searchOneFirstPosition s data b e (res_callback I data)).1⟩)
    (hok : ValidOffsets offsets) (hfuel : fuel ≤ wordSize)
    (hret : (vectorConstant I name uninit fuel data offsets needles res).status
      = Status.returned)
    (j : Nat) (hj : j < offsets.length) :
    (vectorConstant I name uninit fuel data offsets needles res).res.getD j 0
      = minNonzero (rowResults
          (vectorConstant I name uninit fuel data offsets needles res).calls j) ∧
    (∀ c ∈ (vectorConstant I name uninit fuel data offsets needles res).calls, c.row = j →
      c.iteration < (pending (I.createMultiSearcherInBigHaystack needles)).length ∧
      R ((pending (I.createMultiSearcherInBigHaystack needles)).getD c.iteration []) c ∧
      c.haystack = rowBegin offsets j ∧ c.haystack_end = rowEnd offsets j) ∧
    (∀ p, p < (pending (I.createMultiSearcherInBigHaystack needles)).length →
      ∃ c ∈ (vectorConstant I name uninit fuel data offsets needles res).calls,
        c.row = j ∧ c.iteration = p) := by
  unfold vectorConstant at hret ⊢
  by_cases hlen : needles.length > 255
  · rw [if_pos hlen] at hret; cases hret
  · rw [if_neg hlen] at hret ⊢
    simp only at hret ⊢
    have hshape := constantPasses_shape I data offsets fuel
      (I.createMultiSearcherInBigHaystack needles) 0
      (resize res offsets.length uninit) [] (fun c hc => by cases hc)
    obtain ⟨hdone, hq⟩ := constantPasses_inv I data offsets
      (GhostG pending current (fun _ => pending (I.createMultiSearcherInBigHaystack needles)) 0)
      (GhostH pending (fun _ => pending (I.createMultiSearcherInBigHaystack needles)) 0)
      (GhostQ (fun _ => pending (I.createMultiSearcherInBigHaystack needles)) R)
      (fun p s j b e hg => ghost_search I data pending current hc
        (fun _ => pending (I.createMultiSearcherInBigHaystack needles)) R hR j p s b e hg)
      (fun p s hh hm => ghost_more I pending current hc _ 0 p s hh hm)
      (fun p s hg => ghost_next pending current _ 0 p s hg)
      fuel 0 (I.createMultiSearcherInBigHaystack needles)
      (resize res offsets.length uninit) [] (by omega) rfl
      (resize_rowInv _ res offsets.length uninit) hret
    generalize constantPasses I data offsets fuel
      (I.createMultiSearcherInBigHaystack needles) 0
      (resize res offsets.length uninit) [] = F at hshape hdone hq ⊢
    refine ⟨?_, ?_, ?_⟩
    · obtain ⟨_, _, _, _, _, hval⟩ := hdone j hj
      exact hval
    · intro c hcm hrow
      obtain ⟨h1, h2⟩ := hq c hcm
      obtain ⟨_, s2, s3⟩ := hshape c hcm
      rw [hrow] at s2 s3
      exact ⟨h1, h2, s2, by rw [s3, rowEndPtr_eq offsets hok j hj]⟩
    · exact row_complete I pending current hc
        (fun _ => pending (I.createMultiSearcherInBigHaystack needles)) F.res F.calls j
        (hdone j hj)

theorem vectorVector_rows {σ : Type} (I : Impl σ) (uninit : Nat → Nat)
    (fuel : Nat) (data offsets : List Nat) (nd : List (List Nat)) (no : List Nat)
    (res : List Nat)
    (pending : σ → List (List (List Nat))) (current : σ → List (List Nat))
    (hc : PassContract I pending current)
    (R : List (List Nat) → SearchCall → Prop)
    (hR : ∀ s p j b e, R (current s)
      ⟨p, j, b, e, (I.searchOneFirstPosition s data b e (res_callback I data)).1⟩)
    (hok : ValidOffsets offsets) (hfuel : fuel ≤ wordSize)
    (hret : (vectorVector I uninit fuel data offsets nd no res).status = Status.returned)
    (j : Nat) (hj : j < offsets.length) :
    (vectorVector I uninit fuel data offsets nd no res).res.getD j 0
      = minNonzero (rowResults (vectorVector I uninit fuel data offsets nd no res).calls j) ∧
    (∀ c ∈ (vectorVector I uninit fuel data offsets nd no res).calls, c.row = j →
      c.iteration
        < (pending (I.createMultiSearcherInBigHaystack (rowNeedles nd no j))).length ∧
      R ((pending (I.createMultiSearcherInBigHaystack (rowNeedles nd no j))).getD
        c.iteration []) c ∧
      c.haystack = rowBegin offsets j ∧ c.haystack_end = rowEnd offsets j) ∧
    (∀ p, p < (pending (I.createMultiSearcherInBigHaystack (rowNeedles nd no j))).length →
      ∃ c ∈ (vectorVector I uninit fuel data offsets nd no res).calls,
        c.row = j ∧ c.iteration = p) := by
  unfold vectorVector at hret ⊢
  simp only at hret ⊢
  have hshape := vectorRows_shape I fuel data nd no offsets offsets 0 0 []
    (resize res offsets.length uninit) [] rfl (fun c hc => by cases hc)
  have hinv := vectorRows_inv I fuel data nd no offsets
    (GhostG pending current
      (fun i => pending (I.createMultiSearcherInBigHaystack (rowNeedles nd no i))))
    (GhostH pending
      (fun i => pending (I.createMultiSearcherInBigHaystack (rowNeedles nd no i))))
    (GhostQ (fun i => pending (I.createMultiSearcherInBigHaystack (rowNeedles nd no i))) R)
    hfuel (fun i _ => rfl)
    (fun i p s b e hg => ghost_search I data pending current hc _ R hR i p s b e hg)
    (fun i p s hh hm => ghost_more I pending current hc _ i p s hh hm)
    (fun i p s hg => ghost_next pending current _ i p s hg)
    offsets 0 0 (resize res offsets.length uninit) [] rfl
    (resize_length res offsets.length uninit)
    (fun j hj0 _ => absurd hj0 (Nat.not_lt_zero j)) (fun c hc => by cases hc)
  have hb0 : rowBegin offsets 0 = 0 := rfl
  have hn0 : rowBegin no 0 = 0 := rfl
  rw [hb0] at hshape
  rw [hn0] at hinv
  obtain ⟨hdone, hq⟩ := hinv hret
  generalize vectorRows I fuel data nd no offsets 0 0 0 []
    (resize res offsets.length uninit) [] = F at hshape hdone hq ⊢
  refine ⟨?_, ?_, ?_⟩
  · obtain ⟨_, _, _, _, _, hval⟩ := hdone j hj
    exact hval
  · intro c hcm hrow
    obtain ⟨h1, h2⟩ := hq c hcm
    obtain ⟨_, s2, s3⟩ := hshape c hcm
    rw [hrow] at s2 s3 h1 h2
    exact ⟨h1, h2, s2, by rw [s3, rowEndPtr_eq offsets hok j hj]⟩
  · exact row_complete I pending current hc
      (fun i => pending (I.createMultiSearcherInBigHaystack (rowNeedles nd no i)))
      F.res F.calls j (hdone j hj)

theorem minNonzero_isMinNonzero (rs : List Nat) : IsMinNonzero (minNonzero rs) rs := by
  refine ⟨(minNonzero_eq_zero_iff rs).mpr, ?_⟩
  rintro ⟨r, hr, hr0⟩
  have hne : minNonzero rs ≠ 0 := fun h => hr0 ((minNonzero_eq_zero_iff rs).mp h r hr)
  exact ⟨hne, minNonzero_mem rs hne, fun r hr h0 => minNonzero_le rs r hr h0⟩

theorem vectorConstant_aggregates {σ : Type} (I : Impl σ) (name : String)
    (uninit : Nat → Nat) (fuel : Nat) (data offsets : List Nat) (needles : List (List Nat))
    (res : List Nat) (hfuel : fuel ≤ wordSize)
    (hret : (vectorConstant I name uninit fuel data offsets needles res).status
      = Status.returned)
    (j : Nat) (hj : j < offsets.length) :
    (vectorConstant I name uninit fuel data offsets needles res).res.getD j 0
      = minNonzero (rowResults
          (vectorConstant I name uninit fuel data offsets needles res).calls j) := by
  unfold vectorConstant at hret ⊢
  by_cases hlen : needles.length > 255
  · rw [if_pos hlen] at hret; cases hret
  · rw [if_neg hlen] at hret ⊢
    simp only at hret ⊢
    obtain ⟨hdone, _⟩ := constantPasses_inv I data offsets
      (fun _ _ => True) (fun _ _ => True) (fun _ => True)
      (fun _ _ _ _ _ _ => ⟨trivial, trivial⟩) (fun _ _ _ _ => trivial)
      (fun _ _ _ => trivial)
      fuel 0 (I.createMultiSearcherInBigHaystack needles)
      (resize res offsets.length uninit) [] (by omega) trivial
      (resize_rowInv _ res offsets.length uninit) hret
    obtain ⟨_, _, _, _, _, hval⟩ := hdone j hj
    exact hval

theorem vectorVector_aggregates {σ : Type} (I : Impl σ) (uninit : Nat → Nat)
    (fuel : Nat) (data offsets : List Nat) (nd : List (List Nat)) (no : List Nat)
    (res : List Nat) (hfuel : fuel ≤ wordSize)
    (hret : (vectorVector I uninit fuel data offsets nd no res).status = Status.returned)
    (j : Nat) (hj : j < offsets.length) :
    (vectorVector I uninit fuel data offsets nd no res).res.getD j 0
      = minNonzero (rowResults
          (vectorVector I uninit fuel data offsets nd no res).calls j) := by
  unfold vectorVector at hret ⊢
  simp only at hret ⊢
  have hinv := vectorRows_inv I fuel data nd no offsets
    (fun _ _ _ => True) (fun _ _ _ => True) (fun _ => True)
    hfuel (fun _ _ => trivial)
    (fun _ _ _ _ _ _ => ⟨trivial, trivial⟩) (fun _ _ _ _ _ => trivial)
    (fun _ _ _ _ => trivial)
    offsets 0 0 (resize res offsets.length uninit) [] rfl
    (resize_length res offsets.length uninit)
    (fun j hj0 _ => absurd hj0 (Nat.not_lt_zero j)) (fun c hc => by cases hc)
  have hn0 : rowBegin no 0 = 0 := rfl
  rw [hn0] at hinv
  obtain ⟨hdone, _⟩ := hinv hret
  obtain ⟨_, _, _, _, _, hval⟩ := hdone j hj
  exact hval

/-! ## The reference searcher abides by the contract -/

theorem refImpl_contract :
    PassContract refImpl (fun s => s.pending) (fun s => s.current) := by
  refine ⟨?_, ?_, ?_, ?_, ?_, ?_⟩
  · intro ns n
    simp [refImpl]
  · intro s h
    simp only at h
    simp [refImpl, h]
  · intro s g rest h
    simp only at h
    simp [refImpl, h]
  · intro s mem b e cb
    exact ⟨rfl, rfl⟩
  · intro s mem b e cb hnone
    have := (firstMatch_eq_none_iff s.current (slice mem b e)).mpr hnone
    simp [refImpl, this]
  · intro s mem b e cb hocc
    obtain ⟨k, hk⟩ := firstMatch_isSome_of_occurs s.current (slice mem b e) hocc
    exact ⟨b, b + k, by simp [refImpl, hk]⟩

theorem refImpl_satisfiesContract : SatisfiesContract refImpl :=
  ⟨_, _, refImpl_contract⟩

theorem refImpl_reportsEarliestMatch : ReportsEarliestMatch refImpl := by
  refine ⟨_, _, refImpl_contract, ?_⟩
  intro s mem b e cb k hk
  simp [refImpl, hk]

theorem refImpl_finitePasses : HasFinitePasses refImpl := by
  refine ⟨fun s => s.pending.length, ?_, ?_⟩
  · intro s h
    cases hp : s.pending with
    | nil => simp [refImpl, hp] at h
    | cons g rest => simp [refImpl, hp]
  · intro s mem b e cb
    exact le_refl _

theorem slice_length_le (mem : List Nat) (b e : Nat) : (slice mem b e).length ≤ mem.length := by
  simp only [slice, List.length_take, List.length_drop]
  omega

theorem refImpl_countFits (mem : List Nat) (h : mem.length + 1 < wordSize) :
    CountFits refImpl mem := by
  intro b e
  have := slice_length_le mem b e
  simp only [refImpl]
  omega

theorem refImpl_countMonotone (mem : List Nat) : CountMonotone refImpl mem := by
  intro b e e' h
  simp only [refImpl, slice, List.length_take, List.length_drop]
  omega

/-! ## Shared facts on the two drivers -/

theorem vectorConstant_throws {σ : Type} (I : Impl σ) (name : String) (uninit : Nat → Nat)
    (fuel : Nat) (data offsets : List Nat) (needles : List (List Nat)) (res : List Nat)
    (h : 255 < needles.length) :
    vectorConstant I name uninit fuel data offsets needles res =
      ⟨Status.thrown (tooManyArguments name needles.length), res, []⟩ := by
  unfold vectorConstant
  rw [if_pos h]

theorem vectorConstant_runs {σ : Type} (I : Impl σ) (name : String) (uninit : Nat → Nat)
    (fuel : Nat) (data offsets : List Nat) (needles : List (List Nat)) (res : List Nat)
    (h : needles.length ≤ 255) :
    vectorConstant I name uninit fuel data offsets needles res =
      constantPasses I data offsets fuel (I.createMultiSearcherInBigHaystack needles) 0
        (resize res offsets.length uninit) [] := by
  unfold vectorConstant
  rw [if_neg (by omega)]

theorem constantPasses_not_thrown {σ : Type} (I : Impl σ) (data offsets : List Nat) :
    ∀ (fuel : Nat) (s : σ) (it : Nat) (res : List Nat) (calls : List SearchCall)
      (ex : Exception),
      (constantPasses I data offsets fuel s it res calls).status ≠ Status.thrown ex := by
  intro fuel
  induction fuel with
  | zero => intro s it res calls ex h; cases h
  | succ fuel ih =>
    intro s it res calls ex
    cases hmore : (I.hasMoreToSearch s).1 with
    | false =>
      rw [constantPasses_done I data offsets fuel s it res calls hmore]
      intro h; cases h
    | true =>
      rw [constantPasses_more I data offsets fuel s it res calls hmore]
      exact ih _ _ _ _ ex

theorem constantPasses_enough_fuel {σ : Type} (I : Impl σ) (hfin : HasFinitePasses I)
    (data offsets : List Nat) (s : σ) :
    ∃ fuel0, ∀ fuel, fuel0 ≤ fuel → ∀ (it : Nat) (res : List Nat) (calls : List SearchCall),
      (constantPasses I data offsets fuel s it res calls).status = Status.returned := by
  obtain ⟨bound, hm, hs⟩ := hfin
  exact ⟨bound s + 1, fun fuel hf it res calls =>
    constantPasses_returns I data offsets bound hm hs fuel s it res calls (by omega)⟩

theorem passRel_of_contract {σ : Type} (I : Impl σ) (data : List Nat)
    (pending : σ → List (List (List Nat))) (current : σ → List (List Nat))
    (hc : PassContract I pending current) (s : σ) (p j b e : Nat) :
    PassRel I data (current s)
      ⟨p, j, b, e, (I.searchOneFirstPosition s data b e (res_callback I data)).1⟩ := by
  obtain ⟨_, _, _, _, hzero, hcb⟩ := hc
  exact ⟨fun h => hzero s data b e _ h, fun h => hcb s data b e _ h⟩

theorem passRelEarliest_of_contract {σ : Type} (I : Impl σ) (data : List Nat)
    (pending : σ → List (List (List Nat))) (current : σ → List (List Nat))
    (hc : PassContract I pending current)
    (hearly : ∀ s mem b e cb k, firstMatch (current s) (slice mem b e) = some k →
      (I.searchOneFirstPosition s mem b e cb).1 = cb b (b + k))
    (s : σ) (p j b e : Nat) :
    PassRel I data (current s)
      ⟨p, j, b, e, (I.searchOneFirstPosition s data b e (res_callback I data)).1⟩ ∧
    PassRelEarliest I data (current s)
      ⟨p, j, b, e, (I.searchOneFirstPosition s data b e (res_callback I data)).1⟩ :=
  ⟨passRel_of_contract I data pending current hc s p j b e,
    fun k hk => hearly s data b e (res_callback I data) k hk⟩

/-! ## Rows already written and stale buffer content -/

theorem getD_set (res : List Nat) (j x v : Nat) :
    (res.set j v).getD x 0 = if x = j ∧ j < res.length then v else res.getD x 0 := by
  by_cases hx : x = j
  · subst hx
    by_cases hlt : x < res.length
    · simp [List.getD_eq_getElem?_getD, List.getElem?_set, hlt]
    · have h1 : res.length ≤ x := by omega
      simp [List.getD_eq_getElem?_getD, List.getElem?_set, hlt, List.getElem?_eq_none h1]
  · have : ¬ j = x := fun h => hx h.symm
    simp [List.getD_eq_getElem?_getD, List.getElem?_set, hx, this]

theorem getD_of_length_le (res : List Nat) (x : Nat) (h : res.length ≤ x) :
    res.getD x 0 = 0 := by
  simp [List.getD_eq_getElem?_getD, List.getElem?_eq_none h]

theorem getD_set_zero (res : List Nat) (i : Nat) : (res.set i 0).getD i 0 = 0 := by
  rw [getD_set]
  by_cases h : i < res.length
  · simp [h]
  · simp only [h, and_false, if_false]
    exact getD_of_length_le res i (by omega)

theorem eq_of_getD_eq (l1 l2 : List Nat) (hlen : l1.length = l2.length)
    (h : ∀ x, x < l1.length → l1.getD x 0 = l2.getD x 0) : l1 = l2 := by
  apply List.ext_getElem hlen
  intro n h1 h2
  have := h n h1
  rw [List.getD_eq_getElem _ _ h1, List.getD_eq_getElem _ _ h2] at this
  exact this

theorem vectorRows_frame {σ : Type} (I : Impl σ) (fuel : Nat) (data : List Nat)
    (nd : List (List Nat)) (no : List Nat) :
    ∀ (offs : List Nat) (i ph pn : Nat) (needles : List (List Nat)) (res : List Nat)
      (calls : List SearchCall) (j : Nat), j < i →
      (vectorRows I fuel data nd no offs i ph pn needles res calls).res.getD j 0
        = res.getD j 0 := by
  intro offs
  induction offs with
  | nil => intro i ph pn needles res calls j _; rfl
  | cons off offs ih =>
    intro i ph pn needles res calls j hj
    have hfr := (vectorPasses_frame I data i ph (ptrSub (ptrSub (ptrAdd ph off) ph) 1) fuel
      (I.createMultiSearcherInBigHaystack (collectNeedles nd pn (no.getD i 0) needles))
      0 res calls j (by omega)).1
    by_cases hreq : sizeSub (no.getD i 0) pn ≤ vectorMaxSize
    swap
    · rw [vectorRows_cons_thrown I fuel data nd no off offs i ph pn needles res calls
        (by omega)]
    by_cases hst : (vectorPasses I data i ph (ptrSub (ptrSub (ptrAdd ph off) ph) 1) fuel
      (I.createMultiSearcherInBigHaystack (collectNeedles nd pn (no.getD i 0) needles))
      0 res calls).status = Status.returned
    · rw [vectorRows_cons_returned I fuel data nd no off offs i ph pn needles res calls hreq
        hst, ih _ _ _ _ _ _ j (by omega), hfr]
    · rw [vectorRows_cons_stopped I fuel data nd no off offs i ph pn needles res calls hreq
        hst, hfr]

theorem vectorRows_zero_passes {σ : Type} (I : Impl σ) (fuel : Nat) (data : List Nat)
    (nd : List (List Nat)) (no : List Nat) (offsets : List Nat) (i : Nat)
    (hi : i < offsets.length)
    (hzero : (I.hasMoreToSearch
      (I.createMultiSearcherInBigHaystack (rowNeedles nd no i))).1 = false) :
    ∀ (offs : List Nat) (i0 ph : Nat) (res : List Nat) (calls : List SearchCall),
      offsets.drop i0 = offs → i0 ≤ i →
      (vectorRows I fuel data nd no offs i0 ph (rowBegin no i0) [] res calls).status
        = Status.returned →
      (vectorRows I fuel data nd no offs i0 ph (rowBegin no i0) [] res calls).res.getD i 0
        = 0 := by
  intro offs
  induction offs with
  | nil =>
    intro i0 ph res calls hdrop hle _
    exfalso
    have := List.drop_eq_getElem_cons (Nat.lt_of_le_of_lt hle hi)
    rw [hdrop] at this
    cases this
  | cons off offs ih =>
    intro i0 ph res calls hdrop hle hret
    obtain ⟨_, _, hdrop1, _⟩ := drop_cons_info offsets i0 off offs hdrop
    by_cases hreq : sizeSub (no.getD i0 0) (rowBegin no i0) ≤ vectorMaxSize
    swap
    · rw [vectorRows_cons_thrown I fuel data nd no off offs i0 ph _ [] res calls
        (by omega)] at hret
      cases hret
    by_cases hst : (vectorPasses I data i0 ph (ptrSub (ptrSub (ptrAdd ph off) ph) 1) fuel
      (I.createMultiSearcherInBigHaystack
        (collectNeedles nd (rowBegin no i0) (no.getD i0 0) []))
      0 res calls).status = Status.returned
    · rw [vectorRows_cons_returned I fuel data nd no off offs i0 ph _ [] res calls hreq hst]
        at hret ⊢
      by_cases hii : i0 = i
      · subst hii
        rw [vectorRows_frame I fuel data nd no offs (i0 + 1) off _ [] _ _ i0 (by omega)]
        rw [collectNeedles_eq] at hst ⊢
        cases fuel with
        | zero => cases hst
        | succ fuel =>
          rw [vectorPasses_done I data i0 ph _ fuel _ 0 res calls hzero]
          exact getD_set_zero res i0
      · rw [← rowBegin_succ no i0] at hret ⊢
        exact ih (i0 + 1) off _ _ hdrop1 (by omega) hret
    · rw [vectorRows_cons_stopped I fuel data nd no off offs i0 ph _ [] res calls hreq hst]
        at hret
      exact absurd hret hst

theorem constantRows_indep {σ : Type} (I : Impl σ) (data : List Nat) :
    ∀ (offs : List Nat) (j prev : Nat) (s : σ) (res1 res2 : List Nat)
      (calls : List SearchCall),
      res1.length = res2.length →
      (∀ x, (x < j ∨ j + offs.length ≤ x) → res1.getD x 0 = res2.getD x 0) →
      constantRows I data 0 offs j prev s res1 calls
        = constantRows I data 0 offs j prev s res2 calls := by
  intro offs
  induction offs with
  | nil =>
    intro j prev s res1 res2 calls hlen hagree
    have : res1 = res2 := eq_of_getD_eq res1 res2 hlen (fun x _ => hagree x (by
      simp only [List.length_nil, Nat.add_zero]; omega))
    rw [this]
  | cons off offs ih =>
    intro j prev s res1 res2 calls hlen hagree
    simp only [constantRows, aggregateStep_zero]
    apply ih
    · simp [hlen]
    · intro x hx
      rw [getD_set, getD_set, hlen]
      by_cases hxj : x = j
      · subst hxj
        by_cases hlt : x < res2.length
        · simp [hlt]
        · simp only [hlt, and_false, if_false]
          rw [getD_of_length_le res1 x (by omega), getD_of_length_le res2 x (by omega)]
      · simp only [hxj, false_and, if_false]
        apply hagree
        simp only [List.length_cons] at hx ⊢
        omega

theorem vectorPasses_indep {σ : Type} (I : Impl σ) (data : List Nat) (i b e : Nat) :
    ∀ (fuel : Nat) (s : σ) (it : Nat) (res1 res2 : List Nat) (calls : List SearchCall),
      res1.length = res2.length →
      (it = 0 ∨ res1.getD i 0 = res2.getD i 0) →
      (vectorPasses I data i b e fuel s it res1 calls).status
        = (vectorPasses I data i b e fuel s it res2 calls).status ∧
      (vectorPasses I data i b e fuel s it res1 calls).calls
        = (vectorPasses I data i b e fuel s it res2 calls).calls ∧
      ((vectorPasses I data i b e fuel s it res1 calls).status = Status.returned →
        (vectorPasses I data i b e fuel s it res1 calls).res.getD i 0
          = (vectorPasses I data i b e fuel s it res2 calls).res.getD i 0) := by
  intro fuel
  induction fuel with
  | zero =>
    intro s it res1 res2 calls _ _
    exact ⟨rfl, rfl, fun h => by cases h⟩
  | succ fuel ih =>
    intro s it res1 res2 calls hlen hagree
    cases hmore : (I.hasMoreToSearch s).1 with
    | false =>
      rw [vectorPasses_done I data i b e fuel s it res1 calls hmore,
        vectorPasses_done I data i b e fuel s it res2 calls hmore]
      refine ⟨rfl, rfl, fun _ => ?_⟩
      by_cases hit : it = 0
      · simp only [hit, if_true]
        rw [getD_set_zero, getD_set_zero]
      · simp only [hit, if_false]
        rcases hagree with h | h
        · exact absurd h hit
        · exact h
    | true =>
      rw [vectorPasses_more I data i b e fuel s it res1 calls hmore,
        vectorPasses_more I data i b e fuel s it res2 calls hmore]
      have hval : aggregateStep it (res1.getD i 0)
            (I.searchOneFirstPosition (I.hasMoreToSearch s).2 data b e
              (res_callback I data)).1
          = aggregateStep it (res2.getD i 0)
            (I.searchOneFirstPosition (I.hasMoreToSearch s).2 data b e
              (res_callback I data)).1 := by
        rcases hagree with h | h
        · subst h; rw [aggregateStep_zero, aggregateStep_zero]
        · rw [h]
      rw [hval]
      apply ih
      · simp [hlen]
      · right
        rw [getD_set, getD_set, hlen]
        by_cases hlt : i < res2.length
        · simp [hlt]
        · simp only [hlt, and_false, if_false]
          rw [getD_of_length_le res1 i (by omega), getD_of_length_le res2 i (by omega)]

theorem vectorRows_indep {σ : Type} (I : Impl σ) (fuel : Nat) (data : List Nat)
    (nd : List (List Nat)) (no : List Nat) :
    ∀ (offs : List Nat) (i ph pn : Nat) (needles : List (List Nat)) (res1 res2 : List Nat)
      (calls : List SearchCall),
      res1.length = res2.length →
      (∀ x, x < i → res1.getD x 0 = res2.getD x 0) →
      (vectorRows I fuel data nd no offs i ph pn needles res1 calls).status
        = (vectorRows I fuel data nd no offs i ph pn needles res2 calls).status ∧
      (vectorRows I fuel data nd no offs i ph pn needles res1 calls).calls
        = (vectorRows I fuel data nd no offs i ph pn needles res2 calls).calls ∧
      ((vectorRows I fuel data nd no offs i ph pn needles res1 calls).status
          = Status.returned →
        ∀ x, x < i + offs.length →
          (vectorRows I fuel data nd no offs i ph pn needles res1 calls).res.getD x 0
            = (vectorRows I fuel data nd no offs i ph pn needles res2 calls).res.getD x 0) := by
  intro offs
  induction offs with
  | nil =>
    intro i ph pn needles res1 res2 calls _ hagree
    exact ⟨rfl, rfl, fun _ x hx => hagree x (by simpa using hx)⟩
  | cons off offs ih =>
    intro i ph pn needles res1 res2 calls hlen hagree
    by_cases hreq : sizeSub (no.getD i 0) pn ≤ vectorMaxSize
    swap
    · rw [vectorRows_cons_thrown I fuel data nd no off offs i ph pn needles res1 calls
        (by omega),
        vectorRows_cons_thrown I fuel data nd no off offs i ph pn needles res2 calls
        (by omega)]
      exact ⟨rfl, rfl, fun hret => by cases hret⟩
    obtain ⟨hs, hc, hv⟩ := vectorPasses_indep I data i ph
      (ptrSub (ptrSub (ptrAdd ph off) ph) 1) fuel
      (I.createMultiSearcherInBigHaystack (collectNeedles nd pn (no.getD i 0) needles))
      0 res1 res2 calls hlen (Or.inl rfl)
    have hf1 := vectorPasses_frame I data i ph (ptrSub (ptrSub (ptrAdd ph off) ph) 1) fuel
      (I.createMultiSearcherInBigHaystack (collectNeedles nd pn (no.getD i 0) needles))
      0 res1 calls
    have hf2 := vectorPasses_frame I data i ph (ptrSub (ptrSub (ptrAdd ph off) ph) 1) fuel
      (I.createMultiSearcherInBigHaystack (collectNeedles nd pn (no.getD i 0) needles))
      0 res2 calls
    have hl1 := vectorPasses_length I data i ph (ptrSub (ptrSub (ptrAdd ph off) ph) 1) fuel
      (I.createMultiSearcherInBigHaystack (collectNeedles nd pn (no.getD i 0) needles))
      0 res1 calls
    have hl2 := vectorPasses_length I data i ph (ptrSub (ptrSub (ptrAdd ph off) ph) 1) fuel
      (I.createMultiSearcherInBigHaystack (collectNeedles nd pn (no.getD i 0) needles))
      0 res2 calls
    have e1 := vectorRows_cons_returned I fuel data nd no off offs i ph pn needles res1 calls
      hreq
    have e2 := vectorRows_cons_returned I fuel data nd no off offs i ph pn needles res2 calls
      hreq
    have n1 := vectorRows_cons_stopped I fuel data nd no off offs i ph pn needles res1 calls
      hreq
    have n2 := vectorRows_cons_stopped I fuel data nd no off offs i ph pn needles res2 calls
      hreq
    generalize vectorPasses I data i ph (ptrSub (ptrSub (ptrAdd ph off) ph) 1) fuel
      (I.createMultiSearcherInBigHaystack (collectNeedles nd pn (no.getD i 0) needles))
      0 res1 calls = P1 at hs hc hv hf1 hl1 e1 n1
    generalize vectorPasses I data i ph (ptrSub (ptrSub (ptrAdd ph off) ph) 1) fuel
      (I.createMultiSearcherInBigHaystack (collectNeedles nd pn (no.getD i 0) needles))
      0 res2 calls = P2 at hs hc hv hf2 hl2 e2 n2
    by_cases hst : P1.status = Status.returned
    · rw [e1 hst, e2 (by rw [← hs]; exact hst), ← hc]
      have := ih (i + 1) off (no.getD i 0) [] P1.res P2.res P1.calls
        (by rw [hl1, hl2, hlen]) (by
          intro x hx
          by_cases hxi : x = i
          · subst hxi; exact hv hst
          · rw [(hf1 x hxi).1, (hf2 x hxi).1]
            exact hagree x (by omega))
      exact ⟨this.1, this.2.1, fun hret x hx => this.2.2 hret x (by
        simp only [List.length_cons] at hx
        omega)⟩
    · rw [n1 hst, n2 (by rw [← hs]; exact hst)]
      exact ⟨hs, hc, fun hret => absurd hret hst⟩

theorem contract_finitePasses {σ : Type} (I : Impl σ) (h : SatisfiesContract I) :
    HasFinitePasses I := by
  obtain ⟨pending, current, _, hnil, hcons, hkeep, _, _⟩ := h
  refine ⟨fun s => (pending s).length, ?_, ?_⟩
  · intro s hmore
    cases hp : pending s with
    | nil =>
      have := hnil s hp
      rw [hmore] at this
      cases this
    | cons g rest =>
      simp only
      rw [(hcons s g rest hp).2.1, hp]
      exact Nat.lt_succ_self _
  · intro s mem b e cb
    simp only
    rw [(hkeep s mem b e cb).1]

theorem vectorConstant_enough_fuel {σ : Type} (I : Impl σ) (hfin : HasFinitePasses I)
    (name : String) (uninit : Nat → Nat) (data offsets : List Nat)
    (needles : List (List Nat)) (res : List Nat) (hlen : needles.length ≤ 255) :
    ∃ fuel0, ∀ fuel, fuel0 ≤ fuel →
      (vectorConstant I name uninit fuel data offsets needles res).status
        = Status.returned := by
  obtain ⟨fuel0, hf⟩ := constantPasses_enough_fuel I hfin data offsets
    (I.createMultiSearcherInBigHaystack needles)
  refine ⟨fuel0, fun fuel hfuel => ?_⟩
  rw [vectorConstant_runs I name uninit fuel data offsets needles res hlen]
  exact hf fuel hfuel _ _ _

theorem vectorVector_enough_fuel {σ : Type} (I : Impl σ) (hfin : HasFinitePasses I)
    (uninit : Nat → Nat) (data offsets : List Nat) (nd : List (List Nat)) (no : List Nat)
    (res : List Nat) (hno : NeedleOffsetsOK no offsets.length) :
    ∃ fuel0, ∀ fuel, fuel0 ≤ fuel →
      (vectorVector I uninit fuel data offsets nd no res).status = Status.returned := by
  obtain ⟨bound, hm, hs⟩ := hfin
  obtain ⟨fuel0, hf⟩ := vectorRows_returns I data nd no bound hm hs offsets 0 0 []
    (fun i _ hi => needleOffsetsOK_request no offsets.length hno i (by omega))
  exact ⟨fuel0, fun fuel hfuel => hf fuel hfuel _ _⟩

/-! ## The aggregation of a row as a function of its pass results -/

theorem minNonzero_congr (xs ys : List Nat) (h : ∀ r, r ∈ xs ↔ r ∈ ys) :
    minNonzero xs = minNonzero ys := by
  by_cases hx : minNonzero xs = 0
  · have hy : minNonzero ys = 0 :=
      (minNonzero_eq_zero_iff ys).mpr
        (fun r hr => (minNonzero_eq_zero_iff xs).mp hx r ((h r).mpr hr))
    rw [hx, hy]
  · have hy : minNonzero ys ≠ 0 := fun hy0 =>
      hx ((minNonzero_eq_zero_iff xs).mpr
        (fun r hr => (minNonzero_eq_zero_iff ys).mp hy0 r ((h r).mp hr)))
    have h1 := minNonzero_le ys (minNonzero xs) ((h _).mp (minNonzero_mem xs hx)) hx
    have h2 := minNonzero_le xs (minNonzero ys) ((h _).mpr (minNonzero_mem ys hy)) hy
    omega

theorem minNonzero_append (xs ys : List Nat) :
    minNonzero (xs ++ ys) = combine (minNonzero xs) (minNonzero ys) := by
  induction ys using List.reverseRecOn with
  | nil =>
    simp only [List.append_nil, minNonzero_nil, combine]
    split <;> simp_all
  | append_singleton ys r ih =>
    rw [← List.append_assoc, minNonzero_append_singleton, minNonzero_append_singleton, ih]
    unfold combine
    by_cases hx : minNonzero xs = 0 <;> by_cases hy : minNonzero ys = 0 <;>
      by_cases hr : r = 0 <;> simp [hx, hy, hr] <;> omega

theorem aggregateFrom_eq_minNonzero (rs : List Nat) :
    ∀ (pre : List Nat) (cur : Nat), pre.length + rs.length < wordSize →
      (pre ≠ [] → cur = minNonzero pre) →
      aggregateFrom pre.length cur rs = minNonzero (pre ++ rs) := by
  induction rs with
  | nil =>
    intro pre cur _ hcur
    simp only [aggregateFrom, List.append_nil]
    by_cases hp : pre = []
    · subst hp; rfl
    · have : pre.length ≠ 0 := fun h => hp (List.eq_nil_of_length_eq_zero h)
      rw [if_neg this]
      exact hcur hp
  | cons r rs ih =>
    intro pre cur hlen hcur
    simp only [List.length_cons] at hlen
    have hmod : (pre.length + 1) % wordSize = (pre ++ [r]).length := by
      rw [Nat.mod_eq_of_lt (by omega)]
      simp
    simp only [aggregateFrom]
    rw [hmod]
    have := ih (pre ++ [r]) (aggregateStep pre.length cur r)
      (by simp only [List.length_append, List.length_singleton]; omega)
      (by
        intro _
        by_cases hp : pre = []
        · subst hp
          have h1 := minNonzero_append_singleton [] r
          simp only [List.length_nil, aggregateStep_zero]
          simpa [minNonzero_nil] using h1.symm
        · have hne : pre.length ≠ 0 := fun h => hp (List.eq_nil_of_length_eq_zero h)
          rw [hcur hp]
          exact aggregateStep_minNonzero _ _ _ hne)
    rw [this, List.append_assoc]
    rfl

theorem aggregate_eq_minNonzero (init : Nat) (rs : List Nat) (h : rs.length < wordSize) :
    aggregate init rs = minNonzero rs := by
  have := aggregateFrom_eq_minNonzero rs [] init (by simpa using h) (fun h => absurd rfl h)
  simpa [aggregate] using this

theorem aggregateFrom_zero_indep (cur cur' : Nat) (rs : List Nat) :
    aggregateFrom 0 cur rs = aggregateFrom 0 cur' rs := by
  cases rs with
  | nil => rfl
  | cons r rs => simp only [aggregateFrom, aggregateStep_zero]

theorem vectorPasses_aggregate {σ : Type} (I : Impl σ) (data : List Nat) (i b e : Nat) :
    ∀ (fuel : Nat) (s : σ) (it : Nat) (res : List Nat) (calls : List SearchCall),
      i < res.length →
      (vectorPasses I data i b e fuel s it res calls).status = Status.returned →
      ∃ news, rowResults (vectorPasses I data i b e fuel s it res calls).calls i
          = rowResults calls i ++ news ∧
        (vectorPasses I data i b e fuel s it res calls).res.getD i 0
          = aggregateFrom it (res.getD i 0) news := by
  intro fuel
  induction fuel with
  | zero => intro s it res calls _ hret; cases hret
  | succ fuel ih =>
    intro s it res calls hi hret
    cases hmore : (I.hasMoreToSearch s).1 with
    | false =>
      rw [vectorPasses_done I data i b e fuel s it res calls hmore]
      refine ⟨[], by simp, ?_⟩
      simp only [aggregateFrom]
      by_cases hit : it = 0
      · simp only [hit, if_true]; exact getD_set_zero res i
      · simp only [hit, if_false]
    | true =>
      rw [vectorPasses_more I data i b e fuel s it res calls hmore] at hret ⊢
      obtain ⟨news, h1, h2⟩ := ih _ _ _ _ (by simpa using hi) hret
      refine ⟨(I.searchOneFirstPosition (I.hasMoreToSearch s).2 data b e
        (res_callback I data)).1 :: news, ?_, ?_⟩
      · rw [h1, rowResults_append, rowResults_singleton]
        simp
      · rw [h2, getD_set_self _ _ _ hi]
        rfl

theorem vectorRows_frame_results {σ : Type} (I : Impl σ) (fuel : Nat) (data : List Nat)
    (nd : List (List Nat)) (no : List Nat) :
    ∀ (offs : List Nat) (i ph pn : Nat) (needles : List (List Nat)) (res : List Nat)
      (calls : List SearchCall) (j : Nat), j < i →
      rowResults (vectorRows I fuel data nd no offs i ph pn needles res calls).calls j
        = rowResults calls j := by
  intro offs
  induction offs with
  | nil => intro i ph pn needles res calls j _; rfl
  | cons off offs ih =>
    intro i ph pn needles res calls j hj
    have hfr := (vectorPasses_frame I data i ph (ptrSub (ptrSub (ptrAdd ph off) ph) 1) fuel
      (I.createMultiSearcherInBigHaystack (collectNeedles nd pn (no.getD i 0) needles))
      0 res calls j (by omega)).2.2
    by_cases hreq : sizeSub (no.getD i 0) pn ≤ vectorMaxSize
    swap
    · rw [vectorRows_cons_thrown I fuel data nd no off offs i ph pn needles res calls
        (by omega)]
    by_cases hst : (vectorPasses I data i ph (ptrSub (ptrSub (ptrAdd ph off) ph) 1) fuel
      (I.createMultiSearcherInBigHaystack (collectNeedles nd pn (no.getD i 0) needles))
      0 res calls).status = Status.returned
    · rw [vectorRows_cons_returned I fuel data nd no off offs i ph pn needles res calls hreq
        hst, ih _ _ _ _ _ _ j (by omega), hfr]
    · rw [vectorRows_cons_stopped I fuel data nd no off offs i ph pn needles res calls hreq
        hst, hfr]

theorem vectorRows_aggregate {σ : Type} (I : Impl σ) (fuel : Nat) (data : List Nat)
    (nd : List (List Nat)) (no : List Nat) (i : Nat) :
    ∀ (offs : List Nat) (i0 ph pn : Nat) (needles : List (List Nat)) (res : List Nat)
      (calls : List SearchCall),
      i0 ≤ i → i < i0 + offs.length → i < res.length → rowResults calls i = [] →
      (vectorRows I fuel data nd no offs i0 ph pn needles res calls).status
        = Status.returned →
      (vectorRows I fuel data nd no offs i0 ph pn needles res calls).res.getD i 0
        = aggregateFrom 0 (res.getD i 0)
            (rowResults (vectorRows I fuel data nd no offs i0 ph pn needles res calls).calls
              i) := by
  intro offs
  induction offs with
  | nil =>
    intro i0 ph pn needles res calls h1 h2 _ _ _
    simp only [List.length_nil] at h2
    omega
  | cons off offs ih =>
    intro i0 ph pn needles res calls h1 h2 hlen hnil hret
    by_cases hreq : sizeSub (no.getD i0 0) pn ≤ vectorMaxSize
    swap
    · rw [vectorRows_cons_thrown I fuel data nd no off offs i0 ph pn needles res calls
        (by omega)] at hret
      cases hret
    have hagg := vectorPasses_aggregate I data i0 ph (ptrSub (ptrSub (ptrAdd ph off) ph) 1)
      fuel (I.createMultiSearcherInBigHaystack (collectNeedles nd pn (no.getD i0 0) needles))
      0 res calls
    have hfr := vectorPasses_frame I data i0 ph (ptrSub (ptrSub (ptrAdd ph off) ph) 1) fuel
      (I.createMultiSearcherInBigHaystack (collectNeedles nd pn (no.getD i0 0) needles))
      0 res calls
    have hl := vectorPasses_length I data i0 ph (ptrSub (ptrSub (ptrAdd ph off) ph) 1) fuel
      (I.createMultiSearcherInBigHaystack (collectNeedles nd pn (no.getD i0 0) needles))
      0 res calls
    have e1 := vectorRows_cons_returned I fuel data nd no off offs i0 ph pn needles res calls
      hreq
    have n1 := vectorRows_cons_stopped I fuel data nd no off offs i0 ph pn needles res calls
      hreq
    generalize vectorPasses I data i0 ph (ptrSub (ptrSub (ptrAdd ph off) ph) 1) fuel
      (I.createMultiSearcherInBigHaystack (collectNeedles nd pn (no.getD i0 0) needles))
      0 res calls = P at hagg hfr hl e1 n1
    by_cases hst : P.status = Status.returned
    · rw [e1 hst] at hret ⊢
      by_cases hii : i0 = i
      · subst hii
        obtain ⟨news, a1, a2⟩ := hagg hlen hst
        rw [vectorRows_frame I fuel data nd no offs (i0 + 1) off _ [] _ _ i0 (by omega),
          vectorRows_frame_results I fuel data nd no offs (i0 + 1) off _ [] _ _ i0
            (by omega), a1, a2, hnil]
        rfl
      · have hne : i ≠ i0 := fun h => hii h.symm
        obtain ⟨f1, _, f3⟩ := hfr i hne
        have := ih (i0 + 1) off (no.getD i0 0) [] P.res P.calls (by omega)
          (by simp only [List.length_cons] at h2; omega) (by rw [hl]; exact hlen)
          (by rw [f3]; exact hnil) hret
        rw [this, f1]
    · rw [n1 hst] at hret
      exact absurd hret hst

theorem constantRows_results {σ : Type} (I : Impl σ) (data : List Nat) (it : Nat) :
    ∀ (offs : List Nat) (j prev : Nat) (s : σ) (res : List Nat) (calls : List SearchCall)
      (j' : Nat), j + offs.length ≤ res.length →
      ((j ≤ j' ∧ j' < j + offs.length) →
        ∃ r, rowResults (constantRows I data it offs j prev s res calls).2.2 j'
            = rowResults calls j' ++ [r] ∧
          (constantRows I data it offs j prev s res calls).2.1.getD j' 0
            = aggregateStep it (res.getD j' 0) r) ∧
      (¬ (j ≤ j' ∧ j' < j + offs.length) →
        rowResults (constantRows I data it offs j prev s res calls).2.2 j'
            = rowResults calls j' ∧
          (constantRows I data it offs j prev s res calls).2.1.getD j' 0
            = res.getD j' 0) := by
  intro offs
  induction offs with
  | nil =>
    intro j prev s res calls j' _
    refine ⟨fun h => ?_, fun _ => ⟨rfl, rfl⟩⟩
    simp only [List.length_nil] at h
    omega
  | cons off offs ih =>
    intro j prev s res calls j' hlen
    simp only [List.length_cons] at hlen
    simp only [constantRows]
    generalize I.searchOneFirstPosition s data prev
      (ptrSub (ptrSub (ptrAdd prev off) prev) 1) (res_callback I data) = sr
    obtain ⟨ihin, ihout⟩ := ih (j + 1) off sr.2
      (res.set j (aggregateStep it (res.getD j 0) sr.1))
      (calls ++ [⟨it, j, prev, ptrSub (ptrSub (ptrAdd prev off) prev) 1, sr.1⟩])
      j' (by simp only [List.length_set]; omega)
    simp only [List.length_cons]
    by_cases hjj : j' = j
    · subst hjj
      refine ⟨fun _ => ?_, fun h => absurd ⟨Nat.le_refl _, by omega⟩ h⟩
      obtain ⟨q1, q2⟩ := ihout (by omega)
      refine ⟨sr.1, ?_, ?_⟩
      · rw [q1, rowResults_append, rowResults_singleton]
        simp
      · rw [q2, getD_set_self _ _ _ (by omega)]
    · have hne : ¬ j = j' := fun h => hjj h.symm
      constructor
      · intro h
        obtain ⟨r, q1, q2⟩ := ihin ⟨by omega, by omega⟩
        refine ⟨r, ?_, ?_⟩
        · rw [q1, rowResults_append, rowResults_singleton]
          simp [hne]
        · rw [q2, getD_set_other _ _ _ _ hne]
      · intro h
        obtain ⟨q1, q2⟩ := ihout (by omega)
        refine ⟨?_, ?_⟩
        · rw [q1, rowResults_append, rowResults_singleton]
          simp [hne]
        · rw [q2, getD_set_other _ _ _ _ hne]

theorem constantPasses_aggregate {σ : Type} (I : Impl σ) (data offsets : List Nat) :
    ∀ (fuel : Nat) (s : σ) (it : Nat) (res : List Nat) (calls : List SearchCall),
      res.length = offsets.length →
      (constantPasses I data offsets fuel s it res calls).status = Status.returned →
      ∀ j, j < offsets.length →
        ∃ news, rowResults (constantPasses I data offsets fuel s it res calls).calls j
            = rowResults calls j ++ news ∧
          (constantPasses I data offsets fuel s it res calls).res.getD j 0
            = aggregateFrom it (res.getD j 0) news := by
  intro fuel
  induction fuel with
  | zero => intro s it res calls _ hret; cases hret
  | succ fuel ih =>
    intro s it res calls hlen hret j hj
    cases hmore : (I.hasMoreToSearch s).1 with
    | false =>
      rw [constantPasses_done I data offsets fuel s it res calls hmore]
      refine ⟨[], by simp, ?_⟩
      simp only [aggregateFrom]
      by_cases hit : it = 0
      · simp only [hit, if_true]; exact getD_replicate_zero _ _
      · simp only [hit, if_false]
    | true =>
      rw [constantPasses_more I data offsets fuel s it res calls hmore] at hret ⊢
      obtain ⟨r, q1, q2⟩ := (constantRows_results I data it offsets 0 0
        (I.hasMoreToSearch s).2 res calls j (by omega)).1 ⟨Nat.zero_le _, by omega⟩
      obtain ⟨news, h1, h2⟩ := ih _ _ _ _
        (by rw [constantRows_length]; exact hlen) hret j hj
      refine ⟨r :: news, ?_, ?_⟩
      · rw [h1, q1]; simp
      · rw [h2, q2]; rfl

/-! ## Ascending offsets give well-formed slices -/

theorem ascending_offsets_bounds (data offsets : List Nat)
    (hasc : offsets.Pairwise (fun a b => a < b))
    (hfirst : ∀ off ∈ offsets.head?, 1 ≤ off)
    (hlast : ∀ off ∈ offsets.getLast?, off ≤ data.length)
    (j : Nat) (hj : j < offsets.length) :
    rowBegin offsets j + 1 ≤ offsets.getD j 0 ∧ offsets.getD j 0 ≤ data.length := by
  have hpw := List.pairwise_iff_getElem.mp hasc
  have hlastv : offsets[offsets.length - 1] ≤ data.length := by
    apply hlast
    rw [List.getLast?_eq_getElem?, List.getElem?_eq_getElem (by omega)]
    rfl
  rw [List.getD_eq_getElem _ _ hj]
  constructor
  · cases j with
    | zero =>
      have : 1 ≤ offsets[0] := by
        apply hfirst
        rw [List.head?_eq_getElem?, List.getElem?_eq_getElem hj]
        rfl
      simpa [rowBegin] using this
    | succ k =>
      rw [rowBegin_succ, List.getD_eq_getElem _ _ (by omega)]
      exact hpw k (k + 1) (by omega) hj (Nat.lt_succ_self k)
  · by_cases hjl : j = offsets.length - 1
    · subst hjl; exact hlastv
    · have := hpw j (offsets.length - 1) hj (by omega) (by omega)
      omega

theorem ascending_offsets_valid (data offsets : List Nat)
    (hasc : offsets.Pairwise (fun a b => a < b))
    (hfirst : ∀ off ∈ offsets.head?, 1 ≤ off)
    (hlast : ∀ off ∈ offsets.getLast?, off ≤ data.length)
    (hsize : data.length < wordSize) : ValidOffsets offsets := by
  intro off hoff
  obtain ⟨j, hj, rfl⟩ := List.mem_iff_getElem.mp hoff
  have := ascending_offsets_bounds data offsets hasc hfirst hlast j hj
  rw [List.getD_eq_getElem _ _ hj] at this
  omega

theorem ascending_offsets_wellFormed (data offsets : List Nat)
    (hasc : offsets.Pairwise (fun a b => a < b))
    (hfirst : ∀ off ∈ offsets.head?, 1 ≤ off)
    (hlast : ∀ off ∈ offsets.getLast?, off ≤ data.length)
    (hsize : data.length < wordSize) (j : Nat) (hj : j < offsets.length) :
    WellFormedSlice data offsets j (rowBegin offsets j) (rowEndPtr offsets j) := by
  have hb := ascending_offsets_bounds data offsets hasc hfirst hlast j hj
  rw [rowEndPtr_eq offsets (ascending_offsets_valid data offsets hasc hfirst hlast hsize) j hj]
  unfold WellFormedSlice rowEnd
  omega

/-! ## One row at a time -/

theorem vectorPasses_sim {σ : Type} (I : Impl σ) (data data' : List Nat)
    (i i' b e b' e' : Nat)
    (hsearch : ∀ s, I.searchOneFirstPosition s data b e (res_callback I data)
      = I.searchOneFirstPosition s data' b' e' (res_callback I data')) :
    ∀ (fuel : Nat) (s : σ) (it : Nat) (res res' : List Nat)
      (calls calls' : List SearchCall),
      i < res.length → i' < res'.length →
      (it = 0 ∨ res.getD i 0 = res'.getD i' 0) →
      (vectorPasses I data i b e fuel s it res calls).status
        = (vectorPasses I data' i' b' e' fuel s it res' calls').status ∧
      ((vectorPasses I data i b e fuel s it res calls).status = Status.returned →
        (vectorPasses I data i b e fuel s it res calls).res.getD i 0
          = (vectorPasses I data' i' b' e' fuel s it res' calls').res.getD i' 0) := by
  intro fuel
  induction fuel with
  | zero =>
    intro s it res res' calls calls' _ _ _
    exact ⟨rfl, fun h => by cases h⟩
  | succ fuel ih =>
    intro s it res res' calls calls' hi hi' hagree
    cases hmore : (I.hasMoreToSearch s).1 with
    | false =>
      rw [vectorPasses_done I data i b e fuel s it res calls hmore,
        vectorPasses_done I data' i' b' e' fuel s it res' calls' hmore]
      refine ⟨rfl, fun _ => ?_⟩
      by_cases hit : it = 0
      · simp only [hit, if_true]
        rw [getD_set_zero, getD_set_zero]
      · simp only [hit, if_false]
        rcases hagree with h | h
        · exact absurd h hit
        · exact h
    | true =>
      rw [vectorPasses_more I data i b e fuel s it res calls hmore,
        vectorPasses_more I data' i' b' e' fuel s it res' calls' hmore,
        ← hsearch (I.hasMoreToSearch s).2]
      apply ih
      · simpa using hi
      · simpa using hi'
      · right
        rw [getD_set_self _ _ _ hi, getD_set_self _ _ _ hi']
        rcases hagree with h | h
        · subst h; rw [aggregateStep_zero, aggregateStep_zero]
        · rw [h]

theorem vectorRows_row_value {σ : Type} (I : Impl σ) (fuel : Nat) (data : List Nat)
    (nd : List (List Nat)) (no : List Nat) (offsets : List Nat) (i : Nat)
    (hi : i < offsets.length) :
    ∀ (offs : List Nat) (i0 : Nat) (res : List Nat) (calls : List SearchCall),
      offsets.drop i0 = offs → i0 ≤ i → res.length = offsets.length →
      (vectorRows I fuel data nd no offs i0 (rowBegin offsets i0) (rowBegin no i0) [] res
        calls).status = Status.returned →
      (rowRun I fuel data (rowBegin offsets i) (rowEndPtr offsets i)
        (rowNeedles nd no i)).status = Status.returned ∧
      (vectorRows I fuel data nd no offs i0 (rowBegin offsets i0) (rowBegin no i0) [] res
        calls).res.getD i 0
        = (rowRun I fuel data (rowBegin offsets i) (rowEndPtr offsets i)
            (rowNeedles nd no i)).res.getD 0 0 := by
  intro offs
  induction offs with
  | nil =>
    intro i0 res calls hdrop hle _ _
    exfalso
    have := List.drop_eq_getElem_cons (Nat.lt_of_le_of_lt hle hi)
    rw [hdrop] at this
    cases this
  | cons off offs ih =>
    intro i0 res calls hdrop hle hlen hret
    obtain ⟨hi0, hget, hdrop1, hbeg⟩ := drop_cons_info offsets i0 off offs hdrop
    have hend : ptrSub (ptrSub (ptrAdd (rowBegin offsets i0) off) (rowBegin offsets i0)) 1
        = rowEndPtr offsets i0 := by
      unfold rowEndPtr; rw [hget]
    by_cases hreq : sizeSub (no.getD i0 0) (rowBegin no i0) ≤ vectorMaxSize
    swap
    · rw [vectorRows_cons_thrown I fuel data nd no off offs i0 _ _ [] res calls
        (by omega)] at hret
      cases hret
    have e1 := vectorRows_cons_returned I fuel data nd no off offs i0 (rowBegin offsets i0)
      (rowBegin no i0) [] res calls hreq
    have n1 := vectorRows_cons_stopped I fuel data nd no off offs i0 (rowBegin offsets i0)
      (rowBegin no i0) [] res calls hreq
    rw [collectNeedles_eq, hend] at e1 n1
    have hsim := vectorPasses_sim I data data i0 0 (rowBegin offsets i0)
      (rowEndPtr offsets i0) (rowBegin offsets i0) (rowEndPtr offsets i0) (fun _ => rfl)
      fuel (I.createMultiSearcherInBigHaystack (rowNeedles nd no i0)) 0 res [0] calls []
      (by omega) (by simp) (Or.inl rfl)
    have hl := vectorPasses_length I data i0 (rowBegin offsets i0) (rowEndPtr offsets i0)
      fuel (I.createMultiSearcherInBigHaystack (rowNeedles nd no i0)) 0 res calls
    have hfr := vectorPasses_frame I data i0 (rowBegin offsets i0) (rowEndPtr offsets i0)
      fuel (I.createMultiSearcherInBigHaystack (rowNeedles nd no i0)) 0 res calls
    by_cases hst : (vectorPasses I data i0 (rowBegin offsets i0) (rowEndPtr offsets i0)
      fuel (I.createMultiSearcherInBigHaystack (rowNeedles nd no i0)) 0 res
      calls).status = Status.returned
    · rw [e1 hst] at hret ⊢
      by_cases hii : i0 = i
      · subst hii
        rw [vectorRows_frame I fuel data nd no offs (i0 + 1) off _ [] _ _ i0 (by omega)]
        exact ⟨by unfold rowRun; rw [← hsim.1]; exact hst, hsim.2 hst⟩
      · rw [← rowBegin_succ no i0, ← hbeg] at hret ⊢
        exact ih (i0 + 1) _ _ hdrop1 (by omega) (by rw [hl]; exact hlen) hret
    · rw [n1 hst] at hret
      exact absurd hret hst

theorem rowRun_congr {σ : Type} (I : Impl σ) (hlocal : AnswersFromSlice I) (fuel : Nat)
    (data data' : List Nat) (b e b' e' : Nat) (needles : List (List Nat))
    (hslice : slice data b e = slice data' b' e') :
    (rowRun I fuel data b e needles).status = (rowRun I fuel data' b' e' needles).status ∧
    ((rowRun I fuel data b e needles).status = Status.returned →
      (rowRun I fuel data b e needles).res.getD 0 0
        = (rowRun I fuel data' b' e' needles).res.getD 0 0) :=
  vectorPasses_sim I data data' 0 0 b e b' e'
    (fun s => hlocal s data b e data' b' e' hslice) fuel _ 0 [0] [0] [] []
    (by simp) (by simp) (Or.inl rfl)

theorem rowBytes_eq_slice (data offsets : List Nat) (hok : ValidOffsets offsets) (i : Nat)
    (hi : i < offsets.length) :
    slice data (rowBegin offsets i) (rowEndPtr offsets i) = rowBytes data offsets i := by
  rw [rowEndPtr_eq offsets hok i hi]
  rfl

theorem refImpl_answersFromSlice : AnswersFromSlice refImpl := by
  intro s mem b e mem' b' e' hslice
  simp only [refImpl, hslice]
  cases hfm : firstMatch s.current (slice mem' b' e') with
  | none => rfl
  | some k =>
    have hk := ((firstMatch_eq_some_iff _ _ _).mp hfm).1
    have h1 : (slice mem b (b + k)).length = k := by
      have : k ≤ (slice mem b e).length := by rw [hslice]; exact hk
      simp only [slice, List.length_take, List.length_drop] at this ⊢
      omega
    have h2 : (slice mem' b' (b' + k)).length = k := by
      simp only [slice, List.length_take, List.length_drop] at hk ⊢
      omega
    simp only [res_callback, h1, h2]

theorem rowNeedles_getD (nd : List (List Nat)) (no : List Nat) (i k : Nat)
    (hk : k < no.getD i 0 - rowBegin no i) :
    (rowNeedles nd no i).getD k [] = getDataAt nd (rowBegin no i + k) := by
  have hlen : k < (rowNeedles nd no i).length := by rw [rowNeedles_length]; exact hk
  rw [List.getD_eq_getElem _ _ hlen]
  simp only [rowNeedles, List.getElem_map, List.getElem_range]

/-! ## Searches that leave the searcher object as it is -/

theorem constantRows_pure {σ : Type} (I : Impl σ)
    (hpure : ∀ s mem b e cb, (I.searchOneFirstPosition s mem b e cb).2 = s)
    (data : List Nat) (it : Nat) (offsets : List Nat) :
    ∀ (offs : List Nat) (j : Nat) (s : σ) (res : List Nat) (calls : List SearchCall),
      offsets.drop j = offs → j + offs.length ≤ res.length →
      (constantRows I data it offs j (rowBegin offsets j) s res calls).1 = s ∧
      ∀ j', j ≤ j' → j' < j + offs.length →
        (constantRows I data it offs j (rowBegin offsets j) s res calls).2.1.getD j' 0
          = aggregateStep it (res.getD j' 0)
              (I.searchOneFirstPosition s data (rowBegin offsets j') (rowEndPtr offsets j')
                (res_callback I data)).1 := by
  intro offs
  induction offs with
  | nil =>
    intro j s res calls _ _
    refine ⟨rfl, fun j' h1 h2 => ?_⟩
    simp only [List.length_nil] at h2
    omega
  | cons off offs ih =>
    intro j s res calls hdrop hlen
    simp only [List.length_cons] at hlen ⊢
    obtain ⟨_, hget, hdrop1, hbeg⟩ := drop_cons_info offsets j off offs hdrop
    have hend : ptrSub (ptrSub (ptrAdd (rowBegin offsets j) off) (rowBegin offsets j)) 1
        = rowEndPtr offsets j := by
      unfold rowEndPtr; rw [hget]
    have hout := fun (s' : σ) (res' : List Nat) (calls' : List SearchCall)
        (hl : j + 1 + offs.length ≤ res'.length) =>
      ((constantRows_results I data it offs (j + 1) off s' res' calls' j hl).2
        (by omega)).2
    simp only [constantRows]
    rw [hend, hpure, ← hbeg]
    rw [← hbeg] at hout
    obtain ⟨ih1, ih2⟩ := ih (j + 1) s
      (res.set j (aggregateStep it (res.getD j 0)
        (I.searchOneFirstPosition s data (rowBegin offsets j) (rowEndPtr offsets j)
          (res_callback I data)).1))
      (calls ++ [⟨it, j, rowBegin offsets j, rowEndPtr offsets j,
        (I.searchOneFirstPosition s data (rowBegin offsets j) (rowEndPtr offsets j)
          (res_callback I data)).1⟩])
      hdrop1 (by simp only [List.length_set]; omega)
    refine ⟨ih1, fun j' h1 h2 => ?_⟩
    by_cases hjj : j' = j
    · subst hjj
      rw [hout _ _ _ (by simp only [List.length_set]; omega),
        getD_set_self _ _ _ (by omega)]
    · rw [ih2 j' (by omega) (by omega), getD_set_other _ _ _ _ (fun h => hjj h.symm)]

theorem constantPasses_vs_vectorPasses {σ : Type} (I : Impl σ)
    (hpure : ∀ s mem b e cb, (I.searchOneFirstPosition s mem b e cb).2 = s)
    (data offsets : List Nat) (j : Nat) (hj : j < offsets.length) (i0 : Nat) :
    ∀ (fuel : Nat) (s : σ) (it : Nat) (res res0 : List Nat)
      (calls calls0 : List SearchCall),
      res.length = offsets.length → i0 < res0.length →
      (it = 0 ∨ res.getD j 0 = res0.getD i0 0) →
      (constantPasses I data offsets fuel s it res calls).status
        = (vectorPasses I data i0 (rowBegin offsets j) (rowEndPtr offsets j) fuel s it
            res0 calls0).status ∧
      ((constantPasses I data offsets fuel s it res calls).status = Status.returned →
        (constantPasses I data offsets fuel s it res calls).res.getD j 0
          = (vectorPasses I data i0 (rowBegin offsets j) (rowEndPtr offsets j) fuel s it
              res0 calls0).res.getD i0 0) := by
  intro fuel
  induction fuel with
  | zero =>
    intro s it res res0 calls calls0 _ _ _
    exact ⟨rfl, fun h => by cases h⟩
  | succ fuel ih =>
    intro s it res res0 calls calls0 hlen hi0 hagree
    cases hmore : (I.hasMoreToSearch s).1 with
    | false =>
      rw [constantPasses_done I data offsets fuel s it res calls hmore,
        vectorPasses_done I data i0 _ _ fuel s it res0 calls0 hmore]
      refine ⟨rfl, fun _ => ?_⟩
      by_cases hit : it = 0
      · simp only [hit, if_true]
        rw [getD_replicate_zero, getD_set_zero]
      · simp only [hit, if_false]
        rcases hagree with h | h
        · exact absurd h hit
        · exact h
    | true =>
      rw [constantPasses_more I data offsets fuel s it res calls hmore,
        vectorPasses_more I data i0 _ _ fuel s it res0 calls0 hmore, hpure]
      obtain ⟨p1, p2⟩ := constantRows_pure I hpure data it offsets offsets 0
        (I.hasMoreToSearch s).2 res calls rfl (by omega)
      have hb0 : rowBegin offsets 0 = 0 := rfl
      rw [hb0] at p1 p2
      rw [p1]
      apply ih
      · rw [constantRows_length]; exact hlen
      · simpa using hi0
      · right
        rw [p2 j (Nat.zero_le j) (by omega), getD_set_self _ _ _ hi0]
        rcases hagree with h | h
        · subst h; rw [aggregateStep_zero, aggregateStep_zero]
        · rw [h]

theorem vectorMaxSize_ge : 255 ≤ vectorMaxSize := by decide

theorem sameNeedles_request (nd : List (List Nat)) (no : List Nat)
    (needles : List (List Nat)) (n : Nat) (hlen : needles.length ≤ 255)
    (hsame : ∀ i, i < n → rowNeedles nd no i = needles) :
    ∀ i, i < n → sizeSub (no.getD i 0) (rowBegin no i) ≤ vectorMaxSize := by
  have hL : ∀ i, i < n → no.getD i 0 - rowBegin no i = needles.length := by
    intro i hi
    rw [← rowNeedles_length nd, hsame i hi]
  have hle : ∀ i, i < n → rowBegin no i ≤ no.getD i 0 := by
    by_cases h0 : needles.length = 0
    · have hz : ∀ i, i < n → no.getD i 0 = 0 := by
        intro i
        induction i with
        | zero =>
          intro hi
          have h := hL 0 hi
          have hb : rowBegin no 0 = 0 := rfl
          omega
        | succ k ih =>
          intro hi
          have h := hL (k + 1) hi
          rw [rowBegin_succ] at h
          have hk := ih (by omega)
          omega
      intro i hi
      cases i with
      | zero => exact Nat.zero_le _
      | succ k =>
        rw [rowBegin_succ, hz k (by omega)]
        exact Nat.zero_le _
    · intro i hi
      have h := hL i hi
      omega
  intro i hi
  have h := hL i hi
  have hmax := vectorMaxSize_ge
  rw [sizeSub_eq _ _ (hle i hi) (by omega)]
  omega

theorem vectorRows_returns_of_rows {σ : Type} (I : Impl σ) (fuel : Nat) (data : List Nat)
    (nd : List (List Nat)) (no : List Nat) (offsets : List Nat) :
    ∀ (offs : List Nat) (i0 : Nat) (res : List Nat) (calls : List SearchCall),
      offsets.drop i0 = offs → res.length = offsets.length →
      (∀ i, i0 ≤ i → i < offsets.length →
        sizeSub (no.getD i 0) (rowBegin no i) ≤ vectorMaxSize) →
      (∀ i, i0 ≤ i → i < offsets.length →
        (rowRun I fuel data (rowBegin offsets i) (rowEndPtr offsets i)
          (rowNeedles nd no i)).status = Status.returned) →
      (vectorRows I fuel data nd no offs i0 (rowBegin offsets i0) (rowBegin no i0) [] res
        calls).status = Status.returned := by
  intro offs
  induction offs with
  | nil => intro i0 res calls _ _ _ _; rfl
  | cons off offs ih =>
    intro i0 res calls hdrop hlen hreqs hall
    obtain ⟨hi0, hget, hdrop1, hbeg⟩ := drop_cons_info offsets i0 off offs hdrop
    have hend : ptrSub (ptrSub (ptrAdd (rowBegin offsets i0) off) (rowBegin offsets i0)) 1
        = rowEndPtr offsets i0 := by
      unfold rowEndPtr; rw [hget]
    have e1 := vectorRows_cons_returned I fuel data nd no off offs i0 (rowBegin offsets i0)
      (rowBegin no i0) [] res calls (hreqs i0 (Nat.le_refl _) hi0)
    rw [collectNeedles_eq, hend] at e1
    have hsim := vectorPasses_sim I data data i0 0 (rowBegin offsets i0)
      (rowEndPtr offsets i0) (rowBegin offsets i0) (rowEndPtr offsets i0) (fun _ => rfl)
      fuel (I.createMultiSearcherInBigHaystack (rowNeedles nd no i0)) 0 res [0] calls []
      (by omega) (by simp) (Or.inl rfl)
    have hst : (vectorPasses I data i0 (rowBegin offsets i0) (rowEndPtr offsets i0)
        fuel (I.createMultiSearcherInBigHaystack (rowNeedles nd no i0)) 0 res
        calls).status = Status.returned := by
      rw [hsim.1]; exact hall i0 (Nat.le_refl _) hi0
    rw [e1 hst, ← rowBegin_succ no i0, ← hbeg]
    exact ih (i0 + 1) _ _ hdrop1 (by rw [vectorPasses_length]; exact hlen)
      (fun i h1 h2 => hreqs i (by omega) h2) (fun i h1 h2 => hall i (by omega) h2)

theorem refImpl_pure : ∀ (s : RefSearcher) (mem : List Nat) (b e : Nat) (cb : Nat → Nat → Nat),
    (refImpl.searchOneFirstPosition s mem b e cb).2 = s :=
  fun _ _ _ _ _ => rfl

/-! ## The claims -/

/-- C1: `vectorConstant` throws `TOO_MANY_ARGUMENTS_FOR_FUNCTION` exactly when the constant
needle list has more than 255 elements. With more than 255 needles it throws for every
haystack batch; with at most 255 needles, and a searcher that runs finitely many passes,
it returns a result of one entry per row once the loop bound is large enough; and it
never throws with at most 255 needles. -/
theorem C1_vectorConstant_throws_iff_more_than_255 {σ : Type} (I : Impl σ)
    (hfin : HasFinitePasses I) (name : String) (uninit : Nat → Nat)
    (data offsets : List Nat) (needles : List (List Nat)) (res : List Nat) :
    (255 < needles.length → ∀ fuel,
      (vectorConstant I name uninit fuel data offsets needles res).status
        = Status.thrown (tooManyArguments name needles.length)) ∧
    (needles.length ≤ 255 → ∃ fuel0, ∀ fuel, fuel0 ≤ fuel →
      (vectorConstant I name uninit fuel data offsets needles res).status = Status.returned ∧
      (vectorConstant I name uninit fuel data offsets needles res).res.length
        = offsets.length) ∧
    (∀ fuel ex, (vectorConstant I name uninit fuel data offsets needles res).status
      = Status.thrown ex →
        255 < needles.length ∧ ex.code = ErrorCode.TOO_MANY_ARGUMENTS_FOR_FUNCTION) := by
  refine ⟨?_, ?_, ?_⟩
  · intro h fuel
    rw [vectorConstant_throws I name uninit fuel data offsets needles res h]
  · intro h
    obtain ⟨fuel0, hf⟩ := constantPasses_enough_fuel I hfin data offsets
      (I.createMultiSearcherInBigHaystack needles)
    refine ⟨fuel0, fun fuel hfuel => ?_⟩
    rw [vectorConstant_runs I name uninit fuel data offsets needles res h]
    exact ⟨hf fuel hfuel _ _ _, by rw [constantPasses_length, resize_length]⟩
  · intro fuel ex hex
    by_cases h : 255 < needles.length
    · rw [vectorConstant_throws I name uninit fuel data offsets needles res h] at hex
      injection hex with hex
      exact ⟨h, by rw [← hex]⟩
    · rw [vectorConstant_runs I name uninit fuel data offsets needles res (by omega)] at hex
      exact absurd hex (constantPasses_not_thrown I data offsets fuel _ _ _ _ ex)

/-- Witness of C1: with the reference searcher, 255 needles return and 256 needles throw. -/
theorem C1_witness :
    HasFinitePasses refImpl ∧
    (∃ fuel0, ∀ fuel, fuel0 ≤ fuel →
      (vectorConstant refImpl "multiSearchFirstPosition" (fun _ => 7) fuel [97, 0] [2]
        (List.replicate 255 [97]) [5, 5]).status = Status.returned ∧
      (vectorConstant refImpl "multiSearchFirstPosition" (fun _ => 7) fuel [97, 0] [2]
        (List.replicate 255 [97]) [5, 5]).res.length = [2].length) ∧
    (∀ fuel, (vectorConstant refImpl "multiSearchFirstPosition" (fun _ => 7) fuel [97, 0] [2]
        (List.replicate 256 [97]) [5, 5]).status
      = Status.thrown (tooManyArguments "multiSearchFirstPosition"
          (List.replicate 256 [97]).length)) :=
  ⟨refImpl_finitePasses,
    (C1_vectorConstant_throws_iff_more_than_255 refImpl refImpl_finitePasses
      "multiSearchFirstPosition" (fun _ => 7) [97, 0] [2] (List.replicate 255 [97])
      [5, 5]).2.1 (by simp only [List.length_replicate, le_refl]),
    (C1_vectorConstant_throws_iff_more_than_255 refImpl refImpl_finitePasses
      "multiSearchFirstPosition" (fun _ => 7) [97, 0] [2] (List.replicate 256 [97])
      [5, 5]).1 (by simp only [List.length_replicate]; omega)⟩

/-- C2: for both drivers, with a searcher that abides by the contract of section 4.2 and a
character counter that does not wrap, the result of a row is `0` if and only if no
needle of the row's needle set occurs in the row's haystack; and with such a searcher
both drivers do return once the loop bound is large enough (`vectorConstant` for at most
255 needles, `vectorVector` for needle offsets that never decrease and give no row more
needles than `reserve` accepts). -/
theorem C2_result_zero_iff_no_needle_occurs {σ : Type} (I : Impl σ)
    (hcontract : SatisfiesContract I) (name : String) (uninit : Nat → Nat) (fuel : Nat)
    (data offsets : List Nat) (needles : List (List Nat))
    (nd : List (List Nat)) (no : List Nat) (res : List Nat)
    (hfit : CountFits I data) (hok : ValidOffsets offsets) (hfuel : fuel ≤ wordSize) :
    ((vectorConstant I name uninit fuel data offsets needles res).status = Status.returned →
      ∀ j, j < offsets.length →
        ((vectorConstant I name uninit fuel data offsets needles res).res.getD j 0 = 0 ↔
          ∀ n ∈ needles, ¬ n <:+: rowBytes data offsets j)) ∧
    ((vectorVector I uninit fuel data offsets nd no res).status = Status.returned →
      ∀ j, j < offsets.length →
        ((vectorVector I uninit fuel data offsets nd no res).res.getD j 0 = 0 ↔
          ∀ n ∈ rowNeedles nd no j, ¬ n <:+: rowBytes data offsets j)) ∧
    (needles.length ≤ 255 → ∃ fuel0, ∀ fuel', fuel0 ≤ fuel' →
      (vectorConstant I name uninit fuel' data offsets needles res).status
        = Status.returned) ∧
    (NeedleOffsetsOK no offsets.length → ∃ fuel0, ∀ fuel', fuel0 ≤ fuel' →
      (vectorVector I uninit fuel' data offsets nd no res).status = Status.returned) := by
  have hfin := contract_finitePasses I hcontract
  obtain ⟨pending, current, hc⟩ := hcontract
  refine ⟨?_, ?_, vectorConstant_enough_fuel I hfin name uninit data offsets needles res,
    vectorVector_enough_fuel I hfin uninit data offsets nd no res⟩
  · intro hret j hj
    obtain ⟨hv, ha, hb⟩ := vectorConstant_rows I name uninit fuel data offsets needles res
      pending current hc (PassRel I data) (passRel_of_contract I data pending current hc)
      hok hfuel hret j hj
    exact row_zero_iff I data needles _ _ j _ _ _ (hc.1 needles) hfit hv ha hb
  · intro hret j hj
    obtain ⟨hv, ha, hb⟩ := vectorVector_rows I uninit fuel data offsets nd no res
      pending current hc (PassRel I data) (passRel_of_contract I data pending current hc)
      hok hfuel hret j hj
    exact row_zero_iff I data (rowNeedles nd no j) _ _ j _ _ _ (hc.1 _) hfit hv ha hb

/-- Witness of C2: the empty haystack with the needle `a` gives `0`, and `a` does not occur
in it. -/
theorem C2_witness :
    SatisfiesContract refImpl ∧ CountFits refImpl [0] ∧ ValidOffsets [1] ∧ 10 ≤ wordSize ∧
    (vectorConstant refImpl "multiSearchFirstPosition" (fun _ => 7) 10 [0] [1] [[97]]
      []).res = [0] ∧
    (vectorVector refImpl (fun _ => 7) 10 [0] [1] [[97]] [1] []).res = [0] ∧
    (∀ n ∈ [[97]], ¬ n <:+: rowBytes [0] [1] 0) :=
  ⟨refImpl_satisfiesContract, refImpl_countFits [0] (by decide), by decide, by decide,
    by decide, by decide,
    ((C2_result_zero_iff_no_needle_occurs refImpl refImpl_satisfiesContract
      "multiSearchFirstPosition" (fun _ => 7) 10 [0] [1] [[97]] [[97]] [1] []
      (refImpl_countFits [0] (by decide)) (by decide) (by decide)).1
      (by decide) 0 (by decide)).mp (by decide)⟩

/-- C3: for both drivers, with a searcher that abides by the contract of section 4.2 and
reports the callback at its earliest match, and a character counter that is monotone and
does not wrap, a nonzero result of a row equals `1 + countChars` of the bytes of the row
that precede the earliest match among all needles of the row; and with such a searcher
both drivers do return once the loop bound is large enough (`vectorConstant` for at most
255 needles, `vectorVector` for needle offsets that never decrease and give no row more
needles than `reserve` accepts). -/
theorem C3_nonzero_result_is_char_position_of_earliest_match {σ : Type} (I : Impl σ)
    (hcontract : ReportsEarliestMatch I) (name : String) (uninit : Nat → Nat) (fuel : Nat)
    (data offsets : List Nat) (needles : List (List Nat))
    (nd : List (List Nat)) (no : List Nat) (res : List Nat)
    (hfit : CountFits I data) (hmono : CountMonotone I data)
    (hok : ValidOffsets offsets) (hfuel : fuel ≤ wordSize) :
    ((vectorConstant I name uninit fuel data offsets needles res).status = Status.returned →
      ∀ j, j < offsets.length →
        (vectorConstant I name uninit fuel data offsets needles res).res.getD j 0 ≠ 0 →
        ∃ k, firstMatch needles (rowBytes data offsets j) = some k ∧
          (vectorConstant I name uninit fuel data offsets needles res).res.getD j 0
            = 1 + I.countChars data (rowBegin offsets j) (rowBegin offsets j + k)) ∧
    ((vectorVector I uninit fuel data offsets nd no res).status = Status.returned →
      ∀ j, j < offsets.length →
        (vectorVector I uninit fuel data offsets nd no res).res.getD j 0 ≠ 0 →
        ∃ k, firstMatch (rowNeedles nd no j) (rowBytes data offsets j) = some k ∧
          (vectorVector I uninit fuel data offsets nd no res).res.getD j 0
            = 1 + I.countChars data (rowBegin offsets j) (rowBegin offsets j + k)) ∧
    (needles.length ≤ 255 → ∃ fuel0, ∀ fuel', fuel0 ≤ fuel' →
      (vectorConstant I name uninit fuel' data offsets needles res).status
        = Status.returned) ∧
    (NeedleOffsetsOK no offsets.length → ∃ fuel0, ∀ fuel', fuel0 ≤ fuel' →
      (vectorVector I uninit fuel' data offsets nd no res).status = Status.returned) := by
  obtain ⟨pending, current, hc, hearly⟩ := hcontract
  have hfin := contract_finitePasses I ⟨pending, current, hc⟩
  refine ⟨?_, ?_, vectorConstant_enough_fuel I hfin name uninit data offsets needles res,
    vectorVector_enough_fuel I hfin uninit data offsets nd no res⟩
  · intro hret j hj hne
    obtain ⟨hv, ha, hb⟩ := vectorConstant_rows I name uninit fuel data offsets needles res
      pending current hc (fun g c => PassRel I data g c ∧ PassRelEarliest I data g c)
      (passRelEarliest_of_contract I data pending current hc hearly)
      hok hfuel hret j hj
    exact row_value I data needles _ _ j _ _ _ (hc.1 needles) hfit hmono hv ha hb hne
  · intro hret j hj hne
    obtain ⟨hv, ha, hb⟩ := vectorVector_rows I uninit fuel data offsets nd no res
      pending current hc (fun g c => PassRel I data g c ∧ PassRelEarliest I data g c)
      (passRelEarliest_of_contract I data pending current hc hearly)
      hok hfuel hret j hj
    exact row_value I data (rowNeedles nd no j) _ _ j _ _ _ (hc.1 _) hfit hmono hv ha hb hne

/-- Witness of C3: the haystack `abcdef` with the needles `cd` and `x` gives `3`, in both
drivers; the earliest match starts after two characters. -/
theorem C3_witness :
    ReportsEarliestMatch refImpl ∧
    CountFits refImpl [97, 98, 99, 100, 101, 102, 0] ∧
    CountMonotone refImpl [97, 98, 99, 100, 101, 102, 0] ∧
    ValidOffsets [7] ∧ 10 ≤ wordSize ∧
    (vectorConstant refImpl "multiSearchFirstPosition" (fun _ => 7) 10
      [97, 98, 99, 100, 101, 102, 0] [7] [[99, 100], [120]] []).res = [3] ∧
    (vectorVector refImpl (fun _ => 7) 10
      [97, 98, 99, 100, 101, 102, 0] [7] [[99, 100], [120]] [2] []).res = [3] ∧
    (∃ k, firstMatch [[99, 100], [120]] (rowBytes [97, 98, 99, 100, 101, 102, 0] [7] 0)
        = some k ∧
      (vectorConstant refImpl "multiSearchFirstPosition" (fun _ => 7) 10
        [97, 98, 99, 100, 101, 102, 0] [7] [[99, 100], [120]] []).res.getD 0 0
        = 1 + refImpl.countChars [97, 98, 99, 100, 101, 102, 0]
            (rowBegin [7] 0) (rowBegin [7] 0 + k)) :=
  ⟨refImpl_reportsEarliestMatch, refImpl_countFits _ (by decide), refImpl_countMonotone _,
    by decide, by decide, by decide, by decide,
    (C3_nonzero_result_is_char_position_of_earliest_match refImpl
      refImpl_reportsEarliestMatch "multiSearchFirstPosition" (fun _ => 7) 10
      [97, 98, 99, 100, 101, 102, 0] [7] [[99, 100], [120]] [[99, 100], [120]] [2] []
      (refImpl_countFits _ (by decide)) (refImpl_countMonotone _) (by decide)
      (by decide)).1 (by decide) 0 (by decide) (by decide)⟩

/-- C4: for both drivers and every row `j`, the final `res[j]` is the minimum of the nonzero
values that `searchOneFirstPosition` returned for that row, and `0` when all of them are
`0` (or there is none). In the combination rule a running `0` is replaced by the value of
the pass, and after the first pass a `0` of the pass leaves a nonzero running value as it
is. The pass counter is a `size_t`: the statement is for loops bounded by `2 ^ 64`
evaluations of the loop condition. -/
theorem C4_result_is_min_of_nonzero_pass_results {σ : Type} (I : Impl σ) (name : String)
    (uninit : Nat → Nat) (fuel : Nat) (data offsets : List Nat) (needles : List (List Nat))
    (nd : List (List Nat)) (no : List Nat) (res : List Nat) (hfuel : fuel ≤ wordSize) :
    ((vectorConstant I name uninit fuel data offsets needles res).status = Status.returned →
      ∀ j, j < offsets.length →
        (vectorConstant I name uninit fuel data offsets needles res).res.getD j 0
          = minNonzero (rowResults
              (vectorConstant I name uninit fuel data offsets needles res).calls j) ∧
        IsMinNonzero
          ((vectorConstant I name uninit fuel data offsets needles res).res.getD j 0)
          (rowResults (vectorConstant I name uninit fuel data offsets needles res).calls j)) ∧
    ((vectorVector I uninit fuel data offsets nd no res).status = Status.returned →
      ∀ j, j < offsets.length →
        (vectorVector I uninit fuel data offsets nd no res).res.getD j 0
          = minNonzero (rowResults
              (vectorVector I uninit fuel data offsets nd no res).calls j) ∧
        IsMinNonzero
          ((vectorVector I uninit fuel data offsets nd no res).res.getD j 0)
          (rowResults (vectorVector I uninit fuel data offsets nd no res).calls j)) ∧
    (∀ iteration result, aggregateStep iteration 0 result = result) ∧
    (∀ iteration cur, iteration ≠ 0 → aggregateStep iteration cur 0 = cur) := by
  refine ⟨?_, ?_, ?_, ?_⟩
  · intro hret j hj
    have h := vectorConstant_aggregates I name uninit fuel data offsets needles res hfuel
      hret j hj
    refine ⟨h, ?_⟩
    rw [h]
    exact minNonzero_isMinNonzero _
  · intro hret j hj
    have h := vectorVector_aggregates I uninit fuel data offsets nd no res hfuel hret j hj
    refine ⟨h, ?_⟩
    rw [h]
    exact minNonzero_isMinNonzero _
  · intro iteration result
    simp [aggregateStep]
  · intro iteration cur hit
    simp only [aggregateStep, hit, false_or, ne_eq, not_true_eq_false, if_false]
    split
    · rename_i h; exact h.symm
    · rfl

/-- Witness of C4: two rows and three needles, one pass per needle; the pass results of
row 0 are `5, 0, 3` and those of row 1 are `0, 2, 0`. -/
theorem C4_witness :
    10 ≤ wordSize ∧
    rowResults (vectorConstant refImpl "multiSearchFirstPosition" (fun _ => 7) 10
      [97, 98, 99, 100, 101, 0, 120, 121, 0] [6, 9] [[101], [121], [99]] []).calls 0
      = [5, 0, 3] ∧
    rowResults (vectorConstant refImpl "multiSearchFirstPosition" (fun _ => 7) 10
      [97, 98, 99, 100, 101, 0, 120, 121, 0] [6, 9] [[101], [121], [99]] []).calls 1
      = [0, 2, 0] ∧
    (vectorConstant refImpl "multiSearchFirstPosition" (fun _ => 7) 10
      [97, 98, 99, 100, 101, 0, 120, 121, 0] [6, 9] [[101], [121], [99]] []).res = [3, 2] ∧
    (vectorConstant refImpl "multiSearchFirstPosition" (fun _ => 7) 10
      [97, 98, 99, 100, 101, 0, 120, 121, 0] [6, 9] [[101], [121], [99]] []).res.getD 0 0
      = minNonzero (rowResults
          (vectorConstant refImpl "multiSearchFirstPosition" (fun _ => 7) 10
            [97, 98, 99, 100, 101, 0, 120, 121, 0] [6, 9] [[101], [121], [99]]
            []).calls 0) :=
  ⟨by decide, by decide, by decide, by decide,
    ((C4_result_is_min_of_nonzero_pass_results refImpl "multiSearchFirstPosition"
      (fun _ => 7) 10 [97, 98, 99, 100, 101, 0, 120, 121, 0] [6, 9] [[101], [121], [99]]
      [] [] [] (by decide)).1 (by decide) 0 (by decide)).1⟩

/-- C5: when `vectorConstant` throws, it has done no search work: the result buffer is
exactly the buffer passed in, neither resized nor written, no call of
`searchOneFirstPosition` was made, and the exception is the one of the cardinality
check. -/
theorem C5_throw_leaves_buffer_and_makes_no_search {σ : Type} (I : Impl σ) (name : String)
    (uninit : Nat → Nat) (fuel : Nat) (data offsets : List Nat) (needles : List (List Nat))
    (res : List Nat) (ex : Exception)
    (hthrown : (vectorConstant I name uninit fuel data offsets needles res).status
      = Status.thrown ex) :
    (vectorConstant I name uninit fuel data offsets needles res).res = res ∧
    (vectorConstant I name uninit fuel data offsets needles res).calls = [] ∧
    ex = tooManyArguments name needles.length ∧ 255 < needles.length := by
  by_cases h : 255 < needles.length
  · rw [vectorConstant_throws I name uninit fuel data offsets needles res h] at hthrown ⊢
    injection hthrown with hex
    exact ⟨rfl, rfl, hex.symm, h⟩
  · rw [vectorConstant_runs I name uninit fuel data offsets needles res (by omega)]
      at hthrown
    exact absurd hthrown (constantPasses_not_thrown I data offsets fuel _ _ _ _ ex)

/-- Witness of C5: 256 needles, a buffer of three stale entries for a batch of one row. -/
theorem C5_witness :
    (vectorConstant refImpl "multiSearchFirstPosition" (fun _ => 7) 10 [97, 0] [2]
      (List.replicate 256 [97]) [5, 6, 7]).status
      = Status.thrown (tooManyArguments "multiSearchFirstPosition"
          (List.replicate 256 [97]).length) ∧
    (vectorConstant refImpl "multiSearchFirstPosition" (fun _ => 7) 10 [97, 0] [2]
      (List.replicate 256 [97]) [5, 6, 7]).res = [5, 6, 7] ∧
    (vectorConstant refImpl "multiSearchFirstPosition" (fun _ => 7) 10 [97, 0] [2]
      (List.replicate 256 [97]) [5, 6, 7]).calls = [] :=
  have h := congrArg Final.status
    (vectorConstant_throws refImpl "multiSearchFirstPosition" (fun _ => 7) 10 [97, 0] [2]
      (List.replicate 256 [97]) [5, 6, 7]
      (by simp only [List.length_replicate]; omega))
  have w := C5_throw_leaves_buffer_and_makes_no_search refImpl "multiSearchFirstPosition"
    (fun _ => 7) 10 [97, 0] [2] (List.replicate 256 [97]) [5, 6, 7] _ h
  ⟨h, w.1, w.2.1⟩

/-- C7: a row whose searcher performs zero passes gets the result `0`, whatever the result
buffer held on entry. `vectorConstant` with a searcher that performs zero passes returns
`N` zeros without any search call; `vectorVector` sets `res[i] = 0` for every row `i`
whose searcher performs zero passes. In particular, when the searcher built from an empty
needle list performs zero passes (section 4.2), `vectorConstant` with an empty needle
list returns `N` zeros and `vectorVector` gives `0` for every row whose needle slice is
empty. -/
theorem C7_zero_passes_give_zero {σ : Type} (I : Impl σ) (name : String)
    (uninit : Nat → Nat) (fuel : Nat) (data offsets : List Nat) (needles : List (List Nat))
    (nd : List (List Nat)) (no : List Nat) (res : List Nat) :
    (needles.length ≤ 255 →
      (I.hasMoreToSearch (I.createMultiSearcherInBigHaystack needles)).1 = false →
      vectorConstant I name uninit (fuel + 1) data offsets needles res =
        ⟨Status.returned, List.replicate offsets.length 0, []⟩) ∧
    ((vectorVector I uninit fuel data offsets nd no res).status = Status.returned →
      ∀ i, i < offsets.length →
        (I.hasMoreToSearch
          (I.createMultiSearcherInBigHaystack (rowNeedles nd no i))).1 = false →
        (vectorVector I uninit fuel data offsets nd no res).res.getD i 0 = 0) ∧
    ((I.hasMoreToSearch (I.createMultiSearcherInBigHaystack [])).1 = false →
      vectorConstant I name uninit (fuel + 1) data offsets [] res =
        ⟨Status.returned, List.replicate offsets.length 0, []⟩ ∧
      ((vectorVector I uninit fuel data offsets nd no res).status = Status.returned →
        ∀ i, i < offsets.length → rowNeedles nd no i = [] →
          (vectorVector I uninit fuel data offsets nd no res).res.getD i 0 = 0)) := by
  have hA : ∀ ns : List (List Nat), ns.length ≤ 255 →
      (I.hasMoreToSearch (I.createMultiSearcherInBigHaystack ns)).1 = false →
      vectorConstant I name uninit (fuel + 1) data offsets ns res =
        ⟨Status.returned, List.replicate offsets.length 0, []⟩ := by
    intro ns hlen hzero
    rw [vectorConstant_runs I name uninit (fuel + 1) data offsets ns res hlen,
      constantPasses_done I data offsets fuel _ 0 _ [] hzero, resize_length]
    rfl
  have hB : (vectorVector I uninit fuel data offsets nd no res).status = Status.returned →
      ∀ i, i < offsets.length →
        (I.hasMoreToSearch
          (I.createMultiSearcherInBigHaystack (rowNeedles nd no i))).1 = false →
        (vectorVector I uninit fuel data offsets nd no res).res.getD i 0 = 0 := by
    intro hret i hi hzero
    exact vectorRows_zero_passes I fuel data nd no offsets i hi hzero offsets 0 0 _ []
      rfl (Nat.zero_le i) hret
  refine ⟨hA needles, hB, fun hzero => ⟨hA [] (Nat.zero_le 255) hzero, ?_⟩⟩
  intro hret i hi hempty
  exact hB hret i hi (by rw [hempty]; exact hzero)

/-- Witness of C7: with an empty needle list both drivers overwrite stale buffer content
with zeros; in `vectorVector` the second row has an empty needle slice. -/
theorem C7_witness :
    (refImpl.hasMoreToSearch (refImpl.createMultiSearcherInBigHaystack [])).1 = false ∧
    vectorConstant refImpl "multiSearchFirstPosition" (fun _ => 7) (9 + 1)
      [102, 111, 111, 0, 98, 97, 114, 0] [4, 8] [] [5, 6, 7]
      = ⟨Status.returned, List.replicate [4, 8].length 0, []⟩ ∧
    rowNeedles [[111]] [1, 1] 1 = [] ∧
    (vectorVector refImpl (fun _ => 7) 10
      [102, 111, 111, 0, 98, 97, 114, 0] [4, 8] [[111]] [1, 1] [5, 6, 7]).res = [2, 0] ∧
    (vectorVector refImpl (fun _ => 7) 10
      [102, 111, 111, 0, 98, 97, 114, 0] [4, 8] [[111]] [1, 1] [5, 6, 7]).res.getD 1 0 = 0 :=
  ⟨by decide,
    ((C7_zero_passes_give_zero refImpl "multiSearchFirstPosition" (fun _ => 7) 9
      [102, 111, 111, 0, 98, 97, 114, 0] [4, 8] [] [] [] [5, 6, 7]).2.2 (by decide)).1,
    by decide, by decide,
    ((C7_zero_passes_give_zero refImpl "multiSearchFirstPosition" (fun _ => 7) 10
      [102, 111, 111, 0, 98, 97, 114, 0] [4, 8] [] [[111]] [1, 1] [5, 6, 7]).2.2
      (by decide)).2 (by decide) 1 (by decide) (by decide)⟩

/-- C8: whenever `vectorConstant` or `vectorVector` returns, the result array has exactly
one entry per haystack offset, whatever the length of the buffer passed in. -/
theorem C8_result_length_is_number_of_rows {σ : Type} (I : Impl σ) (name : String)
    (uninit : Nat → Nat) (fuel : Nat) (data offsets : List Nat) (needles : List (List Nat))
    (nd : List (List Nat)) (no : List Nat) (res : List Nat) :
    ((vectorConstant I name uninit fuel data offsets needles res).status = Status.returned →
      (vectorConstant I name uninit fuel data offsets needles res).res.length
        = offsets.length) ∧
    ((vectorVector I uninit fuel data offsets nd no res).status = Status.returned →
      (vectorVector I uninit fuel data offsets nd no res).res.length = offsets.length) := by
  constructor
  · intro hret
    by_cases h : 255 < needles.length
    · rw [vectorConstant_throws I name uninit fuel data offsets needles res h] at hret
      cases hret
    · rw [vectorConstant_runs I name uninit fuel data offsets needles res (by omega),
        constantPasses_length, resize_length]
  · intro _
    unfold vectorVector
    rw [vectorRows_length, resize_length]

/-- Witness of C8: a buffer of five entries shrinks to the two rows of the batch; an empty
buffer grows to them; zero passes and zero rows are covered. -/
theorem C8_witness :
    (vectorConstant refImpl "multiSearchFirstPosition" (fun _ => 7) 10
      [102, 111, 111, 0, 98, 97, 114, 0] [4, 8] [[111]] [9, 9, 9, 9, 9]).res = [2, 0] ∧
    (vectorConstant refImpl "multiSearchFirstPosition" (fun _ => 7) 10
      [102, 111, 111, 0, 98, 97, 114, 0] [4, 8] [] []).res = [0, 0] ∧
    (vectorVector refImpl (fun _ => 7) 10 [] [] [] [] [9, 9]).res = [] ∧
    (vectorConstant refImpl "multiSearchFirstPosition" (fun _ => 7) 10
      [102, 111, 111, 0, 98, 97, 114, 0] [4, 8] [[111]] [9, 9, 9, 9, 9]).res.length
      = [4, 8].length ∧
    (vectorVector refImpl (fun _ => 7) 10
      [102, 111, 111, 0, 98, 97, 114, 0] [4, 8] [[111], [97]] [1, 2] []).res.length
      = [4, 8].length :=
  ⟨by decide, by decide, by decide,
    (C8_result_length_is_number_of_rows refImpl "multiSearchFirstPosition" (fun _ => 7) 10
      [102, 111, 111, 0, 98, 97, 114, 0] [4, 8] [[111]] [] [] [9, 9, 9, 9, 9]).1 (by decide),
    (C8_result_length_is_number_of_rows refImpl "multiSearchFirstPosition" (fun _ => 7) 10
      [102, 111, 111, 0, 98, 97, 114, 0] [4, 8] [] [[111], [97]] [1, 2] []).2 (by decide)⟩

/-- C9: in both drivers the outcome does not depend on what the result buffer held on
entry, nor on the content of the memory `resize` leaves uninitialised: two runs on the
same batch, needles and searcher end the same way, make the same search calls with the
same answers, and, when they return, produce the same result array. -/
theorem C9_output_independent_of_buffer_content {σ : Type} (I : Impl σ) (name : String)
    (uninit1 uninit2 : Nat → Nat) (fuel : Nat) (data offsets : List Nat)
    (needles : List (List Nat)) (nd : List (List Nat)) (no : List Nat)
    (res1 res2 : List Nat) :
    ((vectorConstant I name uninit1 fuel data offsets needles res1).status
        = (vectorConstant I name uninit2 fuel data offsets needles res2).status ∧
      (vectorConstant I name uninit1 fuel data offsets needles res1).calls
        = (vectorConstant I name uninit2 fuel data offsets needles res2).calls ∧
      ((vectorConstant I name uninit1 fuel data offsets needles res1).status
          = Status.returned →
        (vectorConstant I name uninit1 fuel data offsets needles res1).res
          = (vectorConstant I name uninit2 fuel data offsets needles res2).res)) ∧
    ((vectorVector I uninit1 fuel data offsets nd no res1).status
        = (vectorVector I uninit2 fuel data offsets nd no res2).status ∧
      (vectorVector I uninit1 fuel data offsets nd no res1).calls
        = (vectorVector I uninit2 fuel data offsets nd no res2).calls ∧
      ((vectorVector I uninit1 fuel data offsets nd no res1).status = Status.returned →
        (vectorVector I uninit1 fuel data offsets nd no res1).res
          = (vectorVector I uninit2 fuel data offsets nd no res2).res)) := by
  constructor
  · by_cases h : 255 < needles.length
    · rw [vectorConstant_throws I name uninit1 fuel data offsets needles res1 h,
        vectorConstant_throws I name uninit2 fuel data offsets needles res2 h]
      exact ⟨rfl, rfl, fun hret => by cases hret⟩
    · rw [vectorConstant_runs I name uninit1 fuel data offsets needles res1 (by omega),
        vectorConstant_runs I name uninit2 fuel data offsets needles res2 (by omega)]
      cases fuel with
      | zero => exact ⟨rfl, rfl, fun hret => by cases hret⟩
      | succ fuel =>
        cases hmore : (I.hasMoreToSearch (I.createMultiSearcherInBigHaystack needles)).1 with
        | false =>
          rw [constantPasses_done I data offsets fuel _ 0 _ [] hmore,
            constantPasses_done I data offsets fuel _ 0 _ [] hmore,
            resize_length, resize_length]
          exact ⟨rfl, rfl, fun _ => rfl⟩
        | true =>
          rw [constantPasses_more I data offsets fuel _ 0 _ [] hmore,
            constantPasses_more I data offsets fuel _ 0 _ [] hmore,
            constantRows_indep I data offsets 0 0 _ (resize res1 offsets.length uninit1)
              (resize res2 offsets.length uninit2) []
              (by rw [resize_length, resize_length])
              (fun x hx => by
                have hx' : offsets.length ≤ x := by omega
                rw [getD_of_length_le _ x (by rw [resize_length]; exact hx'),
                  getD_of_length_le _ x (by rw [resize_length]; exact hx')])]
          exact ⟨rfl, rfl, fun _ => rfl⟩
  · unfold vectorVector
    obtain ⟨hs, hc, hv⟩ := vectorRows_indep I fuel data nd no offsets 0 0 0 []
      (resize res1 offsets.length uninit1) (resize res2 offsets.length uninit2) []
      (by rw [resize_length, resize_length]) (fun x hx => absurd hx (Nat.not_lt_zero x))
    refine ⟨hs, hc, fun hret => ?_⟩
    apply eq_of_getD_eq
    · rw [vectorRows_length, vectorRows_length, resize_length, resize_length]
    · intro x hx
      rw [vectorRows_length, resize_length] at hx
      exact hv hret x (by omega)

/-- Witness of C9: the same batch run on two buffers of different length and content. -/
theorem C9_witness :
    (vectorConstant refImpl "multiSearchFirstPosition" (fun _ => 7) 10
      [102, 111, 111, 0, 98, 97, 114, 102, 111, 111, 0] [4, 11] [[111], [97]]
      [9, 9, 9]).status = Status.returned ∧
    (vectorConstant refImpl "multiSearchFirstPosition" (fun _ => 7) 10
      [102, 111, 111, 0, 98, 97, 114, 102, 111, 111, 0] [4, 11] [[111], [97]]
      [9, 9, 9]).res = [2, 2] ∧
    (vectorConstant refImpl "multiSearchFirstPosition" (fun _ => 7) 10
      [102, 111, 111, 0, 98, 97, 114, 102, 111, 111, 0] [4, 11] [[111], [97]]
      [9, 9, 9]).res
      = (vectorConstant refImpl "multiSearchFirstPosition" (fun _ => 0) 10
      [102, 111, 111, 0, 98, 97, 114, 102, 111, 111, 0] [4, 11] [[111], [97]] [1]).res ∧
    (vectorVector refImpl (fun _ => 7) 10
      [102, 111, 111, 0, 98, 97, 114, 102, 111, 111, 0] [4, 11] [[111], [97]] [1, 2]
      [9, 9, 9]).res
      = (vectorVector refImpl (fun _ => 0) 10
      [102, 111, 111, 0, 98, 97, 114, 102, 111, 111, 0] [4, 11] [[111], [97]] [1, 2]
      [1]).res :=
  ⟨by decide, by decide,
    (C9_output_independent_of_buffer_content refImpl "multiSearchFirstPosition"
      (fun _ => 7) (fun _ => 0) 10 [102, 111, 111, 0, 98, 97, 114, 102, 111, 111, 0] [4, 11]
      [[111], [97]] [[111], [97]] [1, 2] [9, 9, 9] [1]).1.2.2 (by decide),
    (C9_output_independent_of_buffer_content refImpl "multiSearchFirstPosition"
      (fun _ => 7) (fun _ => 0) 10 [102, 111, 111, 0, 98, 97, 114, 102, 111, 111, 0] [4, 11]
      [[111], [97]] [[111], [97]] [1, 2] [9, 9, 9] [1]).2.2.2 (by decide)⟩

/-- C10: in both drivers, every call of `searchOneFirstPosition` is made for a row `j` of
the batch with the pointers `haystack = offset[j - 1]` (`0` for row `0`) and
`haystack_end = offset[j] - 1`, in every pass: the slice handed over is the content of
row `j` without its terminator byte. The offsets are those of a string column: each is a
`UInt64` value and at least `1`. -/
theorem C10_search_slice_is_row_content {σ : Type} (I : Impl σ) (name : String)
    (uninit : Nat → Nat) (fuel : Nat) (data offsets : List Nat) (needles : List (List Nat))
    (nd : List (List Nat)) (no : List Nat) (res : List Nat) (hok : ValidOffsets offsets) :
    (∀ c ∈ (vectorConstant I name uninit fuel data offsets needles res).calls,
      c.row < offsets.length ∧ c.haystack = rowBegin offsets c.row ∧
      c.haystack_end = rowEnd offsets c.row ∧
      slice data c.haystack c.haystack_end = rowBytes data offsets c.row) ∧
    (∀ c ∈ (vectorVector I uninit fuel data offsets nd no res).calls,
      c.row < offsets.length ∧ c.haystack = rowBegin offsets c.row ∧
      c.haystack_end = rowEnd offsets c.row ∧
      slice data c.haystack c.haystack_end = rowBytes data offsets c.row) := by
  have key : ∀ c, CallShape offsets c →
      c.row < offsets.length ∧ c.haystack = rowBegin offsets c.row ∧
      c.haystack_end = rowEnd offsets c.row ∧
      slice data c.haystack c.haystack_end = rowBytes data offsets c.row := by
    intro c ⟨h1, h2, h3⟩
    have h4 : c.haystack_end = rowEnd offsets c.row := by
      rw [h3, rowEndPtr_eq offsets hok c.row h1]
    exact ⟨h1, h2, h4, by rw [h2, h4]; rfl⟩
  constructor
  · intro c hc
    apply key
    by_cases h : 255 < needles.length
    · rw [vectorConstant_throws I name uninit fuel data offsets needles res h] at hc
      cases hc
    · rw [vectorConstant_runs I name uninit fuel data offsets needles res (by omega)] at hc
      exact constantPasses_shape I data offsets fuel _ 0 _ [] (fun c hc => by cases hc) c hc
  · intro c hc
    apply key
    exact vectorRows_shape I fuel data nd no offsets offsets 0 0 [] _ [] rfl
      (fun c hc => by cases hc) c hc

/-- Witness of C10: the haystacks `foo` and `barfoo` with the needle `foo` give `[1, 4]`;
the two calls were made on the byte ranges `[0, 3)` and `[4, 10)`. -/
theorem C10_witness :
    ValidOffsets [4, 11] ∧
    (vectorConstant refImpl "multiSearchFirstPosition" (fun _ => 7) 10
      [102, 111, 111, 0, 98, 97, 114, 102, 111, 111, 0] [4, 11] [[102, 111, 111]] []).res
      = [1, 4] ∧
    (vectorConstant refImpl "multiSearchFirstPosition" (fun _ => 7) 10
      [102, 111, 111, 0, 98, 97, 114, 102, 111, 111, 0] [4, 11] [[102, 111, 111]] []).calls
      = [⟨0, 0, 0, 3, 1⟩, ⟨0, 1, 4, 10, 4⟩] ∧
    rowBytes [102, 111, 111, 0, 98, 97, 114, 102, 111, 111, 0] [4, 11] 1
      = [98, 97, 114, 102, 111, 111] ∧
    (∀ c ∈ (vectorConstant refImpl "multiSearchFirstPosition" (fun _ => 7) 10
      [102, 111, 111, 0, 98, 97, 114, 102, 111, 111, 0] [4, 11] [[102, 111, 111]] []).calls,
      c.row < [4, 11].length ∧ c.haystack = rowBegin [4, 11] c.row ∧
      c.haystack_end = rowEnd [4, 11] c.row ∧
      slice [102, 111, 111, 0, 98, 97, 114, 102, 111, 111, 0] c.haystack c.haystack_end
        = rowBytes [102, 111, 111, 0, 98, 97, 114, 102, 111, 111, 0] [4, 11] c.row) :=
  ⟨by decide, by decide, by decide, by decide,
    (C10_search_slice_is_row_content refImpl "multiSearchFirstPosition" (fun _ => 7) 10
      [102, 111, 111, 0, 98, 97, 114, 102, 111, 111, 0] [4, 11] [[102, 111, 111]] [] [] []
      (by decide)).1⟩

/-- C11: in `vectorVector` the searcher of row `i` is built from exactly the entries of the
needle column with indices in `[needles_offsets[i - 1], needles_offsets[i])` (from `0` for
row `0`), in order, and from nothing else: on return, `res[i]` is the result of the pass
loop run alone on row `i`'s pointers with the searcher built from these needles. Hence
changing the needles of other rows leaves `res[i]` unchanged; and when the searcher
answers from the bytes of the slice it is handed, so does changing the haystacks of
other rows, as long as row `i` keeps its bytes and its needles. -/
theorem C11_row_result_depends_on_own_slices_only {σ : Type} (I : Impl σ)
    (uninit : Nat → Nat) (fuel : Nat) (data offsets : List Nat) (nd : List (List Nat))
    (no : List Nat) (res : List Nat)
    (hret : (vectorVector I uninit fuel data offsets nd no res).status = Status.returned)
    (i : Nat) (hi : i < offsets.length) :
    ((rowNeedles nd no i).length = no.getD i 0 - rowBegin no i ∧
      ∀ k, k < no.getD i 0 - rowBegin no i →
        (rowNeedles nd no i).getD k [] = getDataAt nd (rowBegin no i + k)) ∧
    ((rowRun I fuel data (rowBegin offsets i) (rowEndPtr offsets i)
        (rowNeedles nd no i)).status = Status.returned ∧
      (vectorVector I uninit fuel data offsets nd no res).res.getD i 0
        = (rowRun I fuel data (rowBegin offsets i) (rowEndPtr offsets i)
            (rowNeedles nd no i)).res.getD 0 0) ∧
    (∀ uninit' nd' no' res', rowNeedles nd' no' i = rowNeedles nd no i →
      (vectorVector I uninit' fuel data offsets nd' no' res').status = Status.returned →
      (vectorVector I uninit' fuel data offsets nd' no' res').res.getD i 0
        = (vectorVector I uninit fuel data offsets nd no res).res.getD i 0) ∧
    (AnswersFromSlice I → ∀ uninit' data' offsets' nd' no' res',
      ValidOffsets offsets → ValidOffsets offsets' → i < offsets'.length →
      rowBytes data' offsets' i = rowBytes data offsets i →
      rowNeedles nd' no' i = rowNeedles nd no i →
      (vectorVector I uninit' fuel data' offsets' nd' no' res').status = Status.returned →
      (vectorVector I uninit' fuel data' offsets' nd' no' res').res.getD i 0
        = (vectorVector I uninit fuel data offsets nd no res).res.getD i 0) := by
  have hrow : ∀ (uninit' : Nat → Nat) (data' offsets' : List Nat) (nd' : List (List Nat))
      (no' res' : List Nat), i < offsets'.length →
      (vectorVector I uninit' fuel data' offsets' nd' no' res').status = Status.returned →
      (rowRun I fuel data' (rowBegin offsets' i) (rowEndPtr offsets' i)
        (rowNeedles nd' no' i)).status = Status.returned ∧
      (vectorVector I uninit' fuel data' offsets' nd' no' res').res.getD i 0
        = (rowRun I fuel data' (rowBegin offsets' i) (rowEndPtr offsets' i)
            (rowNeedles nd' no' i)).res.getD 0 0 := by
    intro uninit' data' offsets' nd' no' res' hi' hret'
    exact vectorRows_row_value I fuel data' nd' no' offsets' i hi' offsets' 0 _ [] rfl
      (Nat.zero_le i) (resize_length res' offsets'.length uninit') hret'
  have h0 := hrow uninit data offsets nd no res hi hret
  refine ⟨⟨rowNeedles_length nd no i, rowNeedles_getD nd no i⟩, h0, ?_, ?_⟩
  · intro uninit' nd' no' res' hneedles hret'
    rw [(hrow uninit' data offsets nd' no' res' hi hret').2, h0.2, hneedles]
  · intro hlocal uninit' data' offsets' nd' no' res' hok hok' hi' hbytes hneedles hret'
    obtain ⟨s1, v1⟩ := hrow uninit' data' offsets' nd' no' res' hi' hret'
    rw [v1, h0.2, hneedles]
    rw [hneedles] at s1
    exact (rowRun_congr I hlocal fuel data' data _ _ _ _ (rowNeedles nd no i)
      (by rw [rowBytes_eq_slice data' offsets' hok' i hi',
        rowBytes_eq_slice data offsets hok i hi, hbytes])).2 s1

/-- Witness of C11: row 0 `hello` with the needle `ell`, row 1 `hello` with the needle `z`
give `[2, 0]`; replacing row 0 by `xx` with the needles `x`, `q` leaves the result of
row 1 as it is. -/
theorem C11_witness :
    (vectorVector refImpl (fun _ => 7) 10
      [104, 101, 108, 108, 111, 0, 104, 101, 108, 108, 111, 0] [6, 12]
      [[101, 108, 108], [122]] [1, 2] []).status = Status.returned ∧
    (vectorVector refImpl (fun _ => 7) 10
      [104, 101, 108, 108, 111, 0, 104, 101, 108, 108, 111, 0] [6, 12]
      [[101, 108, 108], [122]] [1, 2] []).res = [2, 0] ∧
    rowNeedles [[101, 108, 108], [122]] [1, 2] 1 = [[122]] ∧
    (vectorVector refImpl (fun _ => 0) 10
      [120, 120, 0, 104, 101, 108, 108, 111, 0] [3, 9]
      [[120], [113], [122]] [2, 3] [5]).res = [1, 0] ∧
    (vectorVector refImpl (fun _ => 0) 10
      [120, 120, 0, 104, 101, 108, 108, 111, 0] [3, 9]
      [[120], [113], [122]] [2, 3] [5]).res.getD 1 0
      = (vectorVector refImpl (fun _ => 7) 10
          [104, 101, 108, 108, 111, 0, 104, 101, 108, 108, 111, 0] [6, 12]
          [[101, 108, 108], [122]] [1, 2] []).res.getD 1 0 :=
  ⟨by decide, by decide, by decide, by decide,
    (C11_row_result_depends_on_own_slices_only refImpl (fun _ => 7) 10
      [104, 101, 108, 108, 111, 0, 104, 101, 108, 108, 111, 0] [6, 12]
      [[101, 108, 108], [122]] [1, 2] [] (by decide) 1 (by decide)).2.2.2
      refImpl_answersFromSlice (fun _ => 0)
      [120, 120, 0, 104, 101, 108, 108, 111, 0] [3, 9] [[120], [113], [122]] [2, 3] [5]
      (by decide) (by decide) (by decide) (by decide) (by decide) (by decide)⟩

/-- C12: the exception thrown by `vectorConstant` for a needle list of size `n > 255` has the
code `TOO_MANY_ARGUMENTS_FOR_FUNCTION` and carries, as the arguments of its message, the
function name `Name::name`, the supplied count `n` and the bound `255`, in this order. -/
theorem C12_exception_carries_name_count_and_bound {σ : Type} (I : Impl σ) (name : String)
    (uninit : Nat → Nat) (fuel : Nat) (data offsets : List Nat) (needles : List (List Nat))
    (res : List Nat) (hmany : 255 < needles.length) :
    ∃ ex, (vectorConstant I name uninit fuel data offsets needles res).status
        = Status.thrown ex ∧
      ex = tooManyArguments name needles.length ∧
      ex.code = ErrorCode.TOO_MANY_ARGUMENTS_FOR_FUNCTION ∧
      ex.args = [name, toString needles.length, "255"] := by
  refine ⟨tooManyArguments name needles.length, ?_, rfl, rfl, rfl⟩
  rw [vectorConstant_throws I name uninit fuel data offsets needles res hmany]

/-- Witness of C12: 256 needles; the message arguments are the name, `256` and `255`. -/
theorem C12_witness :
    255 < (List.replicate 256 [97]).length ∧
    (tooManyArguments "multiSearchFirstPosition" (List.replicate 256 [97]).length).args
      = ["multiSearchFirstPosition", "256", "255"] ∧
    (∃ ex, (vectorConstant refImpl "multiSearchFirstPosition" (fun _ => 7) 10 [97, 0] [2]
        (List.replicate 256 [97]) []).status = Status.thrown ex ∧
      ex = tooManyArguments "multiSearchFirstPosition" (List.replicate 256 [97]).length ∧
      ex.code = ErrorCode.TOO_MANY_ARGUMENTS_FOR_FUNCTION ∧
      ex.args = ["multiSearchFirstPosition",
        toString (List.replicate 256 [97]).length, "255"]) :=
  ⟨by simp only [List.length_replicate]; omega, by rw [List.length_replicate]; rfl,
    C12_exception_carries_name_count_and_bound refImpl "multiSearchFirstPosition"
      (fun _ => 7) 10 [97, 0] [2] (List.replicate 256 [97]) []
      (by simp only [List.length_replicate]; omega)⟩

/-- C13, as amended: for every haystack batch whose offsets are strictly ascending, whose
first offset is at least `1`, and whose last offset does not exceed the length of the
byte buffer (a `size_t`), every slice that either driver computes is well-formed: for
every row `j` the length `offset[j] - offset[j - 1] - 1` does not underflow, the start
index is a valid index of the buffer, and the slice lies inside the buffer. This holds
for the pointers the drivers compute for each row, and for the pointers of every call of
`searchOneFirstPosition`. -/
theorem C13_slices_well_formed {σ : Type} (I : Impl σ) (name : String)
    (uninit : Nat → Nat) (fuel : Nat) (data offsets : List Nat) (needles : List (List Nat))
    (nd : List (List Nat)) (no : List Nat) (res : List Nat)
    (hasc : offsets.Pairwise (fun a b => a < b))
    (hfirst : ∀ off ∈ offsets.head?, 1 ≤ off)
    (hlast : ∀ off ∈ offsets.getLast?, off ≤ data.length)
    (hsize : data.length < wordSize) :
    (∀ j, j < offsets.length →
      WellFormedSlice data offsets j (rowBegin offsets j) (rowEndPtr offsets j)) ∧
    (∀ c ∈ (vectorConstant I name uninit fuel data offsets needles res).calls,
      c.row < offsets.length ∧
        WellFormedSlice data offsets c.row c.haystack c.haystack_end) ∧
    (∀ c ∈ (vectorVector I uninit fuel data offsets nd no res).calls,
      c.row < offsets.length ∧
        WellFormedSlice data offsets c.row c.haystack c.haystack_end) := by
  have key : ∀ c, CallShape offsets c →
      c.row < offsets.length ∧
        WellFormedSlice data offsets c.row c.haystack c.haystack_end := by
    intro c ⟨h1, h2, h3⟩
    rw [h2, h3]
    exact ⟨h1, ascending_offsets_wellFormed data offsets hasc hfirst hlast hsize c.row h1⟩
  refine ⟨ascending_offsets_wellFormed data offsets hasc hfirst hlast hsize, ?_, ?_⟩
  · intro c hc
    apply key
    by_cases h : 255 < needles.length
    · rw [vectorConstant_throws I name uninit fuel data offsets needles res h] at hc
      cases hc
    · rw [vectorConstant_runs I name uninit fuel data offsets needles res (by omega)] at hc
      exact constantPasses_shape I data offsets fuel _ 0 _ [] (fun c hc => by cases hc) c hc
  · intro c hc
    apply key
    exact vectorRows_shape I fuel data nd no offsets offsets 0 0 [] _ [] rfl
      (fun c hc => by cases hc) c hc

/-- Witness of C13: the batch `foo`, `barfoo` with the offsets `4, 11` in a buffer of 11
bytes. -/
theorem C13_witness :
    [4, 11].Pairwise (fun a b => a < b) ∧
    (∀ off ∈ [4, 11].head?, 1 ≤ off) ∧
    (∀ off ∈ [4, 11].getLast?,
      off ≤ [102, 111, 111, 0, 98, 97, 114, 102, 111, 111, 0].length) ∧
    [102, 111, 111, 0, 98, 97, 114, 102, 111, 111, 0].length < wordSize ∧
    (vectorConstant refImpl "multiSearchFirstPosition" (fun _ => 7) 10
      [102, 111, 111, 0, 98, 97, 114, 102, 111, 111, 0] [4, 11] [[102, 111, 111]] []).calls
      = [⟨0, 0, 0, 3, 1⟩, ⟨0, 1, 4, 10, 4⟩] ∧
    (∀ c ∈ (vectorConstant refImpl "multiSearchFirstPosition" (fun _ => 7) 10
      [102, 111, 111, 0, 98, 97, 114, 102, 111, 111, 0] [4, 11] [[102, 111, 111]] []).calls,
      c.row < [4, 11].length ∧
        WellFormedSlice [102, 111, 111, 0, 98, 97, 114, 102, 111, 111, 0] [4, 11]
          c.row c.haystack c.haystack_end) :=
  ⟨by decide, by decide, by decide, by decide, by decide,
    (C13_slices_well_formed refImpl "multiSearchFirstPosition" (fun _ => 7) 10
      [102, 111, 111, 0, 98, 97, 114, 102, 111, 111, 0] [4, 11] [[102, 111, 111]] [] [] []
      (by decide) (by decide) (by decide) (by decide)).2.1⟩

/-- Counterexample to C13 as stated: the one-row batch with the offsets `[0]` in a buffer of
one byte. The offsets are strictly ascending and the last offset does not exceed the
buffer length, yet the length `0 - 0 - 1` of row `0` underflows: both drivers call the
searcher with `haystack = 0` and `haystack_end = 2 ^ 64 - 1`, which is not a well-formed
slice. -/
theorem C13_counterexample :
    [0].Pairwise (fun a b => a < b) ∧
    (∀ off ∈ [0].getLast?, off ≤ [0].length) ∧
    (vectorConstant refImpl "multiSearchFirstPosition" (fun _ => 7) 10 [0] [0] [[97]]
      []).calls = [⟨0, 0, 0, 18446744073709551615, 0⟩] ∧
    (vectorVector refImpl (fun _ => 7) 10 [0] [0] [[97]] [1] []).calls
      = [⟨0, 0, 0, 18446744073709551615, 0⟩] ∧
    ¬ WellFormedSlice [0] [0] 0 (rowBegin [0] 0) (rowEndPtr [0] 0) ∧
    ¬ (∀ c ∈ (vectorConstant refImpl "multiSearchFirstPosition" (fun _ => 7) 10 [0] [0]
        [[97]] []).calls,
      c.row < [0].length ∧ WellFormedSlice [0] [0] c.row c.haystack c.haystack_end) ∧
    ¬ (∀ c ∈ (vectorVector refImpl (fun _ => 7) 10 [0] [0] [[97]] [1] []).calls,
      c.row < [0].length ∧ WellFormedSlice [0] [0] c.row c.haystack c.haystack_end) := by
  refine ⟨by decide, by decide, by decide, by decide, by decide, by decide, by decide⟩

/-- C14: the pass-outer driver and the row-outer driver compute the same function. For a
needle list of at most 255 needles that every row of the per-row needle column holds, and
a searcher whose searches leave the searcher object as it is (so that the answer of a
pass for a haystack does not depend on which other haystacks were queried), whenever
`vectorConstant` returns, `vectorVector` returns exactly the same result array, whatever
the two result buffers held on entry; and for a batch with at least one row, whenever
`vectorVector` returns, so does `vectorConstant`. -/
theorem C14_vectorVector_agrees_with_vectorConstant {σ : Type} (I : Impl σ)
    (hpure : ∀ s mem b e cb, (I.searchOneFirstPosition s mem b e cb).2 = s)
    (name : String) (uninit1 uninit2 : Nat → Nat) (fuel : Nat) (data offsets : List Nat)
    (needles : List (List Nat)) (nd : List (List Nat)) (no : List Nat)
    (res1 res2 : List Nat) (hlen : needles.length ≤ 255)
    (hsame : ∀ i, i < offsets.length → rowNeedles nd no i = needles) :
    ((vectorConstant I name uninit1 fuel data offsets needles res1).status
        = Status.returned →
      (vectorVector I uninit2 fuel data offsets nd no res2).status = Status.returned ∧
      (vectorVector I uninit2 fuel data offsets nd no res2).res
        = (vectorConstant I name uninit1 fuel data offsets needles res1).res) ∧
    (0 < offsets.length →
      (vectorVector I uninit2 fuel data offsets nd no res2).status = Status.returned →
      (vectorConstant I name uninit1 fuel data offsets needles res1).status
        = Status.returned) := by
  have hcv : ∀ j, j < offsets.length →
      (vectorConstant I name uninit1 fuel data offsets needles res1).status
        = (rowRun I fuel data (rowBegin offsets j) (rowEndPtr offsets j)
            (rowNeedles nd no j)).status ∧
      ((vectorConstant I name uninit1 fuel data offsets needles res1).status
          = Status.returned →
        (vectorConstant I name uninit1 fuel data offsets needles res1).res.getD j 0
          = (rowRun I fuel data (rowBegin offsets j) (rowEndPtr offsets j)
              (rowNeedles nd no j)).res.getD 0 0) := by
    intro j hj
    rw [vectorConstant_runs I name uninit1 fuel data offsets needles res1 hlen, hsame j hj]
    exact constantPasses_vs_vectorPasses I hpure data offsets j hj 0 fuel
      (I.createMultiSearcherInBigHaystack needles) 0 (resize res1 offsets.length uninit1)
      [0] [] [] (resize_length _ _ _) (by simp) (Or.inl rfl)
  constructor
  · intro hretc
    have hretv : (vectorVector I uninit2 fuel data offsets nd no res2).status
        = Status.returned :=
      vectorRows_returns_of_rows I fuel data nd no offsets offsets 0 _ [] rfl
        (resize_length _ _ _)
        (fun i _ hi => sameNeedles_request nd no needles offsets.length hlen hsame i hi)
        (fun i _ hi => by rw [← (hcv i hi).1]; exact hretc)
    refine ⟨hretv, ?_⟩
    apply eq_of_getD_eq
    · unfold vectorVector
      rw [vectorRows_length, resize_length,
        vectorConstant_runs I name uninit1 fuel data offsets needles res1 hlen,
        constantPasses_length, resize_length]
    · intro x hx
      have hxN : x < offsets.length := by
        unfold vectorVector at hx
        rw [vectorRows_length, resize_length] at hx
        exact hx
      rw [(hcv x hxN).2 hretc]
      exact (vectorRows_row_value I fuel data nd no offsets x hxN offsets 0 _ [] rfl
        (Nat.zero_le x) (resize_length _ _ _) hretv).2
  · intro hpos hretv
    rw [(hcv 0 hpos).1]
    exact (vectorRows_row_value I fuel data nd no offsets 0 hpos offsets 0 _ [] rfl
      (Nat.le_refl 0) (resize_length _ _ _) hretv).1

/-- Witness of C14: the haystacks `foo` and `barfoo` with the needles `o` and `bar`, two
passes; both drivers give `[2, 1]`. -/
theorem C14_witness :
    (∀ (s : RefSearcher) (mem : List Nat) (b e : Nat) (cb : Nat → Nat → Nat),
      (refImpl.searchOneFirstPosition s mem b e cb).2 = s) ∧
    [[111], [98, 97, 114]].length ≤ 255 ∧
    (∀ i, i < [4, 11].length →
      rowNeedles [[111], [98, 97, 114], [111], [98, 97, 114]] [2, 4] i
        = [[111], [98, 97, 114]]) ∧
    (vectorConstant refImpl "multiSearchFirstPosition" (fun _ => 7) 10
      [102, 111, 111, 0, 98, 97, 114, 102, 111, 111, 0] [4, 11] [[111], [98, 97, 114]]
      [9]).res = [2, 1] ∧
    (vectorVector refImpl (fun _ => 0) 10
      [102, 111, 111, 0, 98, 97, 114, 102, 111, 111, 0] [4, 11]
      [[111], [98, 97, 114], [111], [98, 97, 114]] [2, 4] [5, 5, 5]).status
      = Status.returned ∧
    (vectorVector refImpl (fun _ => 0) 10
      [102, 111, 111, 0, 98, 97, 114, 102, 111, 111, 0] [4, 11]
      [[111], [98, 97, 114], [111], [98, 97, 114]] [2, 4] [5, 5, 5]).res
      = (vectorConstant refImpl "multiSearchFirstPosition" (fun _ => 7) 10
      [102, 111, 111, 0, 98, 97, 114, 102, 111, 111, 0] [4, 11] [[111], [98, 97, 114]]
      [9]).res :=
  have h := (C14_vectorVector_agrees_with_vectorConstant refImpl refImpl_pure
    "multiSearchFirstPosition" (fun _ => 7) (fun _ => 0) 10
    [102, 111, 111, 0, 98, 97, 114, 102, 111, 111, 0] [4, 11] [[111], [98, 97, 114]]
    [[111], [98, 97, 114], [111], [98, 97, 114]] [2, 4] [9] [5, 5, 5] (by decide)
    (by decide)).1 (by decide)
  ⟨refImpl_pure, by decide, by decide, by decide, h.1, h.2⟩

/-- C15: the aggregation of a row does not depend on the order of the pass results nor on
how they are split: for pass sequences of fewer than `2 ^ 64` values (the pass counter is
a `size_t`), a permutation of the sequence aggregates to the same value, whatever
`res[j]` held before, and aggregating a concatenation is combining the two aggregated
results with the rule `treat 0 as absent, otherwise take the minimum`. The aggregation is
the one of the drivers: on return, `res[j]` is the aggregate of the values the searches
for row `j` returned. -/
theorem C15_aggregation_independent_of_order_and_split {σ : Type} (I : Impl σ)
    (name : String) (uninit : Nat → Nat) (fuel : Nat) (data offsets : List Nat)
    (needles : List (List Nat)) (nd : List (List Nat)) (no : List Nat) (res : List Nat)
    (init init' : Nat) (xs ys : List Nat) (hlen : (xs ++ ys).length < wordSize) :
    (∀ zs, List.Perm xs zs → aggregate init xs = aggregate init' zs) ∧
    aggregate init (xs ++ ys) = combine (aggregate init xs) (aggregate init ys) ∧
    ((vectorConstant I name uninit fuel data offsets needles res).status = Status.returned →
      ∀ j, j < offsets.length →
        (vectorConstant I name uninit fuel data offsets needles res).res.getD j 0
          = aggregate init (rowResults
              (vectorConstant I name uninit fuel data offsets needles res).calls j)) ∧
    ((vectorVector I uninit fuel data offsets nd no res).status = Status.returned →
      ∀ j, j < offsets.length →
        (vectorVector I uninit fuel data offsets nd no res).res.getD j 0
          = aggregate init (rowResults
              (vectorVector I uninit fuel data offsets nd no res).calls j)) := by
  have hx : xs.length < wordSize := by
    simp only [List.length_append] at hlen; omega
  have hy : ys.length < wordSize := by
    simp only [List.length_append] at hlen; omega
  refine ⟨?_, ?_, ?_, ?_⟩
  · intro zs hperm
    rw [aggregate_eq_minNonzero init xs hx,
      aggregate_eq_minNonzero init' zs (by rw [← hperm.length_eq]; exact hx)]
    exact minNonzero_congr xs zs (fun r => hperm.mem_iff)
  · rw [aggregate_eq_minNonzero init _ hlen, aggregate_eq_minNonzero init xs hx,
      aggregate_eq_minNonzero init ys hy]
    exact minNonzero_append xs ys
  · intro hret j hj
    by_cases h : 255 < needles.length
    · rw [vectorConstant_throws I name uninit fuel data offsets needles res h] at hret
      cases hret
    · rw [vectorConstant_runs I name uninit fuel data offsets needles res (by omega)]
        at hret ⊢
      obtain ⟨news, h1, h2⟩ := constantPasses_aggregate I data offsets fuel _ 0 _ []
        (resize_length res offsets.length uninit) hret j hj
      rw [h2, h1, rowResults_nil, List.nil_append]
      exact aggregateFrom_zero_indep _ _ _
  · intro hret j hj
    unfold vectorVector at hret ⊢
    rw [vectorRows_aggregate I fuel data nd no j offsets 0 0 0 [] _ [] (Nat.zero_le j)
      (by omega) (by rw [resize_length]; exact hj) rfl hret]
    exact aggregateFrom_zero_indep _ _ _

/-- Witness of C15: the pass results `5, 0, 3` followed by `0, 2, 0`. -/
theorem C15_witness :
    ([5, 0, 3] ++ [0, 2, 0]).length < wordSize ∧
    aggregate 9 [5, 0, 3] = 3 ∧ aggregate 9 [0, 2, 0] = 2 ∧
    aggregate 9 ([5, 0, 3] ++ [0, 2, 0]) = 2 ∧ combine 3 2 = 2 ∧
    aggregate 9 [5, 0, 3] = aggregate 1 [3, 5, 0] ∧
    aggregate 9 ([5, 0, 3] ++ [0, 2, 0])
      = combine (aggregate 9 [5, 0, 3]) (aggregate 9 [0, 2, 0]) :=
  ⟨by decide, by decide, by decide, by decide, by decide,
    (C15_aggregation_independent_of_order_and_split refImpl "multiSearchFirstPosition"
      (fun _ => 7) 10 [] [] [] [] [] [] 9 1 [5, 0, 3] [0, 2, 0] (by decide)).1 [3, 5, 0]
      (by decide),
    (C15_aggregation_independent_of_order_and_split refImpl "multiSearchFirstPosition"
      (fun _ => 7) 10 [] [] [] [] [] [] 9 1 [5, 0, 3] [0, 2, 0] (by decide)).2.1⟩

end MultiSearchFirstPosition
